import Mathlib

/-!
# Verification of the covid-data-public schema-normalization core

Shallow embedding of the shared schema-normalization convention of the
covid-data-public repository:

* `covidactnow/datapublic/common_fields.py` — the `CommonFields` registry and
  `COMMON_FIELDS_ORDER_MAP` (field declaration order);
* `covidactnow/datapublic/common_df.py` — `fix_df_index`, `write_csv`,
  `read_csv`, `sort_common_field_columns`;
* `scripts/update_helpers.py` — `rename_fields`.

A pandas `DataFrame` is modelled as an index (a list of level names plus, per
row, a tuple of index values) together with named data columns (per row, a list
of cell values).  Cell values are `Value`: null (`pd.NA`/`NaN`), integers,
floats (represented by the exact rational value of the IEEE double), strings
and dates.  Operations that can raise in pandas (`set_index` on a missing
column, `reset_index` colliding with an existing column, `.loc` with a missing
key) return `Option`/`Except`.  Structured log events are returned explicitly
as lists of `Event` values.
-/

namespace CovidDataPublic

/-- A cell value of a table.  `rat q` stands for a Python float whose exact
value is the rational `q` (every IEEE double is an exact rational); `na`
stands for the missing-value markers `pd.NA`/`np.nan`/`None`. -/
inductive Value where
  | na
  | int (n : ℤ)
  | rat (q : ℚ)
  | str (s : String)
  | date (y m d : ℕ)
  | bool (b : Bool)
  | inf (neg : Bool)
deriving DecidableEq, Repr

instance : Inhabited Value := ⟨Value.na⟩

/-- The code points of a string, in order.  Python compares strings
lexicographically by code point; this is the comparison key. -/
def strCodes (s : String) : List ℕ :=
  s.data.map Char.toNat

/-- Python's `<=` on `str`: lexicographic by code point. -/
def pyLe (a b : String) : Prop :=
  strCodes a ≤ strCodes b

instance : DecidableRel pyLe := fun a b =>
  inferInstanceAs (Decidable (strCodes a ≤ strCodes b))

instance : IsTotal String pyLe :=
  ⟨fun a b => le_total (strCodes a) (strCodes b)⟩

instance : IsTrans String pyLe :=
  ⟨fun _ _ _ h h' => le_trans h h'⟩

instance : IsAntisymm String pyLe :=
  ⟨fun a b h h' => by
    refine String.ext (List.map_injective_iff.mpr ?_ (le_antisymm h h'))
    intro c d hcd
    exact Char.ext (UInt32.eq_of_val_eq (Fin.val_injective hcd))⟩

instance : IsRefl String pyLe :=
  ⟨fun _ => le_refl _⟩

/-- Sort key of a cell value: a rank separating the kinds, the numeric value
for numbers (dates are keyed by `y*10000 + m*100 + d` at their own rank), and
the code points for strings.  Comparison is lexicographic, mirroring how
pandas orders homogeneous index values; mixed kinds are given a fixed rank
order so that sorting is total in the model. -/
def Value.sortKey : Value → ℕ ×ₗ ℚ ×ₗ List ℕ
  | .na => (0, 0, [])
  | .int n => (1, (n : ℚ), [])
  | .rat q => (1, q, [])
  | .str s => (2, 0, strCodes s)
  | .date y m d => (3, ((y * 10000 + m * 100 + d : ℕ) : ℚ), [])
  | .bool b => (4, if b then 1 else 0, [])
  | .inf neg => (5, if neg then -1 else 1, [])

/-- Lexicographic comparison of index tuples (row keys), value by value. -/
def tupleKey (vs : List Value) : List (ℕ ×ₗ ℚ ×ₗ List ℕ) :=
  vs.map Value.sortKey

/-- A pandas `DataFrame`: index level names (`none` is an unnamed level, the
default `RangeIndex` has names `[none]`), data column names, and rows.  Each
row is a pair of its index-value tuple and its data-cell list. -/
structure DataFrame where
  indexNames : List (Option String)
  colNames : List String
  rows : List (List Value × List Value)
deriving DecidableEq, Repr

/-- Rectangularity: each row has exactly one index value per index level and
one cell per column, as any real pandas frame does. -/
def DataFrame.WF (df : DataFrame) : Prop :=
  ∀ r ∈ df.rows, r.1.length = df.indexNames.length ∧ r.2.length = df.colNames.length

instance : DecidablePred DataFrame.WF := fun df =>
  inferInstanceAs (Decidable (∀ r ∈ df.rows, _ ∧ _))

/-- Structured log events emitted by the embedded functions, in emission
order.  Each constructor corresponds to one `log.warning`/`log.info` call in
the source. -/
inductive Event where
  | fixingIndex (currentIndex : List (Option String))
  | droppingIndexColumn
  | writingDataFrame (currentIndex : List (Option String))
  | unexpectedColumns (extraFields missingFields : Finset String)
deriving DecidableEq

/-! ## The field registry (`common_fields.py`) -/

/-- The values of the `CommonFields` enum, in declaration order.  This order
defines `COMMON_FIELDS_ORDER_MAP = {common: i for i, common in
enumerate(CommonFields)}`. -/
def COMMON_FIELDS : List String :=
  [ "fips", "date", "state", "country", "county", "aggregate_level",
    "state_full_name", "cases", "deaths", "recovered",
    "new_cases", "new_deaths", "weekly_new_cases", "weekly_new_deaths",
    "model_abbr", "forecast_date", "quantile",
    "cumulative_hospitalized", "cumulative_icu",
    "positive_tests", "negative_tests", "total_tests",
    "current_icu", "current_hospitalized", "current_ventilated",
    "population", "staffed_beds", "licensed_beds", "icu_beds",
    "all_beds_occupancy_rate", "icu_occupancy_rate", "max_bed_count",
    "ventilator_capacity", "hospital_beds_in_use_any",
    "current_hospitalized_total", "current_icu_total",
    "contact_tracers_count", "latitude", "longitude" ]

/-- `COMMON_FIELDS_ORDER_MAP.get(col)`: the declaration index of a registry
field, `none` for a column not in the registry.  The `str`-mixin of the
`CommonFields` enum makes members hash and compare like their string values,
so lookup with a plain string finds the field. -/
def ORDER_MAP (col : String) : Option ℕ :=
  COMMON_FIELDS.findIdx? (fun s => s = col)

/-- `COMMON_FIELDS_TIMESERIES_KEYS = [CommonFields.FIPS, CommonFields.DATE]`. -/
def TIMESERIES_KEYS : List String := ["fips", "date"]

/-- Index names of a frame whose index is the CAN timeseries key. -/
def canonicalIndexNames : List (Option String) := TIMESERIES_KEYS.map some

/-! ## DataFrame primitives -/

/-- Positions of all data columns carrying the given name (pandas selects by
label, so a duplicated name selects every matching column). -/
def DataFrame.colIdxs (df : DataFrame) (name : String) : List ℕ :=
  (List.range df.colNames.length).filter (fun i => df.colNames.getD i "" = name)

/-- The cells of the `j`-th data column, top to bottom. -/
def DataFrame.colCells (df : DataFrame) (j : ℕ) : List Value :=
  df.rows.map (fun r => r.2.getD j Value.na)

/-- The values of the `i`-th index level, top to bottom. -/
def DataFrame.idxCells (df : DataFrame) (i : ℕ) : List Value :=
  df.rows.map (fun r => r.1.getD i Value.na)

/-- Keep only the data columns at the given positions, in the given order
(the core of pandas column selection / reordering). -/
def DataFrame.selectCols (df : DataFrame) (idxs : List ℕ) : DataFrame :=
  { df with colNames := idxs.map (df.colNames.getD · ""),
            rows := df.rows.map (fun r => (r.1, idxs.map (r.2.getD · Value.na))) }

/-- The column names `reset_index` gives the former index levels: the level
name when there is one, else `index` for a single unnamed level and
`level_i` for unnamed levels of a MultiIndex. -/
def resetLevelNames (names : List (Option String)) : List String :=
  (List.range names.length).map (fun i =>
    match names.getD i none with
    | some s => s
    | none => if names.length = 1 then "index" else "level_" ++ toString i)

/-- `df.reset_index(inplace=False)`: move every index level into a data
column, inserted at the front in level order; an unnamed single level becomes
column `index`, unnamed levels of a MultiIndex become `level_i`.  The new
index is the default `RangeIndex` (name `none`, values `0, 1, ...`).  pandas
raises (`cannot insert ..., already exists`) when an inserted name collides
with an existing column or another inserted name: modelled as `none`. -/
def DataFrame.resetIndex (df : DataFrame) : Option DataFrame :=
  if (resetLevelNames df.indexNames).Nodup ∧
      ∀ s ∈ resetLevelNames df.indexNames, s ∉ df.colNames then
    some { indexNames := [none],
           colNames := resetLevelNames df.indexNames ++ df.colNames,
           rows := df.rows.enum.map (fun p => ([Value.int p.1], p.2.1 ++ p.2.2)) }
  else none

/-- Map a partial function over a list, failing when any element fails
(`Option`-valued `mapM`). -/
def listMapOpt {α β : Type} (f : α → Option β) : List α → Option (List β)
  | [] => some []
  | a :: l =>
    match f a, listMapOpt f l with
    | some b, some bs => some (b :: bs)
    | _, _ => none

/-- `df.set_index(keys, inplace=False)`: make the named columns the new index
(in key order), dropping them from the data columns and discarding the old
index.  pandas raises when a key is missing or ambiguous: modelled as
`none`. -/
def DataFrame.setIndex (df : DataFrame) (keys : List String) : Option DataFrame := do
  let idxs ← listMapOpt (fun k =>
    match df.colIdxs k with
    | [i] => some i
    | _ => none) keys
  let keep := (List.range df.colNames.length).filter (fun i => !(idxs.contains i))
  some { indexNames := keys.map some,
         colNames := keep.map (df.colNames.getD · ""),
         rows := df.rows.map (fun r =>
           (idxs.map (r.2.getD · Value.na), keep.map (r.2.getD · Value.na))) }

/-- Row comparison used by `df.sort_index()`: lexicographic over the index
tuple. -/
def rowLe (r s : List Value × List Value) : Prop :=
  tupleKey r.1 ≤ tupleKey s.1

instance : DecidableRel rowLe := fun r s =>
  inferInstanceAs (Decidable (tupleKey r.1 ≤ tupleKey s.1))

instance : IsTotal (List Value × List Value) rowLe :=
  ⟨fun r s => le_total (tupleKey r.1) (tupleKey s.1)⟩

instance : IsTrans (List Value × List Value) rowLe :=
  ⟨fun _ _ _ h h' => le_trans h h'⟩

/-- `df.sort_index()`: sort rows by index value, ascending.  (Modelled with a
stable sort.) -/
def DataFrame.sortIndex (df : DataFrame) : DataFrame :=
  { df with rows := List.insertionSort rowLe df.rows }

/-- `df.drop(columns=name)`: remove every data column with that name. -/
def DataFrame.dropColumn (df : DataFrame) (name : String) : DataFrame :=
  df.selectCols ((List.range df.colNames.length).filter
    (fun i => !(df.colNames.getD i "" == name)))

/-! ## `sort_common_field_columns` (`common_df.py`) -/

/-- The dict comprehension
`{col: COMMON_FIELDS_ORDER_MAP.get(col, i + len(COMMON_FIELDS_ORDER_MAP))
  for i, col in enumerate(sorted(df.columns))}`
as an association list in insertion order. -/
def columnsOrderDict (cols : List String) : List (String × ℕ) :=
  (List.insertionSort pyLe cols).enum.map
    (fun p => (p.2, (ORDER_MAP p.2).getD (p.1 + COMMON_FIELDS.length)))

/-- Lookup in the dict: the last insertion for a key wins. -/
def columnKey (cols : List String) (c : String) : ℕ :=
  ((columnsOrderDict cols).reverse.lookup c).getD 0

/-- The sort key of the column at position `i`. -/
def colSortKey (cols : List String) (i : ℕ) : ℕ :=
  columnKey cols (cols.getD i "")

/-- The column positions in output order: a stable sort of the positions by
the dict value of their name. -/
def colPerm (cols : List String) : List ℕ :=
  List.insertionSort (fun i j => colSortKey cols i ≤ colSortKey cols j)
    (List.range cols.length)

/-- `sort_common_field_columns(df)`: reorder the data columns so CommonFields
come first in registry-declaration order, followed by the remaining columns
in alphabetical order (`df.loc[:, sorted(df.columns, key=...)]`, a stable
sort of the columns by the dict value of their name). -/
def DataFrame.sortCommonFieldColumns (df : DataFrame) : DataFrame :=
  df.selectCols (colPerm df.colNames)

/-! ## `fix_df_index` (`common_df.py`) -/

/-- Second half of `fix_df_index`, after the index itself has been fixed:
`df = df.sort_index()`, then drop a stray column literally named `index`
(with a warning), then `sort_common_field_columns`. -/
def fixTail (df1 : DataFrame) (evs : List Event) : DataFrame × List Event :=
  let df2 := df1.sortIndex
  if "index" ∈ df2.colNames then
    ((df2.dropColumn "index").sortCommonFieldColumns, evs ++ [Event.droppingIndexColumn])
  else
    (df2.sortCommonFieldColumns, evs)

/-- First half of `fix_df_index`: if the index names are not already the
timeseries keys, warn, `reset_index` unless the index is the trivial unnamed
one, and `set_index` on the keys.  `none` models the pandas exceptions
(`KeyError` from `set_index` on a frame without the key columns, collisions
in `reset_index`). -/
def fixHead (df : DataFrame) : Option (DataFrame × List Event) :=
  if df.indexNames = canonicalIndexNames then
    some (df, [])
  else
    ((if df.indexNames ≠ [none] then df.resetIndex else some df).bind
        (fun dfr => dfr.setIndex TIMESERIES_KEYS)).map
      (fun dfs => (dfs, [Event.fixingIndex df.indexNames]))

/-- `fix_df_index(df, log)`: ensure the index is the CAN CommonFields
timeseries key (warning when it has to be fixed), sort rows by it, drop a
stray column literally named `index` (warning), and order columns
canonically. -/
def fixDfIndex (df : DataFrame) : Option (DataFrame × List Event) :=
  (fixHead df).map (fun p => fixTail p.1 p.2)

/-! ## Decimal rendering: `float_format="%.12g"` and friends -/

/-- One decimal digit as a character (only applied to digits `< 10`). -/
def digitToChar : ℕ → Char
  | 8 => '8' | 7 => '7' | 6 => '6' | 5 => '5' | 4 => '4'
  | 3 => '3' | 2 => '2' | 1 => '1' | 0 => '0' | _ => '9'

/-- Decimal digit of a character, `none` for non-digits. -/
def charToDigit : Char → Option ℕ
  | '9' => some 9 | '8' => some 8 | '7' => some 7 | '6' => some 6 | '5' => some 5
  | '4' => some 4 | '3' => some 3 | '2' => some 2 | '1' => some 1 | '0' => some 0
  | _ => none

/-- Base-10 digits, least significant first, by structural recursion on a
fuel argument (so that proofs by kernel computation can evaluate it). -/
def digits10Core : ℕ → ℕ → List ℕ
  | 0, _ => []
  | _, 0 => []
  | fuel + 1, n + 1 => (n + 1) % 10 :: digits10Core fuel ((n + 1) / 10)

/-- Base-10 digits of `n`, least significant first (empty for `0`). -/
def digits10 (n : ℕ) : List ℕ :=
  digits10Core n n

/-- `⌊log₁₀ n⌋` for `n ≥ 1`: one less than the digit count. -/
def log10 (n : ℕ) : ℕ :=
  (digits10 n).length - 1

/-- Decimal digits of `n`, most significant first (empty for `0`). -/
def natDigitsMSB (n : ℕ) : List ℕ :=
  (digits10 n).reverse

/-- Decimal rendering of a natural number (as Python prints an `int`). -/
def renderNat (n : ℕ) : List Char :=
  if n = 0 then ['0'] else (natDigitsMSB n).map digitToChar

/-- Decimal rendering of an integer (as Python prints an `int`). -/
def renderInt (n : ℤ) : List Char :=
  if n < 0 then '-' :: renderNat n.natAbs else renderNat n.natAbs

/-- The decimal exponent of `|q|` for `q ≠ 0`: the unique `e` with
`10^e ≤ |q| < 10^(e+1)`.  Computed on the numerator and denominator: the
candidate `log₁₀|num| - log₁₀ den` is off by one exactly when `|q|` is still
below `10^candidate`, tested by cross-multiplication. -/
def decExp (q : ℚ) : ℤ :=
  let n := q.num.natAbs
  let d := q.den
  let c : ℤ := (log10 n : ℤ) - (log10 d : ℤ)
  let lt : Bool :=
    if 0 ≤ c then decide (n < d * 10 ^ c.toNat)
    else decide (n * 10 ^ (-c).toNat < d)
  if lt then c - 1 else c

/-- Round the fraction `n / d` (`d > 0`, not necessarily reduced) to the
nearest integer, ties to even (IEEE default, used by printf when formatting
a double): `f = ⌊n/d⌋` and the doubled remainder `2*(n - f*d)` decides
between `f` and `f + 1`. -/
def roundHalfEvenND (n d : ℤ) : ℤ :=
  let f := n.fdiv d
  let r2 := 2 * (n - f * d)
  if r2 < d then f
  else if d < r2 then f + 1
  else if f % 2 = 0 then f else f + 1

/-- Round to the nearest integer, ties to even. -/
def roundHalfEven (x : ℚ) : ℤ :=
  roundHalfEvenND x.num x.den

/-- Round `|q|` (`q ≠ 0`) to `P` significant decimal digits: returns the
significand `n` (an integer in `[10^(P-1), 10^P)`) and the decimal exponent
`e` of the rounded value, so that `|q|` rounds to `n * 10^(e-P+1)`.  The
scaling `|q| * 10^(P-1-e)` is performed on the numerator or the denominator
according to the sign of the exponent. -/
def sigRound (P : ℕ) (q : ℚ) : ℤ × ℤ :=
  let e := decExp q
  let k := (P : ℤ) - 1 - e
  let sn : ℤ := if 0 ≤ k then (q.num.natAbs : ℤ) * 10 ^ k.toNat else (q.num.natAbs : ℤ)
  let sd : ℤ := if 0 ≤ k then (q.den : ℤ) else (q.den : ℤ) * 10 ^ (-k).toNat
  let n := roundHalfEvenND sn sd
  if n = 10 ^ P then ((10 : ℤ) ^ (P - 1), e + 1) else (n, e)

/-- Significant digits of a significand, most significant first, trailing
zeros stripped. -/
def sigDigitsOf (n : ℕ) : List ℕ :=
  ((digits10 n).dropWhile (· = 0)).reverse

/-- `%g` fixed-notation rendering of the positive value with significant
digits `ds` (most significant first, no trailing zeros) and decimal exponent
`e`: the value is `0.d₁…d_k × 10^(e+1)`. -/
def renderFixed (ds : List ℕ) (e : ℤ) : List Char :=
  if 0 ≤ e then
    if ds.length ≤ e.toNat + 1 then
      (ds ++ List.replicate (e.toNat + 1 - ds.length) 0).map digitToChar
    else
      ((ds.take (e.toNat + 1)).map digitToChar) ++
        '.' :: (ds.drop (e.toNat + 1)).map digitToChar
  else
    '0' :: '.' :: (List.replicate (-(e + 1)).toNat 0 ++ ds).map digitToChar

/-- The `e±XX` exponent suffix of `%g` scientific notation (printf pads the
exponent to at least two digits). -/
def renderExpPart (e : ℤ) : List Char :=
  let sgn := if e < 0 then '-' else '+'
  let a := e.natAbs
  let digs := if a < 10 then [0, a] else natDigitsMSB a
  'e' :: sgn :: digs.map digitToChar

/-- `%g` scientific-notation rendering: `d[.ddd]e±XX`, trailing zeros already
stripped from `ds`. -/
def renderSci (ds : List ℕ) (e : ℤ) : List Char :=
  match ds with
  | [] => ['0']
  | d :: rest =>
    (digitToChar d :: (if rest = [] then [] else '.' :: rest.map digitToChar)) ++
      renderExpPart e

/-- `"%.Pg" % q` for a (rational-valued) double `q`: round to `P` significant
digits, then use fixed notation when the decimal exponent of the rounded
value lies in `[-4, P)` and scientific notation otherwise; trailing
fractional zeros (and a bare trailing point) are removed. -/
def fmtG (P : ℕ) (q : ℚ) : List Char :=
  if q = 0 then ['0']
  else
    let s := if q < 0 then ['-'] else []
    let ne := sigRound P q
    let ds := sigDigitsOf ne.1.natAbs
    if ne.2 < -4 ∨ (P : ℤ) ≤ ne.2 then s ++ renderSci ds ne.2
    else s ++ renderFixed ds ne.2

/-! ## Cell and column serialization (`write_csv` body) -/

/-- zero-padded 2-digit field of a date. -/
def pad2 (n : ℕ) : List Char :=
  [n / 10 % 10, n % 10].map digitToChar

/-- zero-padded 4-digit year of a date. -/
def pad4 (n : ℕ) : List Char :=
  [n / 1000 % 10, n / 100 % 10, n / 10 % 10, n % 10].map digitToChar

/-- `date_format="%Y-%m-%d"`. -/
def renderDate (y m d : ℕ) : List Char :=
  pad4 y ++ '-' :: pad2 m ++ '-' :: pad2 d

def Value.isNumOrNa : Value → Bool
  | .na => true | .int _ => true | .rat _ => true | .inf _ => true | _ => false

/-- Integral-or-missing: the cells of a column pandas `convert_dtypes` turns
into a nullable `Int64` column. -/
def Value.isIntegralOrNa : Value → Bool
  | .na => true | .int _ => true | .rat q => q.den = 1 | _ => false

def Value.isIntOrNa : Value → Bool
  | .na => true | .int _ => true | _ => false

def Value.isDateOrNa : Value → Bool
  | .na => true | .date _ _ _ => true | _ => false

/-- `str()` of a Python float, as it appears when a float sits inside an
`object`-dtype column: integral floats print with a trailing `.0`;
non-integral floats print in (approximately) shortest round-trip form,
modelled by `%.17g`. -/
def pyFloatRepr (q : ℚ) : List Char :=
  if q.den = 1 then renderInt q.num ++ ['.', '0'] else fmtG 17 q

/-- A cell of an integer (`Int64`) column: missing prints as the empty field,
integers in full. -/
def renderIntCell : Value → List Char
  | .na => []
  | .int n => renderInt n
  | .rat q => renderInt q.num
  | .str s => s.data
  | .date y m d => renderDate y m d
  | .bool b => if b then "True".data else "False".data
  | .inf neg => if neg then '-' :: "inf".data else "inf".data

/-- A cell of a float column: missing prints as the empty field, values
through `float_format="%.12g"`. -/
def renderFloatCell : Value → List Char
  | .na => []
  | .int n => fmtG 12 (n : ℚ)
  | .rat q => fmtG 12 q
  | .str s => s.data
  | .date y m d => renderDate y m d
  | .bool b => if b then "True".data else "False".data
  | .inf neg => if neg then '-' :: "inf".data else "inf".data

/-- A cell of an `object` column: strings verbatim, floats via `str()`,
missing as the empty field. -/
def renderObjCell : Value → List Char
  | .na => []
  | .int n => renderInt n
  | .rat q => pyFloatRepr q
  | .str s => s.data
  | .date y m d => renderDate y m d
  | .bool b => if b then "True".data else "False".data
  | .inf neg => if neg then '-' :: "inf".data else "inf".data

/-- Serialize one column as `to_csv` does, after `convert_dtypes`: a datetime
column through `date_format`, an all-integer column as `Int64`, a numeric
column with fractional values through `float_format="%.12g"`, anything else
as `object` via `str()`. -/
def renderColumn (cells : List Value) : List (List Char) :=
  if cells.all Value.isDateOrNa then
    cells.map (fun v => match v with | .date y m d => renderDate y m d | _ => [])
  else if cells.all Value.isNumOrNa then
    if cells.all Value.isIntOrNa then cells.map renderIntCell
    else cells.map renderFloatCell
  else
    cells.map renderObjCell

/-- `df.replace({pd.NA: np.nan}).convert_dtypes()`: the two missing-value
markers are a single `Value.na` in the model, and a numeric column whose
values are all integral (or missing) becomes an integer column. -/
def DataFrame.convertDtypes (df : DataFrame) : DataFrame :=
  let cols := (List.range df.colNames.length).map df.colCells
  let cols' := cols.map (fun cells =>
    if (cells.all Value.isNumOrNa) && (cells.all Value.isIntegralOrNa) then
      cells.map (fun v => match v with | .rat q => .int q.num | v => v)
    else cells)
  { df with rows := df.rows.enum.map (fun p => (p.2.1, cols'.map (fun c => c.getD p.1 Value.na))) }

/-- The serialized cell grid of a frame: index columns first, then data
columns, each rendered by dtype, re-assembled into lines. -/
structure Csv where
  header : List String
  lines : List (List String)
deriving DecidableEq, Repr

/-- Render the body of the CSV: every index level and data column serialized
per-column, then transposed back into rows. -/
def writeCells (df : DataFrame) : List (List String) :=
  let idxCols := (List.range df.indexNames.length).map (fun i => renderColumn (df.idxCells i))
  let datCols := (List.range df.colNames.length).map (fun j => renderColumn (df.colCells j))
  let cols := idxCols ++ datCols
  (List.range df.rows.length).map (fun i => cols.map (fun c => String.mk (c.getD i [])))

/-- `write_csv(df, path, log)`: `fix_df_index`, log `Writing DataFrame`,
`replace({pd.NA: np.nan}).convert_dtypes()`, then
`to_csv(path, date_format="%Y-%m-%d", index=True, float_format="%.12g")`.
Returns the CSV written to `path` and the log events. -/
def writeCsv (df : DataFrame) : Option (Csv × List Event) :=
  (fixDfIndex df).map (fun p =>
    let dfc := p.1.convertDtypes
    ({ header := p.1.indexNames.map (fun o => o.getD "") ++ p.1.colNames,
       lines := writeCells dfc },
     p.2 ++ [Event.writingDataFrame p.1.indexNames]))

/-! ## CSV parsing (`read_csv`) -/

/-- Parse a non-empty all-digit string. -/
def parseNat : List Char → Option ℕ
  | [] => none
  | cs =>
    (cs.mapM charToDigit).map (fun ds => ds.foldl (fun acc d => 10 * acc + d) 0)

/-- Parse an optionally-signed integer literal, as the pandas parser
recognizes an `int64` cell. -/
def parseIntStr : List Char → Option ℤ
  | '-' :: cs => (parseNat cs).map (fun n => -(n : ℤ))
  | cs => (parseNat cs).map (fun n => (n : ℤ))

/-- Split off the longest leading run of decimal digits. -/
def spanDigits (cs : List Char) : List ℕ × List Char :=
  match cs with
  | [] => ([], [])
  | c :: rest =>
    match charToDigit c with
    | some d =>
      let p := spanDigits rest
      (d :: p.1, p.2)
    | none => ([], cs)

/-- Digits left of the point, digits right of the point, and the rest. -/
def splitMantissa (cs : List Char) : List ℕ × List ℕ × List Char :=
  let ip := spanDigits cs
  match ip.2 with
  | '.' :: rest =>
    let fp := spanDigits rest
    (ip.1, fp.1, fp.2)
  | rest => (ip.1, [], rest)

def digitsVal (ds : List ℕ) : ℕ :=
  ds.foldl (fun acc d => 10 * acc + d) 0

/-- Parse an optionally-signed exponent literal (`[±]digits`). -/
def parseExp : List Char → Option ℤ
  | '+' :: ds => (parseNat ds).map (fun n => (n : ℤ))
  | '-' :: ds => (parseNat ds).map (fun n => -(n : ℤ))
  | ds => (parseNat ds).map (fun n => (n : ℤ))

/-- Parse an unsigned float literal `digits[.digits][e[±]digits]` (at least
one mantissa digit), as the pandas parser recognizes a `float64` cell. -/
def parseFloatPos (cs : List Char) : Option ℚ :=
  let m := splitMantissa cs
  if m.1.length + m.2.1.length = 0 then none
  else
    let mn : ℕ := digitsVal m.1 * 10 ^ m.2.1.length + digitsVal m.2.1
    let md : ℕ := 10 ^ m.2.1.length
    match m.2.2 with
    | [] => some (mkRat mn md)
    | 'e' :: rest =>
      (parseExp rest).map (fun ex =>
        if 0 ≤ ex then mkRat (mn * 10 ^ ex.toNat) md
        else mkRat mn (md * 10 ^ (-ex).toNat))
    | _ => none

/-- Parse an optionally-signed float literal. -/
def parseFloatStr : List Char → Option ℚ
  | '-' :: cs => (parseFloatPos cs).map (fun q => -q)
  | cs => parseFloatPos cs

/-- Parse a `%Y-%m-%d` date. -/
def parseDate (cs : List Char) : Option (ℕ × ℕ × ℕ) :=
  match cs.map charToDigit with
  | [some a, some b, some c, some d, none, some e, some f, none, some g, some h] =>
    if cs.getD 4 ' ' = '-' ∧ cs.getD 7 ' ' = '-' then
      some (a * 1000 + b * 100 + c * 10 + d, e * 10 + f, g * 10 + h)
    else none
  | _ => none

/-- The default `STR_NA_VALUES` set of pandas `read_csv`: a cell equal to
one of these literals is read as missing (`NaN`), both during dtype
inference and under `dtype=str`. -/
def DEFAULT_NA_VALUES : List String :=
  ["", "#N/A", "#N/A N/A", "#NA", "-1.#IND", "-1.#QNAN", "-NaN", "-nan",
   "1.#IND", "1.#QNAN", "<NA>", "N/A", "NA", "NULL", "NaN", "None",
   "n/a", "nan", "null"]

/-- The boolean literals the pandas parser recognizes when inferring a
`bool` column. -/
def TRUE_VALUES : List String := ["True", "TRUE", "true"]

def FALSE_VALUES : List String := ["False", "FALSE", "false"]

def parseBoolStr (cs : List Char) : Option Bool :=
  if TRUE_VALUES.contains (String.mk cs) then some true
  else if FALSE_VALUES.contains (String.mk cs) then some false
  else none

/-- `inf` / `infinity`, case-insensitive, as the parser's float converter
(`xstrtod`) accepts after the optional sign. -/
def parseInfCore (l : List Char) : Bool :=
  (l.map Char.toLower == "inf".data) || (l.map Char.toLower == "infinity".data)

/-- Parse an optionally-signed infinity literal; `some neg` reports the
sign. -/
def parseInfStr (cs : List Char) : Option Bool :=
  if cs.head? = some '-' then
    if parseInfCore cs.tail then some true else none
  else if cs.head? = some '+' then
    if parseInfCore cs.tail then some false else none
  else if parseInfCore cs then some false else none

/-- A non-missing cell of a `float64` column: an infinity literal or a
finite float literal. -/
def parseFloatCell (cs : List Char) : Option Value :=
  match parseInfStr cs with
  | some neg => some (Value.inf neg)
  | none => (parseFloatStr cs).map Value.rat

/-- Column-level type inference of the pandas CSV parser for a data column,
after NA-literal substitution: all non-missing integer literals (with no
missing cell) give `int64`; float or infinity literals give `float64` (with
`NaN` for missing cells); boolean literals give `bool`; anything else is an
`object` column of strings (missing cells still `NaN`). -/
def parseDataColumn (cells : List String) : List Value :=
  let cs := cells.map String.data
  if cs.all (fun c => !(DEFAULT_NA_VALUES.contains (String.mk c)) && (parseIntStr c).isSome) then
    cs.map (fun c => match parseIntStr c with | some n => .int n | none => .na)
  else if cs.all (fun c => DEFAULT_NA_VALUES.contains (String.mk c) || (parseFloatCell c).isSome) then
    cs.map (fun c =>
      if DEFAULT_NA_VALUES.contains (String.mk c) then .na
      else match parseFloatCell c with | some v => v | none => .na)
  else if cs.all (fun c => DEFAULT_NA_VALUES.contains (String.mk c) || (parseBoolStr c).isSome) then
    cs.map (fun c =>
      if DEFAULT_NA_VALUES.contains (String.mk c) then .na
      else match parseBoolStr c with | some b => .bool b | none => .na)
  else
    cs.map (fun c =>
      if DEFAULT_NA_VALUES.contains (String.mk c) then .na else .str (String.mk c))

/-- The `fips` column is read with `dtype={CommonFields.FIPS: str}`; NA
literals are still recognized under `dtype=str`. -/
def parseFipsColumn (cells : List String) : List Value :=
  cells.map (fun c => if DEFAULT_NA_VALUES.contains c then .na else .str c)

/-- The `date` column is read with `parse_dates=[CommonFields.DATE]`; when
every non-missing cell parses the column becomes datetime, otherwise it
stays as strings. -/
def parseDateColumn (cells : List String) : List Value :=
  if cells.all (fun c => DEFAULT_NA_VALUES.contains c || (parseDate c.data).isSome) then
    cells.map (fun c =>
      if DEFAULT_NA_VALUES.contains c then .na
      else match parseDate c.data with
      | some t => .date t.1 t.2.1 t.2.2
      | none => .na)
  else
    cells.map (fun c => if DEFAULT_NA_VALUES.contains c then .na else .str c)

/-- `read_csv(path_or_buf)`: parse with `parse_dates=[DATE]`,
`dtype={FIPS: str}`, then `.set_index(COMMON_FIELDS_TIMESERIES_KEYS)`. -/
def readCsv (csv : Csv) : Option DataFrame :=
  let ncols := csv.header.length
  let cols := (List.range ncols).map (fun j =>
    let name := csv.header.getD j ""
    let strs := csv.lines.map (fun l => l.getD j "")
    if name = "fips" then parseFipsColumn strs
    else if name = "date" then parseDateColumn strs
    else parseDataColumn strs)
  let base : DataFrame :=
    { indexNames := [none],
      colNames := csv.header,
      rows := (List.range csv.lines.length).map (fun i =>
        ([Value.int (Int.ofNat i)], cols.map (fun c => c.getD i Value.na))) }
  base.setIndex TIMESERIES_KEYS

/-! ## `rename_fields` (`scripts/update_helpers.py`) -/

/-- The exceptions `rename_fields` can raise: the `AssertionError` for a
misconfigured field (whose source name is already a key of the rename map)
and the `KeyError` of `df.loc` when an already-transformed field is not a
column. -/
inductive PyError where
  | assertionError (field : String)
  | keyError
deriving DecidableEq, Repr

/-- A source's field mapping: each source column name paired with the
`CommonFields` value it maps to, `none` meaning explicitly dropped. -/
abbrev FieldMapping := List (String × Option String)

/-- `fields.get(col)` followed by the `if field and field.common_field:`
truthiness test: the target of a source column, provided the mapping has a
non-null target and both strings are non-empty (Python string truthiness). -/
def mappedTarget (fields : FieldMapping) (c : String) : Option String :=
  match fields.lookup c with
  | some (some t) => if c ≠ "" ∧ t ≠ "" then some t else none
  | _ => none

/-- The `for col in df.columns:` loop of `rename_fields`, accumulating the
`rename` dict (as an association list in insertion order) and raising
`AssertionError` when a mapped column is already one of its keys. -/
def buildRename (fields : FieldMapping) :
    List String → List (String × String) → Except PyError (List (String × String))
  | [], ren => .ok ren
  | c :: cs, ren =>
    match mappedTarget fields c with
    | some t =>
      if (ren.lookup c).isSome then .error (.assertionError c)
      else buildRename fields cs (ren ++ [(c, t)])
    | none => buildRename fields cs ren

/-- `extra_fields = set(df.columns) - set(fields) - already_transformed_fields`. -/
def renameFieldsExtra (df : DataFrame) (fields : FieldMapping) (atf : List String) :
    Finset String :=
  (df.colNames.toFinset \ (fields.map (·.1)).toFinset) \ atf.toFinset

/-- `missing_fields = set(fields) - set(df.columns)`. -/
def renameFieldsMissing (df : DataFrame) (fields : FieldMapping) : Finset String :=
  (fields.map (·.1)).toFinset \ df.colNames.toFinset

/-- `rename_fields(df, fields, already_transformed_fields, log)`: warn once
(non-fatally) about extra/missing columns, build the rename map (raising on
a misconfigured field), then `df.loc[:, list(rename.keys())]` (raising
`KeyError` when a key is not a column) renamed to the target names.
`already_transformed_fields` is a Python `set`; it is modelled as the list
of its elements in iteration order. -/
def renameFields (df : DataFrame) (fields : FieldMapping) (atf : List String) :
    List Event × Except PyError DataFrame :=
  let extra := renameFieldsExtra df fields atf
  let missing := renameFieldsMissing df fields
  let evs := if extra ≠ ∅ ∨ missing ≠ ∅ then [Event.unexpectedColumns extra missing] else []
  match buildRename fields df.colNames (atf.dedup.map (fun f => (f, f))) with
  | .error e => (evs, .error e)
  | .ok ren =>
    if (ren.map (·.1)).all (fun k => df.colNames.contains k) then
      let idxs := (ren.map (·.1)).flatMap df.colIdxs
      (evs, .ok
        { indexNames := df.indexNames,
          colNames := idxs.map (fun i => ((ren.lookup (df.colNames.getD i "")).getD
            (df.colNames.getD i ""))),
          rows := df.rows.map (fun r => (r.1, idxs.map (r.2.getD · Value.na))) })
    else (evs, .error .keyError)

/-- A frame whose mapping sends two distinct source columns to the same
target field `cases`. -/
def exampleDupTargetFrame : DataFrame :=
  { indexNames := [none], colNames := ["a", "b"],
    rows := [([Value.int 0], [.int 1, .int 2])] }

/-- A broken mapping table: `a` and `b` both map to `cases`. -/
def exampleDupTargetMapping : FieldMapping :=
  [("a", some "cases"), ("b", some "cases")]

/-- The frame of `test_update_covid_county_data_renamed_field`: column
`foobar` is not in the mapping, `hospital_beds_in_use_covid_confirmed` is in
the mapping but not in the frame. -/
def exampleUnexpectedFrame : DataFrame :=
  { indexNames := [none], colNames := ["dt", "foobar"],
    rows := [([Value.int 0], [.str "2020-04-01", .int 7])] }

def exampleUnexpectedMapping : FieldMapping :=
  [("dt", some "date"), ("hospital_beds_in_use_covid_confirmed", none)]

/-- A frame exercising every kind of column `rename_fields` handles: one
already transformed (`fips`), two mapped (`dt`, `cases_total`), one
explicitly dropped (`extra`). -/
def exampleRenameFrame : DataFrame :=
  { indexNames := [none], colNames := ["fips", "dt", "cases_total", "extra"],
    rows := [([Value.int 0], [.str "06", .str "2020-04-01", .int 3, .int 9])] }

def exampleRenameMapping : FieldMapping :=
  [("dt", some "date"), ("cases_total", some "cases"), ("extra", none)]

/-- Count of significant digits in a rendered number: digit characters of
the mantissa (before any `e`), leading zeros dropped. -/
def sigCount (cs : List Char) : ℕ :=
  (((cs.takeWhile (fun c => c != 'e')).filter Char.isDigit).dropWhile
    (fun c => c == '0')).length

/-- A normalized frame holding an integral float too wide for 12 significant
digits, next to a fractional value that keeps the column a float column. -/
def exampleBigFloatFrame : DataFrame :=
  { indexNames := [some "fips", some "date"],
    colNames := ["cases"],
    rows := [([.str "99", .date 2020 4 1], [.rat 12345678901234]),
             ([.str "99", .date 2020 4 2], [.rat (mkRat 1 2)])] }

/-- The frame of `test_remove_index_column`: canonical index and a stray
column literally named `index`. -/
def exampleIndexColFrame : DataFrame :=
  { indexNames := [some "fips", some "date"],
    colNames := ["index", "cases"],
    rows := [([.str "99", .str "2020-04-01"], [.str "a", .int 123])] }

/-- The specified output column order: registry fields before non-registry
fields, registry fields by declaration order, non-registry fields
alphabetically. -/
def colOrderRel (a b : String) : Prop :=
  match ORDER_MAP a, ORDER_MAP b with
  | some i, some j => i ≤ j
  | some _, none => True
  | none, some _ => False
  | none, none => pyLe a b

/-! ## Heap model of `write_csv` (aliasing discipline)

Python variables hold references to `DataFrame` objects.  Every pandas call
in `fix_df_index`/`write_csv` is either passed `inplace=False` explicitly
(`reset_index`, `set_index`) or returns a new frame by default
(`sort_index`, `drop`, `.loc`, `replace`, `convert_dtypes`), and `to_csv`
only reads.  The heap model makes this observable: each step reads its
operand from the heap and appends a fresh frame, so the caller's frame is
untouched iff no step writes in place. -/

instance : Inhabited DataFrame :=
  ⟨{ indexNames := [], colNames := [], rows := [] }⟩

structure Heap where
  frames : List DataFrame

/-- Dereference. -/
def Heap.get (h : Heap) (r : ℕ) : DataFrame :=
  h.frames.getD r default

/-- Allocate a fresh frame, returning its reference. -/
def Heap.alloc (h : Heap) (df : DataFrame) : Heap × ℕ :=
  (⟨h.frames ++ [df]⟩, h.frames.length)

/-- A fallible pandas call with `inplace=False`: read, compute, allocate. -/
def applyOp (f : DataFrame → Option DataFrame) (h : Heap) (r : ℕ) : Option (Heap × ℕ) :=
  (f (h.get r)).map h.alloc

/-- A total pandas call returning a new frame: read, compute, allocate. -/
def applyOpTotal (f : DataFrame → DataFrame) (h : Heap) (r : ℕ) : Heap × ℕ :=
  h.alloc (f (h.get r))

/-- Heap-level `fixHead`: the index-fixing half of `fix_df_index`, with
`df = df.reset_index(inplace=False)` and
`df = df.set_index(keys, inplace=False)` rebinding the local name to a
fresh frame. -/
def fixHeadH (h : Heap) (r : ℕ) : Option (Heap × ℕ × List Event) :=
  if (h.get r).indexNames = canonicalIndexNames then
    some (h, r, [])
  else
    ((if (h.get r).indexNames ≠ [none] then applyOp DataFrame.resetIndex h r
      else some (h, r)).bind
        (fun p => applyOp (fun d => d.setIndex TIMESERIES_KEYS) p.1 p.2)).map
      (fun p => (p.1, p.2, [Event.fixingIndex (h.get r).indexNames]))

/-- Heap-level `fixTail`: `df = df.sort_index()`, the `index`-column drop
(`df = df.drop(columns="index")`), and
`df = sort_common_field_columns(df)`, each allocating. -/
def fixTailH (h : Heap) (r : ℕ) (evs : List Event) : Heap × ℕ × List Event :=
  let p2 := applyOpTotal DataFrame.sortIndex h r
  let p3 :=
    if "index" ∈ (p2.1.get p2.2).colNames then
      (applyOpTotal (fun d => d.dropColumn "index") p2.1 p2.2,
        evs ++ [Event.droppingIndexColumn])
    else (p2, evs)
  let p4 := applyOpTotal DataFrame.sortCommonFieldColumns p3.1.1 p3.1.2
  (p4.1, p4.2, p3.2)

def fixDfIndexH (h : Heap) (r : ℕ) : Option (Heap × ℕ × List Event) :=
  (fixHeadH h r).map (fun p => fixTailH p.1 p.2.1 p.2.2)

/-- Heap-level `write_csv`: `fix_df_index`, then
`df = df.replace({pd.NA: np.nan}).convert_dtypes()` (two chained copying
calls — `replace` is the identity in the model since both missing markers
are one `Value.na`), then `to_csv`, which only reads the frame. -/
def writeCsvH (h : Heap) (r : ℕ) : Option (Heap × Csv × List Event) :=
  (fixDfIndexH h r).map (fun p =>
    let pr := applyOpTotal (fun d => d) p.1 p.2.1
    let pc := applyOpTotal DataFrame.convertDtypes pr.1 pr.2
    (pc.1,
     { header := (p.1.get p.2.1).indexNames.map (fun o => o.getD "") ++
         (p.1.get p.2.1).colNames,
       lines := writeCells (pc.1.get pc.2) },
     p.2.2 ++ [Event.writingDataFrame (p.1.get p.2.1).indexNames]))

/-- `h'` extends `h`: every frame live in `h` is still there, unchanged. -/
def heapGrows (h h' : Heap) : Prop :=
  h.frames.length ≤ h'.frames.length ∧
    ∀ j, j < h.frames.length → h'.get j = h.get j

/-! ## Concrete example frames (used to instantiate the theorems) -/

/-- The spec's example input: columns `[date, fips, extra1, cases, extra2]`
and no declared index. -/
def exampleRawFrame : DataFrame :=
  { indexNames := [none],
    colNames := ["date", "fips", "extra1", "cases", "extra2"],
    rows := [([Value.int 0], [.str "2020-04-02", .str "45123", .int 1, .int 456, .int 2]),
             ([Value.int 1], [.str "2020-04-01", .str "06045", .int 3, .int 234, .int 4])] }

/-! ## C3 definitions: the column classes of the round trip -/

/-- The per-column action of `replace({pd.NA: np.nan}).convert_dtypes()`: a
numeric column whose values are all integral (or missing) becomes a nullable
integer column, any other column is untouched (the column body of
`DataFrame.convertDtypes`). -/
def convertCol (cells : List Value) : List Value :=
  if (cells.all Value.isNumOrNa) && (cells.all Value.isIntegralOrNa) then
    cells.map (fun v => match v with | .rat q => .int q.num | v => v)
  else cells

/-- Characters of the writer's numeric and date renderings: digits, the
decimal point, the exponent marker and the signs. No default NA literal
consists solely of these. -/
def numLikeChar (c : Char) : Bool :=
  c.isDigit || (['.', 'e', '+', '-'] : List Char).contains c

/-- Characters that can occur in a numeric, boolean or infinity literal of
the CSV parser (digits, whitespace, sign, point, exponent marker, and the
letters of `inf`/`infinity`/`True`/`False` in either case). -/
def nonNumericChar (c : Char) : Bool :=
  !(c.isDigit || ([' ', '\t', '+', '-', '.', 'e', 'E'] : List Char).contains c ||
    ("infinitytruefalse".data).contains c.toLower)

/-- Data-column contents that survive the write/read round trip unchanged:
an integer column; a float column of doubles exactly representable with 12
significant decimal digits that stays a float column on reading (a
fractional value, or a missing cell next to at least one value); or a
string column none of whose strings is an NA literal, with at least one
cell holding a character that can occur in no numeric, boolean or infinity
literal. -/
def ColOk (cells : List Value) : Prop :=
  (∀ v ∈ cells, ∃ n : ℤ, v = Value.int n) ∨
  ((∀ v ∈ cells, v = Value.na ∨ ∃ q : ℚ, v = Value.rat q ∧
      ∃ m t : ℤ, q = (m : ℚ) * (10 : ℚ) ^ t ∧ m.natAbs < 10 ^ 12) ∧
    ((∃ q : ℚ, Value.rat q ∈ cells ∧ q.den ≠ 1) ∨
      (Value.na ∈ cells ∧ ∃ q : ℚ, Value.rat q ∈ cells))) ∨
  ((∀ v ∈ cells, v = Value.na ∨ ∃ s : String, v = Value.str s ∧ s ∉ DEFAULT_NA_VALUES) ∧
    ∃ s : String, Value.str s ∈ cells ∧ s.data.any nonNumericChar = true)

/-- A normalized frame whose values are exactly representable in 12
significant decimal digits: the write/read round trip reproduces it. -/
def exampleRoundTripFrame : DataFrame :=
  { indexNames := [some "fips", some "date"],
    colNames := ["cases"],
    rows := [([.str "36", .date 2020 3 2], [.rat (mkRat 1 2)]),
             ([.str "36", .date 2020 3 3], [.na])] }

/-! ## General lemmas about the embedded operations -/

theorem DataFrame.selectCols_indexNames (df : DataFrame) (idxs : List ℕ) :
    (df.selectCols idxs).indexNames = df.indexNames := rfl

theorem DataFrame.selectCols_rows (df : DataFrame) (idxs : List ℕ) :
    (df.selectCols idxs).rows =
      df.rows.map (fun r => (r.1, idxs.map (r.2.getD · Value.na))) := rfl

theorem DataFrame.sortIndex_indexNames (df : DataFrame) :
    df.sortIndex.indexNames = df.indexNames := rfl

theorem DataFrame.sortIndex_colNames (df : DataFrame) :
    df.sortIndex.colNames = df.colNames := rfl

theorem DataFrame.sortCommonFieldColumns_indexNames (df : DataFrame) :
    df.sortCommonFieldColumns.indexNames = df.indexNames := rfl

theorem DataFrame.dropColumn_indexNames (df : DataFrame) (name : String) :
    (df.dropColumn name).indexNames = df.indexNames := rfl

theorem DataFrame.setIndex_eq_some_indexNames {df df' : DataFrame} {keys : List String}
    (h : df.setIndex keys = some df') : df'.indexNames = keys.map some := by
  unfold DataFrame.setIndex at h
  cases hm : listMapOpt (fun k =>
      match df.colIdxs k with
      | [i] => some i
      | _ => none) keys with
  | none => rw [hm] at h; simp at h
  | some idxs =>
    rw [hm] at h
    simp only [Option.bind_eq_bind, Option.some_bind, Option.some.injEq] at h
    rw [← h]

/-- Sortedness of rows only depends on the index tuples, so any map that
keeps each row's index tuple preserves it. -/
theorem rows_map_fst_sorted {l : List (List Value × List Value)}
    {f : List Value × List Value → List Value × List Value}
    (hf : ∀ r, (f r).1 = r.1) (h : l.Sorted rowLe) :
    (l.map f).Sorted rowLe := by
  rw [List.Sorted, List.pairwise_map]
  refine h.imp ?_
  intro a b hab
  unfold rowLe at *
  rw [hf a, hf b]
  exact hab

theorem DataFrame.selectCols_sorted (df : DataFrame) (idxs : List ℕ)
    (h : df.rows.Sorted rowLe) : (df.selectCols idxs).rows.Sorted rowLe := by
  show (df.rows.map (fun r => (r.1, idxs.map (r.2.getD · Value.na)))).Sorted rowLe
  exact rows_map_fst_sorted (fun r => rfl) h

theorem DataFrame.sortCommonFieldColumns_sorted (df : DataFrame)
    (h : df.rows.Sorted rowLe) : df.sortCommonFieldColumns.rows.Sorted rowLe :=
  df.selectCols_sorted _ h

theorem DataFrame.dropColumn_sorted (df : DataFrame) (name : String)
    (h : df.rows.Sorted rowLe) : (df.dropColumn name).rows.Sorted rowLe :=
  df.selectCols_sorted _ h

theorem DataFrame.sortIndex_sorted (df : DataFrame) :
    df.sortIndex.rows.Sorted rowLe :=
  List.sorted_insertionSort rowLe df.rows

theorem fixTail_indexNames (df1 : DataFrame) (evs : List Event) :
    (fixTail df1 evs).1.indexNames = df1.indexNames := by
  unfold fixTail
  by_cases hi : "index" ∈ df1.sortIndex.colNames <;> simp [hi] <;> rfl

theorem fixTail_sorted (df1 : DataFrame) (evs : List Event) :
    (fixTail df1 evs).1.rows.Sorted rowLe := by
  unfold fixTail
  by_cases hi : "index" ∈ df1.sortIndex.colNames
  · rw [if_pos hi]
    exact ((df1.sortIndex.dropColumn "index").sortCommonFieldColumns_sorted
      (df1.sortIndex.dropColumn_sorted "index" df1.sortIndex_sorted))
  · rw [if_neg hi]
    exact df1.sortIndex.sortCommonFieldColumns_sorted df1.sortIndex_sorted

theorem fixHead_indexNames {df df1 : DataFrame} {evs : List Event}
    (h : fixHead df = some (df1, evs)) : df1.indexNames = canonicalIndexNames := by
  unfold fixHead at h
  by_cases hc : df.indexNames = canonicalIndexNames
  · rw [if_pos hc] at h
    simp only [Option.some.injEq, Prod.mk.injEq] at h
    rw [← h.1, hc]
  · rw [if_neg hc] at h
    obtain ⟨dfs, hbind, hpair⟩ := Option.map_eq_some'.mp h
    obtain ⟨dfr, -, hs⟩ := Option.bind_eq_some.mp hbind
    obtain ⟨rfl, -⟩ := Prod.mk.injEq .. ▸ hpair
    exact dfr.setIndex_eq_some_indexNames hs

/-! ## C1 -/

/-- C1: whenever `fix_df_index` returns a DataFrame, that DataFrame's index
names are exactly `[fips, date]` — regardless of the input's prior index
state — and its rows are sorted ascending, lexicographically over the
`(fips, date)` index tuples. -/
theorem C1_fix_df_index_canonical_index_and_sorted
    (df out : DataFrame) (evs : List Event)
    (h : fixDfIndex df = some (out, evs)) :
    out.indexNames = canonicalIndexNames ∧ out.rows.Sorted rowLe := by
  obtain ⟨⟨df1, evs1⟩, hh, ht⟩ := Option.map_eq_some'.mp h
  have h1 : (fixTail df1 evs1).1 = out := congrArg Prod.fst ht
  rw [← h1]
  refine ⟨(fixTail_indexNames _ _).trans ?_, fixTail_sorted _ _⟩
  exact fixHead_indexNames hh

/-- C1 witness: `fix_df_index` on the spec's example frame (columns
`[date, fips, extra1, cases, extra2]`, no declared index) succeeds, and the
theorem applies to it. -/
theorem C1_witness :
    ∃ out evs, fixDfIndex exampleRawFrame = some (out, evs) ∧
      out.indexNames = canonicalIndexNames ∧ out.rows.Sorted rowLe :=
  ⟨_, _, rfl, C1_fix_df_index_canonical_index_and_sorted exampleRawFrame _ _ rfl⟩

/-! ## C2: column ordering of written CSVs -/

theorem lookup_eq_some_of_uniq {l : List (String × ℕ)} {c : String} {k : ℕ}
    (hex : ∃ p ∈ l, p.1 = c) (huniq : ∀ p ∈ l, p.1 = c → p.2 = k) :
    l.lookup c = some k := by
  induction l with
  | nil => simp at hex
  | cons a l ih =>
    obtain ⟨k', v'⟩ := a
    rw [List.lookup_cons]
    by_cases hac : c = k'
    · have hb : (c == k') = true := beq_iff_eq.mpr hac
      rw [hb]
      exact congrArg some (huniq (k', v') (List.mem_cons_self _ _) hac.symm)
    · have hb : (c == k') = false := beq_eq_false_iff_ne.mpr hac
      rw [hb]
      apply ih
      · obtain ⟨p, hp, hpc⟩ := hex
        rcases List.mem_cons.mp hp with h | h
        · exact absurd (by rw [← hpc, h]) hac
        · exact ⟨p, h, hpc⟩
      · intro p hp hpc
        exact huniq p (List.mem_cons_of_mem _ hp) hpc

theorem lookup_mem_of_eq_some {l : List (String × ℕ)} {c : String} {v : ℕ}
    (h : l.lookup c = some v) : (c, v) ∈ l := by
  induction l with
  | nil => simp at h
  | cons a l ih =>
    obtain ⟨k', v'⟩ := a
    rw [List.lookup_cons] at h
    by_cases hac : c = k'
    · have hb : (c == k') = true := beq_iff_eq.mpr hac
      rw [hb] at h
      cases h
      subst hac
      exact List.mem_cons_self _ _
    · have hb : (c == k') = false := beq_eq_false_iff_ne.mpr hac
      rw [hb] at h
      exact List.mem_cons_of_mem _ (ih h)

theorem lookup_isSome_of_key {l : List (String × ℕ)} {c : String}
    (hex : ∃ p ∈ l, p.1 = c) : ∃ v, l.lookup c = some v := by
  induction l with
  | nil => simp at hex
  | cons a l ih =>
    obtain ⟨k', v'⟩ := a
    rw [List.lookup_cons]
    by_cases hac : c = k'
    · have hb : (c == k') = true := beq_iff_eq.mpr hac
      rw [hb]
      exact ⟨v', rfl⟩
    · have hb : (c == k') = false := beq_eq_false_iff_ne.mpr hac
      rw [hb]
      apply ih
      obtain ⟨p, hp, hpc⟩ := hex
      rcases List.mem_cons.mp hp with h | h
      · exact absurd (by rw [← hpc, h]) hac
      · exact ⟨p, h, hpc⟩

/-- Every entry of the columns-order dict comes from a position of the
alphabetically sorted column list, with the dict value determined by the
registry or that position. -/
theorem columnsOrderDict_mem {cols : List String} {p : String × ℕ}
    (h : p ∈ columnsOrderDict cols) :
    ∃ i, (List.insertionSort pyLe cols).get? i = some p.1 ∧
      p.2 = (ORDER_MAP p.1).getD (i + COMMON_FIELDS.length) := by
  unfold columnsOrderDict at h
  obtain ⟨⟨i, c⟩, hic, hp⟩ := List.mem_map.mp h
  refine ⟨i, ?_, ?_⟩
  · rw [← hp]
    simpa using List.mk_mem_enum_iff_getElem?.mp hic
  · rw [← hp]

theorem columnsOrderDict_entry {cols : List String} {i : ℕ} {c : String}
    (h : (List.insertionSort pyLe cols).get? i = some c) :
    (c, (ORDER_MAP c).getD (i + COMMON_FIELDS.length)) ∈ columnsOrderDict cols := by
  unfold columnsOrderDict
  refine List.mem_map.mpr ⟨(i, c), ?_, rfl⟩
  exact List.mk_mem_enum_iff_getElem?.mpr (by simpa using h)

/-- A registry column's dict value is its registry index. -/
theorem columnKey_registry {cols : List String} {c : String} {k : ℕ}
    (hc : c ∈ cols) (hk : ORDER_MAP c = some k) : columnKey cols c = k := by
  have hmem : c ∈ List.insertionSort pyLe cols := (List.perm_insertionSort pyLe cols).symm.subset hc
  obtain ⟨i, hi⟩ := List.get?_of_mem hmem
  have hent := columnsOrderDict_entry hi
  unfold columnKey
  rw [lookup_eq_some_of_uniq (k := k)]
  · rfl
  · refine ⟨(c, (ORDER_MAP c).getD (i + COMMON_FIELDS.length)), List.mem_reverse.mpr hent, rfl⟩
  · intro p hp hpc
    obtain ⟨j, hj, hv⟩ := columnsOrderDict_mem (List.mem_reverse.mp hp)
    rw [hv, hpc, hk]
    rfl

/-- A non-registry column's dict value is `N` plus some position of the
column in the alphabetically sorted column list. -/
theorem columnKey_unknown {cols : List String} {c : String}
    (hc : c ∈ cols) (hk : ORDER_MAP c = none) :
    ∃ i, (List.insertionSort pyLe cols).get? i = some c ∧
      columnKey cols c = i + COMMON_FIELDS.length := by
  have hmem : c ∈ List.insertionSort pyLe cols := (List.perm_insertionSort pyLe cols).symm.subset hc
  obtain ⟨i0, hi0⟩ := List.get?_of_mem hmem
  have hent := columnsOrderDict_entry hi0
  obtain ⟨v, hv⟩ := lookup_isSome_of_key
    ⟨(c, (ORDER_MAP c).getD (i0 + COMMON_FIELDS.length)), List.mem_reverse.mpr hent, rfl⟩
  dsimp only at hv
  obtain ⟨j, hj, hjv⟩ := columnsOrderDict_mem (List.mem_reverse.mp (lookup_mem_of_eq_some hv))
  dsimp only at hj hjv
  rw [hk] at hjv
  refine ⟨j, hj, ?_⟩
  unfold columnKey
  rw [hv, hjv]
  rfl

/-- A registry index is below the registry size. -/
theorem ORDER_MAP_lt {c : String} {k : ℕ} (h : ORDER_MAP c = some k) :
    k < COMMON_FIELDS.length := by
  have := List.findIdx?_eq_some_iff_findIdx_eq.mp h
  omega

/-- Key comparison implies the specified column order, for columns of the
list the keys were built from. -/
theorem colOrderRel_of_key_le {cols : List String} {a b : String}
    (ha : a ∈ cols) (hb : b ∈ cols)
    (h : columnKey cols a ≤ columnKey cols b) : colOrderRel a b := by
  unfold colOrderRel
  cases hka : ORDER_MAP a with
  | some i =>
    cases hkb : ORDER_MAP b with
    | some j =>
      rw [columnKey_registry ha hka, columnKey_registry hb hkb] at h
      exact h
    | none => trivial
  | none =>
    cases hkb : ORDER_MAP b with
    | some j =>
      obtain ⟨ia, hia, hkey⟩ := columnKey_unknown ha hka
      rw [hkey, columnKey_registry hb hkb] at h
      exact absurd h (by have := ORDER_MAP_lt hkb; omega)
    | none =>
      obtain ⟨ia, hia, hkeya⟩ := columnKey_unknown ha hka
      obtain ⟨ib, hib, hkeyb⟩ := columnKey_unknown hb hkb
      rw [hkeya, hkeyb] at h
      have hij : ia ≤ ib := by omega
      have hlen_a : ia < (List.insertionSort pyLe cols).length :=
        List.get?_eq_some.mp hia |>.1
      have hlen_b : ib < (List.insertionSort pyLe cols).length :=
        List.get?_eq_some.mp hib |>.1
      have hsorted : (List.insertionSort pyLe cols).Sorted pyLe :=
        List.sorted_insertionSort pyLe cols
      have := hsorted.rel_get_of_le (a := ⟨ia, hlen_a⟩) (b := ⟨ib, hlen_b⟩) hij
      rw [(List.get?_eq_some.mp hia).2] at this
      rwa [(List.get?_eq_some.mp hib).2] at this

/-- `sort_common_field_columns` puts registry columns first in registry
order and the rest alphabetically. -/
instance colSortKeyLeTotal (cols : List String) :
    IsTotal ℕ (fun i j => colSortKey cols i ≤ colSortKey cols j) :=
  ⟨fun _ _ => Nat.le_total _ _⟩

instance colSortKeyLeTrans (cols : List String) :
    IsTrans ℕ (fun i j => colSortKey cols i ≤ colSortKey cols j) :=
  ⟨fun _ _ _ h h' => le_trans h h'⟩

instance colSortKeyLeRefl (cols : List String) :
    IsRefl ℕ (fun i j => colSortKey cols i ≤ colSortKey cols j) :=
  ⟨fun _ => le_refl _⟩

theorem colPerm_perm_range (cols : List String) :
    List.Perm (colPerm cols) (List.range cols.length) :=
  List.perm_insertionSort _ _

theorem colPerm_sorted (cols : List String) :
    (colPerm cols).Sorted (fun i j => colSortKey cols i ≤ colSortKey cols j) :=
  List.sorted_insertionSort _ _

theorem sortCommonFieldColumns_pairwise (df : DataFrame) :
    df.sortCommonFieldColumns.colNames.Pairwise colOrderRel := by
  have hperm := colPerm_perm_range df.colNames
  have hsorted := colPerm_sorted df.colNames
  simp only [DataFrame.sortCommonFieldColumns, DataFrame.selectCols]
  rw [List.pairwise_map]
  refine hsorted.imp_of_mem ?_
  intro i j hi hj hij
  have hi' : i < df.colNames.length := by
    have := hperm.subset hi
    simpa using this
  have hj' : j < df.colNames.length := by
    have := hperm.subset hj
    simpa using this
  have hmi : df.colNames.getD i "" ∈ df.colNames := by
    have he : df.colNames.getD i "" = df.colNames[i] := by
      simp [List.getD_eq_getElem?_getD, List.getElem?_eq_getElem hi']
    rw [he]
    exact List.getElem_mem _
  have hmj : df.colNames.getD j "" ∈ df.colNames := by
    have he : df.colNames.getD j "" = df.colNames[j] := by
      simp [List.getD_eq_getElem?_getD, List.getElem?_eq_getElem hj']
    rw [he]
    exact List.getElem_mem _
  exact colOrderRel_of_key_le hmi hmj hij

theorem fixTail_pairwise (df1 : DataFrame) (evs : List Event) :
    (fixTail df1 evs).1.colNames.Pairwise colOrderRel := by
  unfold fixTail
  by_cases hi : "index" ∈ df1.sortIndex.colNames
  · rw [if_pos hi]
    exact sortCommonFieldColumns_pairwise _
  · rw [if_neg hi]
    exact sortCommonFieldColumns_pairwise _

/-- C2: every CSV written through `write_csv` has header `fips, date`
followed by the data columns with all registry (CommonFields) columns first,
in registry declaration order, and all non-registry columns after them in
alphabetical order. -/
theorem C2_write_csv_column_order (df : DataFrame) (csv : Csv) (evs : List Event)
    (h : writeCsv df = some (csv, evs)) :
    ∃ cols, csv.header = "fips" :: "date" :: cols ∧ cols.Pairwise colOrderRel := by
  obtain ⟨⟨out, evs1⟩, hfix, hmk⟩ := Option.map_eq_some'.mp h
  obtain ⟨hidx, -⟩ := C1_fix_df_index_canonical_index_and_sorted df out evs1 hfix
  have h1 := congrArg Prod.fst hmk
  dsimp only at h1
  have hhdr : csv.header = out.indexNames.map (fun o => o.getD "") ++ out.colNames := by
    rw [← h1]
  refine ⟨out.colNames, ?_, ?_⟩
  · rw [hhdr, hidx]
    rfl
  · obtain ⟨⟨df1, e1⟩, hh, ht⟩ := Option.map_eq_some'.mp hfix
    have h2 : (fixTail df1 e1).1 = out := congrArg Prod.fst ht
    rw [← h2]
    exact fixTail_pairwise df1 e1

/-- C2 witness: the spec's example scenario — input columns
`[date, fips, extra1, cases, extra2]`, no declared index — produces exactly
the header `fips,date,cases,extra1,extra2`, and the theorem applies. -/
theorem C2_witness :
    ∃ csv evs, writeCsv exampleRawFrame = some (csv, evs) ∧
      (∃ cols, csv.header = "fips" :: "date" :: cols ∧ cols.Pairwise colOrderRel) ∧
      csv.header = ["fips", "date", "cases", "extra1", "extra2"] :=
  ⟨_, _, rfl, C2_write_csv_column_order exampleRawFrame _ _ rfl, rfl⟩

/-! ## C8: the stray `index` column is always dropped -/

theorem forall₂_of_listMapOpt_eq_some {α β : Type} {f : α → Option β} :
    ∀ {l : List α} {l' : List β}, listMapOpt f l = some l' →
      List.Forall₂ (fun a b => f a = some b) l l' := by
  intro l
  induction l with
  | nil => intro l' h; cases h; exact .nil
  | cons a l ih =>
    intro l' h
    unfold listMapOpt at h
    cases hf : f a with
    | none => rw [hf] at h; simp at h
    | some b =>
      rw [hf] at h
      cases hm : listMapOpt f l with
      | none => rw [hm] at h; simp at h
      | some bs =>
        rw [hm] at h
        simp only [Option.some.injEq] at h
        rw [← h]
        exact .cons hf (ih hm)

theorem mem_of_forall₂_right {α β : Type} {R : α → β → Prop} :
    ∀ {l : List α} {l' : List β}, List.Forall₂ R l l' → ∀ b ∈ l', ∃ a ∈ l, R a b := by
  intro l l' h
  induction h with
  | nil => intro b hb; cases hb
  | cons hab _ ih =>
    intro b hb
    rcases List.mem_cons.mp hb with rfl | hb
    · exact ⟨_, List.mem_cons_self _ _, hab⟩
    · obtain ⟨a, ha, hr⟩ := ih b hb
      exact ⟨a, List.mem_cons_of_mem _ ha, hr⟩

/-- A non-key column survives `set_index`. -/
theorem DataFrame.setIndex_mem_colNames {df df' : DataFrame} {keys : List String}
    (h : df.setIndex keys = some df') {x : String}
    (hx : x ∈ df.colNames) (hxk : x ∉ keys) : x ∈ df'.colNames := by
  unfold DataFrame.setIndex at h
  cases hm : listMapOpt (fun k =>
      match df.colIdxs k with
      | [i] => some i
      | _ => none) keys with
  | none => rw [hm] at h; simp at h
  | some idxs =>
    rw [hm] at h
    simp only [Option.bind_eq_bind, Option.some_bind, Option.some.injEq] at h
    obtain ⟨p, hp, hpx⟩ := List.mem_iff_getElem.mp hx
    have hpidx : p ∉ idxs := by
      intro hpin
      obtain ⟨k, hk, hfk⟩ := mem_of_forall₂_right (forall₂_of_listMapOpt_eq_some hm) p hpin
      have hpk : p ∈ df.colIdxs k := by
        cases hc : df.colIdxs k with
        | nil => rw [hc] at hfk; simp at hfk
        | cons a t =>
          rw [hc] at hfk
          cases t with
          | nil =>
            simp only [Option.some.injEq] at hfk
            subst hfk
            exact List.mem_singleton_self _
          | cons b t2 => simp at hfk
      have hfilt := (List.mem_filter.mp hpk).2
      have hnm : df.colNames.getD p "" = k := by simpa using hfilt
      have hgd : df.colNames.getD p "" = df.colNames[p] := by
        simp [List.getD_eq_getElem?_getD, List.getElem?_eq_getElem hp]
      rw [hgd, hpx] at hnm
      apply hxk
      rw [hnm]
      exact hk
    rw [← h]
    refine List.mem_map.mpr ⟨p, ?_, ?_⟩
    · refine List.mem_filter.mpr ⟨by simpa using hp, ?_⟩
      simp [hpidx]
    · simp [List.getD_eq_getElem?_getD, List.getElem?_eq_getElem hp, hpx]

theorem fixHead_mem_index {df df1 : DataFrame} {evs : List Event}
    (h : fixHead df = some (df1, evs)) (hx : "index" ∈ df.colNames) :
    "index" ∈ df1.colNames := by
  unfold fixHead at h
  by_cases hc : df.indexNames = canonicalIndexNames
  · rw [if_pos hc] at h
    simp only [Option.some.injEq, Prod.mk.injEq] at h
    rw [← h.1]
    exact hx
  · rw [if_neg hc] at h
    obtain ⟨dfs, hbind, hpair⟩ := Option.map_eq_some'.mp h
    obtain ⟨dfr, hr, hs⟩ := Option.bind_eq_some.mp hbind
    obtain ⟨rfl, -⟩ := Prod.mk.injEq .. ▸ hpair
    have hxr : "index" ∈ dfr.colNames := by
      by_cases hn : df.indexNames ≠ [none]
      · rw [if_pos hn] at hr
        unfold DataFrame.resetIndex at hr
        split at hr
        · simp only [Option.some.injEq] at hr
          rw [← hr]
          exact List.mem_append_right _ hx
        · simp at hr
      · rw [if_neg hn] at hr
        cases hr
        exact hx
    exact dfr.setIndex_mem_colNames hs hxr (by decide)

theorem DataFrame.dropColumn_not_mem (df : DataFrame) (name : String) :
    name ∉ (df.dropColumn name).colNames := by
  intro hmem
  obtain ⟨i, hi, hgd⟩ := List.mem_map.mp hmem
  have h2 := (List.mem_filter.mp hi).2
  rw [hgd] at h2
  simp at h2

theorem DataFrame.sortCommonFieldColumns_not_mem {df : DataFrame} {name : String}
    (hne : name ≠ "") (h : name ∉ df.colNames) :
    name ∉ df.sortCommonFieldColumns.colNames := by
  intro hmem
  obtain ⟨i, hi, hgd⟩ := List.mem_map.mp hmem
  by_cases hlt : i < df.colNames.length
  · apply h
    rw [← hgd]
    have he : df.colNames.getD i "" = df.colNames[i] := by
      simp [List.getD_eq_getElem?_getD, List.getElem?_eq_getElem hlt]
    rw [he]
    exact List.getElem_mem _
  · rw [List.getD_eq_getElem?_getD, List.getElem?_eq_none (by omega)] at hgd
    exact hne hgd.symm

/-- C8: whenever a frame carrying a column literally named `index` passes
through `fix_df_index` successfully, the returned frame does not carry that
column and the `Dropping column named 'index'` warning was emitted — also
when the incoming index was already the canonical `(fips, date)` pair. -/
theorem C8_fix_df_index_drops_index_column
    (df out : DataFrame) (evs : List Event)
    (hx : "index" ∈ df.colNames) (h : fixDfIndex df = some (out, evs)) :
    "index" ∉ out.colNames ∧ Event.droppingIndexColumn ∈ evs := by
  obtain ⟨⟨df1, e1⟩, hh, ht⟩ := Option.map_eq_some'.mp h
  have hx0 : "index" ∈ df1.colNames := fixHead_mem_index hh hx
  have hx1 : "index" ∈ df1.sortIndex.colNames := hx0
  unfold fixTail at ht
  rw [if_pos hx1] at ht
  have h1 : (df1.sortIndex.dropColumn "index").sortCommonFieldColumns = out :=
    congrArg Prod.fst ht
  have h2 : e1 ++ [Event.droppingIndexColumn] = evs := congrArg Prod.snd ht
  constructor
  · rw [← h1]
    exact DataFrame.sortCommonFieldColumns_not_mem (by decide)
      (DataFrame.dropColumn_not_mem _ _)
  · rw [← h2]
    simp

/-- C8 witness: the frame of `test_remove_index_column` (canonical index,
stray `index` column). -/
theorem C8_witness :
    "index" ∈ exampleIndexColFrame.colNames ∧
    ∃ out evs, fixDfIndex exampleIndexColFrame = some (out, evs) ∧
      "index" ∉ out.colNames ∧ Event.droppingIndexColumn ∈ evs :=
  ⟨by decide, _, _, rfl,
    C8_fix_df_index_drops_index_column exampleIndexColFrame _ _ (by decide) rfl⟩

/-! ## C10: idempotence of `fix_df_index` -/

theorem map_getD_range {α : Type} (l : List α) (d : α) :
    (List.range l.length).map (fun i => l.getD i d) = l := by
  apply List.ext_getElem
  · simp
  · intro i h1 h2
    simp only [List.getElem_map, List.getElem_range]
    simp [List.getD_eq_getElem?_getD, List.getElem?_eq_getElem h2]

/-- Selecting all columns in positional order is the identity on
rectangular frames. -/
theorem DataFrame.selectCols_range (df : DataFrame)
    (hrows : ∀ r ∈ df.rows, r.2.length = df.colNames.length) :
    df.selectCols (List.range df.colNames.length) = df := by
  obtain ⟨idx, cn, rows⟩ := df
  unfold DataFrame.selectCols
  simp only [DataFrame.mk.injEq, true_and]
  constructor
  · exact map_getD_range cn ""
  · have : ∀ r ∈ rows, (r.1, (List.range cn.length).map (fun i => r.2.getD i Value.na)) = r := by
      intro r hr
      have hlen : r.2.length = cn.length := hrows r hr
      rw [← hlen, map_getD_range r.2 Value.na]
    calc rows.map (fun r => (r.1, (List.range cn.length).map (fun i => r.2.getD i Value.na)))
        = rows.map id := List.map_congr_left this
      _ = rows := List.map_id rows

/-- The columns-order dict only depends on the multiset of column names. -/
theorem columnKey_congr_perm {cols cols' : List String}
    (h : List.Perm cols cols') (c : String) :
    columnKey cols c = columnKey cols' c := by
  have hsort : List.insertionSort pyLe cols = List.insertionSort pyLe cols' := by
    refine List.eq_of_perm_of_sorted ?_ (List.sorted_insertionSort pyLe cols)
      (List.sorted_insertionSort pyLe cols')
    exact ((List.perm_insertionSort pyLe cols).trans h).trans
      (List.perm_insertionSort pyLe cols').symm
  unfold columnKey columnsOrderDict
  rw [hsort]

theorem DataFrame.sortCommonFieldColumns_colNames_perm (df : DataFrame) :
    List.Perm df.sortCommonFieldColumns.colNames df.colNames := by
  have h1 : List.Perm ((colPerm df.colNames).map (fun i => df.colNames.getD i ""))
      ((List.range df.colNames.length).map (fun i => df.colNames.getD i "")) :=
    (colPerm_perm_range df.colNames).map _
  rw [map_getD_range df.colNames ""] at h1
  exact h1

theorem DataFrame.sortCommonFieldColumns_rows_len (df : DataFrame) :
    ∀ r ∈ df.sortCommonFieldColumns.rows,
      r.2.length = df.sortCommonFieldColumns.colNames.length := by
  intro r hr
  obtain ⟨r0, -, rfl⟩ := List.mem_map.mp hr
  simp [DataFrame.sortCommonFieldColumns, DataFrame.selectCols]

/-- `sort_common_field_columns` is idempotent: its output's positions are
already sorted by their dict value. -/
theorem DataFrame.sortCommonFieldColumns_idem (df : DataFrame) :
    df.sortCommonFieldColumns.sortCommonFieldColumns = df.sortCommonFieldColumns := by
  have hlen : df.sortCommonFieldColumns.colNames.length = (colPerm df.colNames).length := by
    simp [DataFrame.sortCommonFieldColumns, DataFrame.selectCols]
  have hlenp : (colPerm df.colNames).length = df.colNames.length :=
    (colPerm_perm_range df.colNames).length_eq.trans (List.length_range _)
  have hkey : ∀ c, columnKey df.sortCommonFieldColumns.colNames c = columnKey df.colNames c :=
    columnKey_congr_perm df.sortCommonFieldColumns_colNames_perm
  have hgetd : ∀ i, i < (colPerm df.colNames).length →
      df.sortCommonFieldColumns.colNames.getD i "" =
        df.colNames.getD ((colPerm df.colNames).getD i 0) "" := by
    intro i hi
    show ((colPerm df.colNames).map (fun j => df.colNames.getD j "")).getD i "" = _
    rw [List.getD_eq_getElem?_getD, List.getElem?_eq_getElem (by simpa using hi)]
    rw [List.getD_eq_getElem?_getD (colPerm df.colNames), List.getElem?_eq_getElem hi]
    simp
  have hsortedRange : (List.range df.sortCommonFieldColumns.colNames.length).Sorted
      (fun i j => colSortKey df.sortCommonFieldColumns.colNames i ≤
        colSortKey df.sortCommonFieldColumns.colNames j) := by
    rw [List.Sorted, List.pairwise_iff_getElem]
    intro i j hi hj hij
    simp only [List.getElem_range]
    have hi' : i < (colPerm df.colNames).length := by
      rw [List.length_range] at hi
      omega
    have hj' : j < (colPerm df.colNames).length := by
      rw [List.length_range] at hj
      omega
    unfold colSortKey
    rw [hkey, hkey, hgetd i hi', hgetd j hj']
    have hrel := (colPerm_sorted df.colNames).rel_get_of_le
      (a := ⟨i, hi'⟩) (b := ⟨j, hj'⟩) (by exact_mod_cast Nat.le_of_lt hij)
    unfold colSortKey at hrel
    have hgi : (colPerm df.colNames).getD i 0 = (colPerm df.colNames).get ⟨i, hi'⟩ := by
      rw [List.getD_eq_getElem?_getD, List.getElem?_eq_getElem hi']
      simp
    have hgj : (colPerm df.colNames).getD j 0 = (colPerm df.colNames).get ⟨j, hj'⟩ := by
      rw [List.getD_eq_getElem?_getD, List.getElem?_eq_getElem hj']
      simp
    rw [hgi, hgj]
    exact hrel
  have hperm_eq : colPerm df.sortCommonFieldColumns.colNames =
      List.range df.sortCommonFieldColumns.colNames.length :=
    List.Sorted.insertionSort_eq hsortedRange
  show df.sortCommonFieldColumns.selectCols (colPerm df.sortCommonFieldColumns.colNames) =
    df.sortCommonFieldColumns
  rw [hperm_eq]
  exact df.sortCommonFieldColumns.selectCols_range df.sortCommonFieldColumns_rows_len

theorem fixTail_not_mem_index (df1 : DataFrame) (evs : List Event) :
    "index" ∉ (fixTail df1 evs).1.colNames := by
  unfold fixTail
  by_cases hi : "index" ∈ df1.sortIndex.colNames
  · rw [if_pos hi]
    exact DataFrame.sortCommonFieldColumns_not_mem (by decide)
      (DataFrame.dropColumn_not_mem _ _)
  · rw [if_neg hi]
    exact DataFrame.sortCommonFieldColumns_not_mem (by decide) hi

theorem fixTail_sortCols_fixpoint (df1 : DataFrame) (evs : List Event) :
    (fixTail df1 evs).1.sortCommonFieldColumns = (fixTail df1 evs).1 := by
  unfold fixTail
  by_cases hi : "index" ∈ df1.sortIndex.colNames
  · rw [if_pos hi]
    exact DataFrame.sortCommonFieldColumns_idem _
  · rw [if_neg hi]
    exact DataFrame.sortCommonFieldColumns_idem _

theorem DataFrame.sortIndex_eq_self {df : DataFrame} (h : df.rows.Sorted rowLe) :
    df.sortIndex = df := by
  unfold DataFrame.sortIndex
  rw [List.Sorted.insertionSort_eq h]

/-- C10: `fix_df_index` is idempotent — a second application to a successful
result returns the very same frame, takes the already-canonical branch, and
emits no warning at all (no `Fixing DataFrame index`, no column drop). -/
theorem C10_fix_df_index_idempotent (df out : DataFrame) (evs : List Event)
    (h : fixDfIndex df = some (out, evs)) :
    fixDfIndex out = some (out, []) := by
  obtain ⟨⟨df1, e1⟩, hh, ht⟩ := Option.map_eq_some'.mp h
  have hout : (fixTail df1 e1).1 = out := congrArg Prod.fst ht
  have hidx : out.indexNames = canonicalIndexNames := by
    rw [← hout]
    exact (fixTail_indexNames _ _).trans (fixHead_indexNames hh)
  have hsorted : out.rows.Sorted rowLe := by
    rw [← hout]
    exact fixTail_sorted _ _
  have hnm : "index" ∉ out.colNames := by
    rw [← hout]
    exact fixTail_not_mem_index _ _
  have hfixcols : out.sortCommonFieldColumns = out := by
    rw [← hout]
    exact fixTail_sortCols_fixpoint _ _
  have hsi : out.sortIndex = out := DataFrame.sortIndex_eq_self hsorted
  have hhead : fixHead out = some (out, []) := by
    unfold fixHead
    rw [if_pos hidx]
  have hft : fixTail out [] = (out, []) := by
    unfold fixTail
    rw [hsi, if_neg hnm, hfixcols]
  unfold fixDfIndex
  rw [hhead, Option.map_some']
  exact congrArg some hft

/-- C10 witness: a concrete frame on which `fix_df_index` succeeds, whose
result is a fixpoint. -/
theorem C10_witness :
    ∃ out evs, fixDfIndex exampleIndexColFrame = some (out, evs) ∧
      fixDfIndex out = some (out, []) :=
  ⟨_, _, rfl, C10_fix_df_index_idempotent exampleIndexColFrame _ _ rfl⟩

/-! ## C4, C5, C6: `rename_fields` -/

theorem buildRename_nil {fields : FieldMapping} {ren : List (String × String)} :
    buildRename fields [] ren = .ok ren := rfl

theorem buildRename_cons_unmapped {fields : FieldMapping} {c : String}
    {cs : List String} {ren : List (String × String)}
    (hm : mappedTarget fields c = none) :
    buildRename fields (c :: cs) ren = buildRename fields cs ren := by
  conv_lhs => unfold buildRename
  rw [hm]

theorem buildRename_cons_collision {fields : FieldMapping} {c t : String}
    {cs : List String} {ren : List (String × String)}
    (hm : mappedTarget fields c = some t) (hl : (ren.lookup c).isSome = true) :
    buildRename fields (c :: cs) ren = .error (.assertionError c) := by
  conv_lhs => unfold buildRename
  rw [hm]
  dsimp only
  rw [if_pos hl]

theorem buildRename_cons_mapped {fields : FieldMapping} {c t : String}
    {cs : List String} {ren : List (String × String)}
    (hm : mappedTarget fields c = some t) (hl : (ren.lookup c).isSome = false) :
    buildRename fields (c :: cs) ren = buildRename fields cs (ren ++ [(c, t)]) := by
  conv_lhs => unfold buildRename
  rw [hm]
  dsimp only
  rw [if_neg (by simp [hl])]

theorem lookup_map_pair {l : List String} {g : String → String} {k : String} (h : k ∈ l) :
    (l.map (fun c => (c, g c))).lookup k = some (g k) := by
  induction l with
  | nil => cases h
  | cons a t ih =>
    by_cases hak : k = a
    · subst hak
      rw [List.map_cons, List.lookup_cons]
      simp
    · rw [List.map_cons, List.lookup_cons]
      have hb : (k == a) = false := beq_eq_false_iff_ne.mpr hak
      rw [hb]
      refine ih ?_
      rcases List.mem_cons.mp h with h' | h'
      · exact absurd h' hak
      · exact h'

theorem lookup_map_pair_none {l : List String} {g : String → String} {k : String}
    (h : k ∉ l) : (l.map (fun c => (c, g c))).lookup k = none := by
  induction l with
  | nil => rfl
  | cons a t ih =>
    rw [List.map_cons, List.lookup_cons]
    have hak : k ≠ a := fun he => h (he ▸ List.mem_cons_self a t)
    have hb : (k == a) = false := beq_eq_false_iff_ne.mpr hak
    rw [hb]
    exact ih (fun ht => h (List.mem_cons_of_mem _ ht))

/-- The loop of `rename_fields` raises iff some column with a non-null
mapping is already a key of the rename map — initially an
already-transformed field — or occurs more than once among the columns. -/
theorem buildRename_error_iff (fields : FieldMapping) :
    ∀ (cols : List String) (ren : List (String × String)),
      (∃ e, buildRename fields cols ren = .error e) ↔
        ∃ c ∈ cols, (mappedTarget fields c).isSome ∧
          ((ren.lookup c).isSome ∨ 2 ≤ cols.count c) := by
  intro cols
  induction cols with
  | nil =>
    intro ren
    simp [buildRename_nil]
  | cons c cs ih =>
    intro ren
    cases hm : mappedTarget fields c with
    | none =>
      rw [buildRename_cons_unmapped hm, ih]
      constructor
      · rintro ⟨d, hd, hmd, hrest⟩
        refine ⟨d, List.mem_cons_of_mem _ hd, hmd, ?_⟩
        rcases hrest with h' | h'
        · exact Or.inl h'
        · right
          have : cs.count d ≤ (c :: cs).count d := List.count_le_count_cons d c cs
          omega
      · rintro ⟨d, hd, hmd, hrest⟩
        have hdc : d ≠ c := by
          intro he
          rw [he, hm] at hmd
          simp at hmd
        have hd' : d ∈ cs := by
          rcases List.mem_cons.mp hd with h' | h'
          · exact absurd h' hdc
          · exact h'
        refine ⟨d, hd', hmd, ?_⟩
        rcases hrest with h' | h'
        · exact Or.inl h'
        · right
          rw [List.count_cons_of_ne hdc] at h'
          exact h'
    | some t =>
      by_cases hl : (ren.lookup c).isSome = true
      · constructor
        · intro _
          exact ⟨c, List.mem_cons_self _ _, by simp [hm], Or.inl hl⟩
        · intro _
          exact ⟨.assertionError c, buildRename_cons_collision hm hl⟩
      · have hl' : (ren.lookup c).isSome = false := by
          cases h' : (ren.lookup c).isSome
          · rfl
          · exact absurd h' hl
        rw [buildRename_cons_mapped hm hl', ih]
        constructor
        · rintro ⟨d, hd, hmd, hrest⟩
          by_cases hdc : d = c
          · subst hdc
            refine ⟨d, List.mem_cons_self _ _, hmd, Or.inr ?_⟩
            rw [List.count_cons_self]
            have h1 : 0 < cs.count d := List.count_pos_iff.mpr hd
            omega
          · refine ⟨d, List.mem_cons_of_mem _ hd, hmd, ?_⟩
            rcases hrest with h' | h'
            · rw [List.lookup_append] at h'
              have h2 : (([(c, t)] : List (String × String)).lookup d) = none := by
                rw [List.lookup_cons]
                have hb : (d == c) = false := beq_eq_false_iff_ne.mpr hdc
                rw [hb]
                rfl
              rw [h2, Option.or_none] at h'
              exact Or.inl h'
            · right
              rw [List.count_cons_of_ne hdc]
              exact h'
        · rintro ⟨d, hd, hmd, hrest⟩
          by_cases hdc : d = c
          · subst hdc
            have hdcs : d ∈ cs := by
              rcases hrest with h' | h'
              · exact absurd h' (by simp [hl'])
              · rw [List.count_cons_self] at h'
                have h1 : 0 < cs.count d := by omega
                exact List.count_pos_iff.mp h1
            refine ⟨d, hdcs, hmd, Or.inl ?_⟩
            rw [List.lookup_append]
            have h0 : ren.lookup d = none := by
              cases ho : ren.lookup d
              · rfl
              · rw [ho] at hl'; simp at hl'
            have h1 : (([(d, t)] : List (String × String)).lookup d) = some t := by
              rw [List.lookup_cons]
              simp
            rw [h0, h1]
            rfl
          · have hd' : d ∈ cs := (List.mem_cons.mp hd).resolve_left hdc
            refine ⟨d, hd', hmd, ?_⟩
            rcases hrest with h' | h'
            · left
              rw [List.lookup_append]
              cases ho : ren.lookup d with
              | none => rw [ho] at h'; simp at h'
              | some v => rfl
            · right
              rw [List.count_cons_of_ne hdc] at h'
              exact h'

/-- The loop only ever raises the `AssertionError`. -/
theorem buildRename_error_shape {fields : FieldMapping} :
    ∀ {cols : List String} {ren : List (String × String)} {e : PyError},
      buildRename fields cols ren = .error e → ∃ c, e = .assertionError c := by
  intro cols
  induction cols with
  | nil =>
    intro ren e h
    rw [buildRename_nil] at h
    cases h
  | cons c cs ih =>
    intro ren e h
    cases hm : mappedTarget fields c with
    | none =>
      rw [buildRename_cons_unmapped hm] at h
      exact ih h
    | some t =>
      by_cases hl : (ren.lookup c).isSome = true
      · rw [buildRename_cons_collision hm hl] at h
        cases h
        exact ⟨c, rfl⟩
      · have hl' : (ren.lookup c).isSome = false := by
          cases h' : (ren.lookup c).isSome
          · rfl
          · exact absurd h' hl
        rw [buildRename_cons_mapped hm hl'] at h
        exact ih h

/-- On success the loop returns the initial map extended with one entry
`(source, target)` per mapped column, in column order. -/
theorem buildRename_ok_eq (fields : FieldMapping) :
    ∀ (cols : List String) (ren ren' : List (String × String)),
      buildRename fields cols ren = .ok ren' →
      ren' = ren ++ (cols.filter (fun c => (mappedTarget fields c).isSome)).map
        (fun c => (c, (mappedTarget fields c).getD "")) := by
  intro cols
  induction cols with
  | nil =>
    intro ren ren' h
    rw [buildRename_nil] at h
    cases h
    simp
  | cons c cs ih =>
    intro ren ren' h
    cases hm : mappedTarget fields c with
    | none =>
      rw [buildRename_cons_unmapped hm] at h
      rw [ih _ _ h, List.filter_cons_of_neg (by simp [hm])]
    | some t =>
      by_cases hl : (ren.lookup c).isSome = true
      · rw [buildRename_cons_collision hm hl] at h
        cases h
      · have hl' : (ren.lookup c).isSome = false := by
          cases h' : (ren.lookup c).isSome
          · rfl
          · exact absurd h' hl
        rw [buildRename_cons_mapped hm hl'] at h
        rw [ih _ _ h, List.filter_cons_of_pos (by simp [hm]), List.map_cons]
        simp [hm, List.append_assoc]

/-- Key membership of the initial rename map built from
`already_transformed_fields`. -/
theorem atfPairs_lookup_isSome (atf : List String) (c : String) :
    (((atf.dedup.map (fun f => (f, f))).lookup c).isSome = true) ↔ c ∈ atf := by
  by_cases h : c ∈ atf.dedup
  · rw [lookup_map_pair h]
    simp only [Option.isSome_some, true_iff]
    exact List.mem_dedup.mp h
  · rw [lookup_map_pair_none h]
    simp only [Option.isSome_none, Bool.false_eq_true, false_iff]
    intro hc
    exact h (List.mem_dedup.mpr hc)

theorem renameFields_snd_of_error {df : DataFrame} {fields : FieldMapping}
    {atf : List String} {e : PyError}
    (hb : buildRename fields df.colNames (atf.dedup.map (fun f => (f, f))) = .error e) :
    (renameFields df fields atf).2 = .error e := by
  unfold renameFields
  rw [hb]

theorem renameFields_snd_of_ok_sel {df : DataFrame} {fields : FieldMapping}
    {atf : List String} {ren : List (String × String)}
    (hb : buildRename fields df.colNames (atf.dedup.map (fun f => (f, f))) = .ok ren)
    (hif : ((ren.map (·.1)).all (fun k => df.colNames.contains k)) = true) :
    (renameFields df fields atf).2 = .ok
      { indexNames := df.indexNames,
        colNames := ((ren.map (·.1)).flatMap df.colIdxs).map (fun i =>
          ((ren.lookup (df.colNames.getD i "")).getD (df.colNames.getD i ""))),
        rows := df.rows.map (fun r =>
          (r.1, ((ren.map (·.1)).flatMap df.colIdxs).map (r.2.getD · Value.na))) } := by
  unfold renameFields
  rw [hb]
  dsimp only
  rw [if_pos hif]

theorem renameFields_snd_of_ok_key {df : DataFrame} {fields : FieldMapping}
    {atf : List String} {ren : List (String × String)}
    (hb : buildRename fields df.colNames (atf.dedup.map (fun f => (f, f))) = .ok ren)
    (hif : ((ren.map (·.1)).all (fun k => df.colNames.contains k)) = false) :
    (renameFields df fields atf).2 = .error .keyError := by
  unfold renameFields
  rw [hb]
  dsimp only
  have hneg : ¬(((ren.map (·.1)).all (fun k => df.colNames.contains k)) = true) := by
    rw [hif]
    exact Bool.false_ne_true
  rw [if_neg hneg]

theorem renameFields_fst (df : DataFrame) (fields : FieldMapping) (atf : List String) :
    (renameFields df fields atf).1 =
      if renameFieldsExtra df fields atf ≠ ∅ ∨ renameFieldsMissing df fields ≠ ∅ then
        [Event.unexpectedColumns (renameFieldsExtra df fields atf)
          (renameFieldsMissing df fields)]
      else [] := by
  unfold renameFields
  cases hb : buildRename fields df.colNames (atf.dedup.map (fun f => (f, f))) with
  | error e => rfl
  | ok ren =>
    dsimp only
    by_cases hif : ((ren.map (·.1)).all (fun k => df.colNames.contains k)) = true
    · rw [if_pos hif]
    · rw [if_neg hif]

/-- C4 counterexample: on a mapping table sending two distinct source
columns (`a`, `b`), both present in the frame, to the same target
(`cases`), `rename_fields` does not raise — it returns a DataFrame, with
the target column name duplicated. -/
theorem C4_counterexample :
    ∃ df', (renameFields exampleDupTargetFrame exampleDupTargetMapping []).2 = .ok df' ∧
      df'.colNames = ["cases", "cases"] :=
  ⟨_, rfl, rfl⟩

/-- C4 (amended): `rename_fields` raises its `AssertionError` exactly when
some column of the frame with a non-null mapping is already a key of the
rename map — because it is listed in `already_transformed_fields`, or
occurs more than once among the frame's columns.  In particular, two
distinct source columns mapping to the same target do not raise. -/
theorem C4_amended_rename_fields_assertion_iff
    (df : DataFrame) (fields : FieldMapping) (atf : List String) :
    (∃ c, (renameFields df fields atf).2 = .error (.assertionError c)) ↔
      ∃ c ∈ df.colNames, (mappedTarget fields c).isSome ∧
        (c ∈ atf ∨ 2 ≤ df.colNames.count c) := by
  cases hb : buildRename fields df.colNames (atf.dedup.map (fun f => (f, f))) with
  | error e =>
    have hsnd := renameFields_snd_of_error hb
    constructor
    · intro _
      obtain ⟨c, hc, hmc, hrest⟩ := (buildRename_error_iff fields df.colNames _).mp ⟨e, hb⟩
      refine ⟨c, hc, hmc, ?_⟩
      rcases hrest with h' | h'
      · exact Or.inl ((atfPairs_lookup_isSome atf c).mp h')
      · exact Or.inr h'
    · intro _
      obtain ⟨c, he⟩ := buildRename_error_shape hb
      exact ⟨c, by rw [hsnd, he]⟩
  | ok ren =>
    constructor
    · intro hcontra
      obtain ⟨c, hc⟩ := hcontra
      by_cases hif : ((ren.map (·.1)).all (fun k => df.colNames.contains k)) = true
      · rw [renameFields_snd_of_ok_sel hb hif] at hc
        cases hc
      · have hif' : ((ren.map (·.1)).all (fun k => df.colNames.contains k)) = false := by
          cases h' : ((ren.map (·.1)).all (fun k => df.colNames.contains k))
          · rfl
          · exact absurd h' hif
        rw [renameFields_snd_of_ok_key hb hif'] at hc
        cases hc
    · intro hcond
      exfalso
      obtain ⟨c, hc, hmc, hrest⟩ := hcond
      have hex : ∃ e, buildRename fields df.colNames
          (atf.dedup.map (fun f => (f, f))) = .error e := by
        refine (buildRename_error_iff fields df.colNames _).mpr ⟨c, hc, hmc, ?_⟩
        rcases hrest with h' | h'
        · exact Or.inl ((atfPairs_lookup_isSome atf c).mpr h')
        · exact Or.inr h'
      obtain ⟨e, he⟩ := hex
      rw [hb] at he
      cases he

/-- C4 witness: a mapped source column that is also listed in
`already_transformed_fields` does raise. -/
theorem C4_witness :
    ∃ c, (renameFields exampleDupTargetFrame exampleDupTargetMapping ["a"]).2 =
      .error (.assertionError c) :=
  (C4_amended_rename_fields_assertion_iff exampleDupTargetFrame
    exampleDupTargetMapping ["a"]).mpr
    ⟨"a", by decide, by decide, Or.inl (by decide)⟩

/-! ## C5: columns of a successful `rename_fields` -/

theorem eq_singleton_of_mem_of_all {l : List ℕ} {i : ℕ}
    (hmem : i ∈ l) (hall : ∀ j ∈ l, j = i) (hnd : l.Nodup) : l = [i] := by
  cases l with
  | nil => cases hmem
  | cons a t =>
    have ha : a = i := hall a (List.mem_cons_self _ _)
    subst ha
    cases t with
    | nil => rfl
    | cons b t2 =>
      exfalso
      have hb : b = a := hall b (List.mem_cons_of_mem _ (List.mem_cons_self _ _))
      subst hb
      exact (List.nodup_cons.mp hnd).1 (List.mem_cons_self _ _)

/-- With distinct column names, label selection hits exactly one position,
carrying the requested name. -/
theorem DataFrame.colIdxs_singleton {df : DataFrame} (hnodup : df.colNames.Nodup)
    {k : String} (hk : k ∈ df.colNames) :
    ∃ i, df.colIdxs k = [i] ∧ df.colNames[i]? = some k := by
  obtain ⟨p, hp, hpx⟩ := List.mem_iff_getElem.mp hk
  have hpmem : p ∈ df.colIdxs k := by
    unfold DataFrame.colIdxs
    refine List.mem_filter.mpr ⟨by simpa using hp, ?_⟩
    simp [List.getElem?_eq_getElem hp, hpx]
  have hall : ∀ j ∈ df.colIdxs k, j = p := by
    intro j hj
    have hj1 := (List.mem_filter.mp hj).1
    have hj2 := (List.mem_filter.mp hj).2
    have hjlt : j < df.colNames.length := by simpa using hj1
    have hjgd : df.colNames.getD j "" = k := by simpa using hj2
    rw [List.getD_eq_getElem?_getD, List.getElem?_eq_getElem hjlt] at hjgd
    have : df.colNames[j] = df.colNames[p] := by
      rw [hpx]
      simpa using hjgd
    exact List.Nodup.getElem_inj_iff hnodup |>.mp this
  have hnd : (df.colIdxs k).Nodup := List.Nodup.filter _ (List.nodup_range _)
  refine ⟨p, eq_singleton_of_mem_of_all hpmem hall hnd, ?_⟩
  rw [List.getElem?_eq_getElem hp, hpx]

/-- Selecting distinct present labels and reading a function of the column
name gives one value per label. -/
theorem flatMap_colIdxs_map_name {df : DataFrame} (hnodup : df.colNames.Nodup)
    (g : String → String) :
    ∀ (ks : List String), (∀ k ∈ ks, k ∈ df.colNames) →
      ((ks.flatMap df.colIdxs).map (fun i => g (df.colNames.getD i ""))) = ks.map g := by
  intro ks
  induction ks with
  | nil => intro _; rfl
  | cons k t ih =>
    intro hks
    rw [List.flatMap_cons, List.map_append,
      ih (fun x hx => hks x (List.mem_cons_of_mem _ hx))]
    obtain ⟨i, hidx, hnm⟩ := DataFrame.colIdxs_singleton hnodup
      (hks k (List.mem_cons_self _ _))
    rw [hidx]
    simp [hnm, List.getD_eq_getElem?_getD]

/-- C5: when `rename_fields` returns a DataFrame (on a frame with distinct
column names), its columns are exactly the already-transformed fields, kept
under their own names, followed by the source columns whose mapping has a
non-null target, each renamed to that target; columns mapped to `None` and
columns absent from the mapping are gone. -/
theorem C5_rename_fields_columns (df : DataFrame) (fields : FieldMapping)
    (atf : List String) (df' : DataFrame)
    (hnodup : df.colNames.Nodup)
    (h : (renameFields df fields atf).2 = .ok df') :
    df'.colNames = atf.dedup ++
      (df.colNames.filter (fun c => (mappedTarget fields c).isSome)).map
        (fun c => (mappedTarget fields c).getD "") := by
  cases hb : buildRename fields df.colNames (atf.dedup.map (fun f => (f, f))) with
  | error e =>
    rw [renameFields_snd_of_error hb] at h
    cases h
  | ok ren =>
    by_cases hif : ((ren.map (·.1)).all (fun k => df.colNames.contains k)) = true
    · rw [renameFields_snd_of_ok_sel hb hif] at h
      cases h
      have hren := buildRename_ok_eq fields df.colNames _ _ hb
      have hkeys : ren.map (·.1) = atf.dedup ++
          (df.colNames.filter (fun c => (mappedTarget fields c).isSome)) := by
        rw [hren]
        simp only [List.map_append, List.map_map, Function.comp_def]
        simp
      have hmemkeys : ∀ k ∈ ren.map (·.1), k ∈ df.colNames := by
        intro k hk
        have := List.all_eq_true.mp hif k hk
        simpa using this
      have hnoerr : ∀ c ∈ df.colNames, (mappedTarget fields c).isSome →
          ((atf.dedup.map (fun f => (f, f))).lookup c) = none := by
        intro c hc hmc
        cases ho : ((atf.dedup.map (fun f => (f, f))).lookup c) with
        | none => rfl
        | some v =>
          exfalso
          have hex : ∃ e, buildRename fields df.colNames
              (atf.dedup.map (fun f => (f, f))) = .error e :=
            (buildRename_error_iff fields df.colNames _).mpr
              ⟨c, hc, hmc, Or.inl (by rw [ho]; rfl)⟩
          obtain ⟨e, he⟩ := hex
          rw [hb] at he
          cases he
      dsimp only
      rw [flatMap_colIdxs_map_name hnodup (fun k => (ren.lookup k).getD k) _ hmemkeys,
        hkeys, List.map_append]
      congr 1
      · -- already-transformed keys rename to themselves
        have : ∀ k ∈ atf.dedup,
            ((ren.lookup k).getD k) = k := by
          intro k hk
          rw [hren, List.lookup_append, lookup_map_pair hk]
          rfl
        calc atf.dedup.map (fun k => (ren.lookup k).getD k)
            = atf.dedup.map id := List.map_congr_left this
          _ = atf.dedup := List.map_id _
      · -- mapped columns rename to their targets
        refine List.map_congr_left ?_
        intro c hc
        have hcc : c ∈ df.colNames := (List.mem_filter.mp hc).1
        have hmc : (mappedTarget fields c).isSome := by
          simpa using (List.mem_filter.mp hc).2
        rw [hren, List.lookup_append, hnoerr c hcc hmc,
          lookup_map_pair (List.mem_filter.mpr ⟨hcc, by simpa using hmc⟩)]
        rfl
    · have hif' : ((ren.map (·.1)).all (fun k => df.colNames.contains k)) = false := by
        cases h' : ((ren.map (·.1)).all (fun k => df.colNames.contains k))
        · rfl
        · exact absurd h' hif
      rw [renameFields_snd_of_ok_key hb hif'] at h
      cases h

/-- C5 witness: already-transformed `fips` kept, `dt` and `cases_total`
renamed, `extra` (mapped to `None`) dropped. -/
theorem C5_witness :
    exampleRenameFrame.colNames.Nodup ∧
    ∃ df', (renameFields exampleRenameFrame exampleRenameMapping ["fips"]).2 = .ok df' ∧
      df'.colNames = ["fips"].dedup ++
        (exampleRenameFrame.colNames.filter
          (fun c => (mappedTarget exampleRenameMapping c).isSome)).map
          (fun c => (mappedTarget exampleRenameMapping c).getD "") ∧
      df'.colNames = ["fips", "date", "cases"] :=
  ⟨by decide, _, rfl,
    C5_rename_fields_columns exampleRenameFrame exampleRenameMapping ["fips"] _
      (by decide) rfl, rfl⟩

/-! ## C6: the extra/missing warning is diagnostic only -/

/-- C6: `rename_fields` emits exactly one structured warning event, carrying
both the `extra_fields` and `missing_fields` sets, when either is non-empty,
and none when both are empty; and the presence of extra or missing columns
never makes it raise — it returns a DataFrame whenever the
already-transformed fields are all columns and no mapped column collides
with them or is duplicated, conditions independent of the extra/missing
sets. -/
theorem C6_rename_fields_warning (df : DataFrame) (fields : FieldMapping)
    (atf : List String) :
    ((renameFieldsExtra df fields atf ≠ ∅ ∨ renameFieldsMissing df fields ≠ ∅) →
      (renameFields df fields atf).1 =
        [Event.unexpectedColumns (renameFieldsExtra df fields atf)
          (renameFieldsMissing df fields)]) ∧
    (renameFieldsExtra df fields atf = ∅ ∧ renameFieldsMissing df fields = ∅ →
      (renameFields df fields atf).1 = []) ∧
    ((∀ c ∈ atf, c ∈ df.colNames) →
      (¬ ∃ c ∈ df.colNames, (mappedTarget fields c).isSome ∧
        (c ∈ atf ∨ 2 ≤ df.colNames.count c)) →
      ∃ df', (renameFields df fields atf).2 = .ok df') := by
  refine ⟨?_, ?_, ?_⟩
  · intro hne
    rw [renameFields_fst, if_pos hne]
  · intro hemp
    rw [renameFields_fst, if_neg (by simp [hemp.1, hemp.2])]
  · intro hatf hcond
    cases hb : buildRename fields df.colNames (atf.dedup.map (fun f => (f, f))) with
    | error e =>
      exfalso
      obtain ⟨c, hc, hmc, hrest⟩ := (buildRename_error_iff fields df.colNames _).mp ⟨e, hb⟩
      refine hcond ⟨c, hc, hmc, ?_⟩
      rcases hrest with h' | h'
      · exact Or.inl ((atfPairs_lookup_isSome atf c).mp h')
      · exact Or.inr h'
    | ok ren =>
      have hren := buildRename_ok_eq fields df.colNames _ _ hb
      have hif : ((ren.map (·.1)).all (fun k => df.colNames.contains k)) = true := by
        rw [List.all_eq_true]
        intro k hk
        rw [hren] at hk
        simp only [List.map_append, List.map_map, List.mem_append] at hk
        rcases hk with hk | hk
        · obtain ⟨a, ha, hak⟩ := List.mem_map.mp hk
          have hka : a = k := by simpa using hak
          rw [← hka]
          simpa using hatf a (List.mem_dedup.mp ha)
        · obtain ⟨a, ha, hak⟩ := List.mem_map.mp hk
          have hka : a = k := by simpa using hak
          rw [← hka]
          simpa using (List.mem_filter.mp ha).1
      exact ⟨_, renameFields_snd_of_ok_sel hb hif⟩

/-- C6 witness: the spec's example scenario — `foobar` present but
unmapped, `hospital_beds_in_use_covid_confirmed` mapped but absent —
emits exactly one warning carrying both sets and does not fail. -/
theorem C6_witness :
    (renameFields exampleUnexpectedFrame exampleUnexpectedMapping []).1 =
      [Event.unexpectedColumns
        (renameFieldsExtra exampleUnexpectedFrame exampleUnexpectedMapping [])
        (renameFieldsMissing exampleUnexpectedFrame exampleUnexpectedMapping)] ∧
    renameFieldsExtra exampleUnexpectedFrame exampleUnexpectedMapping [] = {"foobar"} ∧
    renameFieldsMissing exampleUnexpectedFrame exampleUnexpectedMapping =
      {"hospital_beds_in_use_covid_confirmed"} ∧
    ∃ df', (renameFields exampleUnexpectedFrame exampleUnexpectedMapping []).2 = .ok df' :=
  ⟨(C6_rename_fields_warning exampleUnexpectedFrame exampleUnexpectedMapping []).1
      (by decide),
    by decide, by decide,
    (C6_rename_fields_warning exampleUnexpectedFrame exampleUnexpectedMapping []).2.2
      (by decide) (by decide)⟩

/-! ## C9: `write_csv` never mutates the caller's frame -/

theorem heapGrows_refl (h : Heap) : heapGrows h h :=
  ⟨le_refl _, fun _ _ => rfl⟩

theorem heapGrows_trans {h1 h2 h3 : Heap}
    (a : heapGrows h1 h2) (b : heapGrows h2 h3) : heapGrows h1 h3 :=
  ⟨le_trans a.1 b.1, fun j hj => (b.2 j (lt_of_lt_of_le hj a.1)).trans (a.2 j hj)⟩

theorem alloc_grows (h : Heap) (df : DataFrame) : heapGrows h (h.alloc df).1 := by
  constructor
  · simp [Heap.alloc]
  · intro j hj
    unfold Heap.get Heap.alloc
    dsimp only
    rw [List.getD_append _ _ _ _ hj]

theorem alloc_get (h : Heap) (df : DataFrame) :
    (h.alloc df).1.get (h.alloc df).2 = df := by
  unfold Heap.get Heap.alloc
  dsimp only
  rw [List.getD_eq_getElem?_getD, List.getElem?_append_right (le_refl _)]
  simp

theorem applyOpTotal_grows (f : DataFrame → DataFrame) (h : Heap) (r : ℕ) :
    heapGrows h (applyOpTotal f h r).1 :=
  alloc_grows h _

theorem applyOpTotal_get (f : DataFrame → DataFrame) (h : Heap) (r : ℕ) :
    (applyOpTotal f h r).1.get (applyOpTotal f h r).2 = f (h.get r) :=
  alloc_get h _

theorem applyOp_spec {f : DataFrame → Option DataFrame} {h : Heap} {r : ℕ}
    {p : Heap × ℕ} (hp : applyOp f h r = some p) :
    heapGrows h p.1 ∧ f (h.get r) = some (p.1.get p.2) := by
  obtain ⟨d, hd, hall⟩ := Option.map_eq_some'.mp hp
  rw [← hall]
  exact ⟨alloc_grows h d, by rw [alloc_get, hd]⟩

theorem fixHeadH_spec {h : Heap} {r : ℕ} {p : Heap × ℕ × List Event}
    (hp : fixHeadH h r = some p) :
    heapGrows h p.1 ∧ fixHead (h.get r) = some (p.1.get p.2.1, p.2.2) := by
  unfold fixHeadH at hp
  by_cases hc : (h.get r).indexNames = canonicalIndexNames
  · rw [if_pos hc] at hp
    cases hp
    refine ⟨heapGrows_refl h, ?_⟩
    unfold fixHead
    rw [if_pos hc]
  · rw [if_neg hc] at hp
    obtain ⟨q, hq, hpq⟩ := Option.map_eq_some'.mp hp
    obtain ⟨p1, hp1, hq2⟩ := Option.bind_eq_some.mp hq
    have hreset : heapGrows h p1.1 ∧
        ((if (h.get r).indexNames ≠ [none] then (h.get r).resetIndex
          else some (h.get r)) = some (p1.1.get p1.2)) := by
      by_cases hn : (h.get r).indexNames ≠ [none]
      · rw [if_pos hn] at hp1
        rw [if_pos hn]
        exact applyOp_spec hp1
      · rw [if_neg hn] at hp1
        cases hp1
        rw [if_neg hn]
        exact ⟨heapGrows_refl h, rfl⟩
    have hset := applyOp_spec hq2
    rw [← hpq]
    refine ⟨heapGrows_trans hreset.1 hset.1, ?_⟩
    unfold fixHead
    rw [if_neg hc, hreset.2, Option.some_bind, hset.2, Option.map_some']

theorem fixTailH_spec (h : Heap) (r : ℕ) (evs : List Event) :
    heapGrows h (fixTailH h r evs).1 ∧
    fixTail (h.get r) evs =
      ((fixTailH h r evs).1.get (fixTailH h r evs).2.1, (fixTailH h r evs).2.2) := by
  unfold fixTailH fixTail
  dsimp only
  rw [applyOpTotal_get DataFrame.sortIndex h r]
  by_cases hi : "index" ∈ (h.get r).sortIndex.colNames
  · rw [if_pos hi, if_pos hi]
    dsimp only
    rw [applyOpTotal_get, applyOpTotal_get, applyOpTotal_get]
    refine ⟨heapGrows_trans (applyOpTotal_grows _ _ _)
      (heapGrows_trans (applyOpTotal_grows _ _ _) (applyOpTotal_grows _ _ _)), rfl⟩
  · rw [if_neg hi, if_neg hi]
    dsimp only
    rw [applyOpTotal_get, applyOpTotal_get]
    refine ⟨heapGrows_trans (applyOpTotal_grows _ _ _) (applyOpTotal_grows _ _ _), rfl⟩

theorem fixDfIndexH_spec {h : Heap} {r : ℕ} {p : Heap × ℕ × List Event}
    (hp : fixDfIndexH h r = some p) :
    heapGrows h p.1 ∧ fixDfIndex (h.get r) = some (p.1.get p.2.1, p.2.2) := by
  obtain ⟨q, hq, hpq⟩ := Option.map_eq_some'.mp (hp : fixDfIndexH h r = some p)
  have hh := fixHeadH_spec hq
  have ht := fixTailH_spec q.1 q.2.1 q.2.2
  rw [← hpq]
  refine ⟨heapGrows_trans hh.1 ht.1, ?_⟩
  unfold fixDfIndex
  rw [hh.2, Option.map_some', ht.2]

/-- C9: running `write_csv` through the heap model leaves every frame that
existed before the call — in particular the caller's — exactly as it was:
all index resets, sorts, NA replacements and column reorderings allocate
new frames (`inplace=False`/copying calls only).  Moreover the CSV and the
log events are exactly those of the pure semantics of the caller's
unchanged frame. -/
theorem C9_write_csv_no_mutation (h : Heap) (r : ℕ) {h' : Heap} {csv : Csv}
    {evs : List Event} (hw : writeCsvH h r = some (h', csv, evs)) :
    (∀ j, j < h.frames.length → h'.get j = h.get j) ∧
    writeCsv (h.get r) = some (csv, evs) := by
  obtain ⟨p, hpfix, hmk⟩ := Option.map_eq_some'.mp hw
  have hfix := fixDfIndexH_spec hpfix
  have hgrow : heapGrows h h' := by
    have h1 : heapGrows p.1 h' := by
      have ha := heapGrows_trans
        (applyOpTotal_grows (fun d => d) p.1 p.2.1)
        (applyOpTotal_grows DataFrame.convertDtypes
          (applyOpTotal (fun d => d) p.1 p.2.1).1
          (applyOpTotal (fun d => d) p.1 p.2.1).2)
      have hfst : ((applyOpTotal DataFrame.convertDtypes
          (applyOpTotal (fun d => d) p.1 p.2.1).1
          (applyOpTotal (fun d => d) p.1 p.2.1).2).1) = h' := by
        have := congrArg Prod.fst hmk
        simpa using this
      rw [← hfst]
      exact ha
    exact heapGrows_trans hfix.1 h1
  refine ⟨fun j hj => hgrow.2 j hj, ?_⟩
  unfold writeCsv
  rw [hfix.2, Option.map_some']
  have hcells : (applyOpTotal DataFrame.convertDtypes
      (applyOpTotal (fun d => d) p.1 p.2.1).1
      (applyOpTotal (fun d => d) p.1 p.2.1).2).1.get
      (applyOpTotal DataFrame.convertDtypes
        (applyOpTotal (fun d => d) p.1 p.2.1).1
        (applyOpTotal (fun d => d) p.1 p.2.1).2).2 =
      (p.1.get p.2.1).convertDtypes := by
    rw [applyOpTotal_get, applyOpTotal_get]
  have hsnd := congrArg Prod.snd hmk
  dsimp only at hsnd
  rw [hcells] at hsnd
  rw [← hsnd]

/-- C9 witness: a concrete heap run. -/
theorem C9_witness :
    ∃ h' csv evs,
      writeCsvH ⟨[exampleRawFrame]⟩ 0 = some (h', csv, evs) ∧
      (∀ j, j < 1 → h'.get j = Heap.get ⟨[exampleRawFrame]⟩ j) ∧
      writeCsv (Heap.get ⟨[exampleRawFrame]⟩ 0) = some (csv, evs) :=
  ⟨_, _, _, rfl, (C9_write_csv_no_mutation ⟨[exampleRawFrame]⟩ 0 rfl).1,
    (C9_write_csv_no_mutation ⟨[exampleRawFrame]⟩ 0 rfl).2⟩

/-! ## C7: numeric formatting of `write_csv` (`float_format="%.12g"`) -/

theorem digits10Core_eq : ∀ fuel n : ℕ, n ≤ fuel → digits10Core fuel n = Nat.digits 10 n := by
  intro fuel
  induction fuel with
  | zero =>
    intro n hn
    obtain rfl := Nat.le_zero.mp hn
    simp [digits10Core]
  | succ fuel ih =>
    intro n hn
    match n with
    | 0 => simp [digits10Core]
    | n + 1 =>
      rw [Nat.digits_def' (by norm_num : (1:ℕ) < 10) (Nat.succ_pos n)]
      show (n + 1) % 10 :: digits10Core fuel ((n + 1) / 10) = _
      have hlt : (n + 1) / 10 ≤ fuel := by
        have : (n + 1) / 10 < n + 1 := Nat.div_lt_self (Nat.succ_pos n) (by norm_num)
        omega
      rw [ih ((n + 1) / 10) hlt]

theorem digits10_eq (n : ℕ) : digits10 n = Nat.digits 10 n :=
  digits10Core_eq n n le_rfl

theorem digits10_length_ne_zero {n : ℕ} (hn : n ≠ 0) : (digits10 n).length ≠ 0 := by
  rw [digits10_eq]
  simpa using Nat.digits_ne_nil_iff_ne_zero.mpr hn

theorem log10_le_self {n : ℕ} (hn : n ≠ 0) : 10 ^ log10 n ≤ n := by
  have hlen := digits10_length_ne_zero hn
  have h := Nat.base_pow_length_digits_le 10 n (by norm_num) hn
  unfold log10
  rw [digits10_eq] at hlen ⊢
  set L := (Nat.digits 10 n).length with hL
  have hpow : 10 ^ (L - 1) * 10 = 10 ^ L := by
    rw [← pow_succ]
    congr 1
    omega
  have h2 : 10 ^ (L - 1) * 10 ≤ 10 * n := by rw [hpow]; exact h
  omega

theorem lt_log10_succ (n : ℕ) : n < 10 ^ (log10 n + 1) := by
  rcases eq_or_ne n 0 with rfl | hn
  · norm_num [log10, digits10, digits10Core]
  · have h := Nat.lt_base_pow_length_digits (b := 10) (m := n) (by norm_num)
    have hlen := digits10_length_ne_zero hn
    unfold log10
    rw [digits10_eq] at hlen ⊢
    have heq : (Nat.digits 10 n).length - 1 + 1 = (Nat.digits 10 n).length := by omega
    rw [heq]
    exact h

theorem abs_q_eq (q : ℚ) : |q| = (q.num.natAbs : ℚ) / (q.den : ℚ) := by
  conv_lhs => rw [← Rat.num_div_den q]
  rw [abs_div]
  congr 1
  · rw [← Int.cast_abs, Int.abs_eq_natAbs, Int.cast_natCast]
  · exact abs_of_pos (by exact_mod_cast q.pos)

theorem decExp_spec {q : ℚ} (hq : q ≠ 0) :
    (10 : ℚ) ^ decExp q ≤ |q| ∧ |q| < (10 : ℚ) ^ (decExp q + 1) := by
  have hnum : q.num ≠ 0 := Rat.num_ne_zero.mpr hq
  have hn : q.num.natAbs ≠ 0 := Int.natAbs_ne_zero.mpr hnum
  have hdnz : q.den ≠ 0 := q.den_nz
  have hdpos : (0 : ℚ) < (q.den : ℚ) := by exact_mod_cast Nat.pos_of_ne_zero hdnz
  have habs : |q| = (q.num.natAbs : ℚ) / (q.den : ℚ) := abs_q_eq q
  have hten : (10 : ℚ) ≠ 0 := by norm_num
  unfold decExp
  set n := q.num.natAbs with hndef
  set d := q.den with hddef
  set Ln := log10 n with hLn
  set Ld := log10 d with hLd
  set c : ℤ := (Ln : ℤ) - (Ld : ℤ) with hc
  have hn1 : (10 : ℚ) ^ ((Ln : ℕ) : ℤ) ≤ (n : ℚ) := by
    rw [zpow_natCast]
    exact_mod_cast log10_le_self hn
  have hn2 : (n : ℚ) < (10 : ℚ) ^ ((Ln : ℤ) + 1) := by
    have h := lt_log10_succ n
    have : ((Ln : ℤ) + 1) = ((Ln + 1 : ℕ) : ℤ) := by push_cast; ring
    rw [this, zpow_natCast]
    exact_mod_cast h
  have hd1 : (10 : ℚ) ^ ((Ld : ℕ) : ℤ) ≤ (d : ℚ) := by
    rw [zpow_natCast]
    exact_mod_cast log10_le_self hdnz
  have hd2 : (d : ℚ) < (10 : ℚ) ^ ((Ld : ℤ) + 1) := by
    have h := lt_log10_succ d
    have : ((Ld : ℤ) + 1) = ((Ld + 1 : ℕ) : ℤ) := by push_cast; ring
    rw [this, zpow_natCast]
    exact_mod_cast h
  have key : ((if 0 ≤ c then decide (n < d * 10 ^ c.toNat)
      else decide (n * 10 ^ (-c).toNat < d)) = true) ↔ |q| < (10 : ℚ) ^ c := by
    by_cases hc0 : 0 ≤ c
    · rw [if_pos hc0, decide_eq_true_eq, habs, div_lt_iff hdpos]
      have h10 : (10 : ℚ) ^ c = ((10 ^ c.toNat : ℕ) : ℚ) := by
        have hcc : c = (c.toNat : ℤ) := (Int.toNat_of_nonneg hc0).symm
        conv_lhs => rw [hcc]
        rw [zpow_natCast]
        push_cast
        ring
      rw [h10, mul_comm]
      constructor
      · intro h
        exact_mod_cast h
      · intro h
        exact_mod_cast h
    · rw [if_neg hc0, decide_eq_true_eq, habs]
      have hB : (0 : ℚ) < ((10 ^ (-c).toNat : ℕ) : ℚ) := by positivity
      have h10 : (10 : ℚ) ^ c = 1 / ((10 ^ (-c).toNat : ℕ) : ℚ) := by
        have hc' : c = -(((-c).toNat : ℕ) : ℤ) := by omega
        conv_lhs => rw [hc']
        rw [zpow_neg, zpow_natCast]
        push_cast
        rw [one_div]
      rw [h10, div_lt_div_iff hdpos hB, one_mul]
      constructor
      · intro h
        exact_mod_cast h
      · intro h
        exact_mod_cast h
  by_cases hlt : (if 0 ≤ c then decide (n < d * 10 ^ c.toNat)
      else decide (n * 10 ^ (-c).toNat < d)) = true
  · rw [if_pos hlt]
    constructor
    · rw [habs, le_div_iff hdpos]
      calc (10 : ℚ) ^ (c - 1) * (d : ℚ)
          ≤ (10 : ℚ) ^ (c - 1) * (10 : ℚ) ^ ((Ld : ℤ) + 1) := by
            have hpos : (0 : ℚ) < (10 : ℚ) ^ (c - 1) := by positivity
            exact mul_le_mul_of_nonneg_left hd2.le hpos.le
        _ = (10 : ℚ) ^ ((Ln : ℤ)) := by
            rw [← zpow_add₀ hten]
            congr 1
            omega
        _ ≤ (n : ℚ) := hn1
    · have h := key.mp hlt
      have : c - 1 + 1 = c := by ring
      rw [this]
      exact h
  · rw [if_neg hlt]
    refine ⟨le_of_not_lt (fun hcon => hlt (key.mpr hcon)), ?_⟩
    rw [habs, div_lt_iff hdpos]
    calc (n : ℚ) < (10 : ℚ) ^ ((Ln : ℤ) + 1) := hn2
      _ = (10 : ℚ) ^ (c + 1) * (10 : ℚ) ^ ((Ld : ℤ)) := by
          rw [← zpow_add₀ hten]
          congr 1
          omega
      _ ≤ (10 : ℚ) ^ (c + 1) * (d : ℚ) := by
          have hpos : (0 : ℚ) < (10 : ℚ) ^ (c + 1) := by positivity
          exact mul_le_mul_of_nonneg_left hd1 hpos.le

theorem roundHalfEvenND_ge {n d : ℤ} (hd : 0 < d) :
    2 * n - d ≤ 2 * (d * roundHalfEvenND n d) := by
  unfold roundHalfEvenND
  rw [Int.fdiv_eq_ediv n hd.le]
  have h1 : d * (n / d) + n % d = n := Int.ediv_add_emod n d
  have h2 : 0 ≤ n % d := Int.emod_nonneg n (ne_of_gt hd)
  have h3 : n % d < d := Int.emod_lt_of_pos n hd
  dsimp only
  split_ifs <;> nlinarith [h1, h2, h3]

theorem roundHalfEvenND_le {n d : ℤ} (hd : 0 < d) :
    2 * (d * roundHalfEvenND n d) ≤ 2 * n + d := by
  unfold roundHalfEvenND
  rw [Int.fdiv_eq_ediv n hd.le]
  have h1 : d * (n / d) + n % d = n := Int.ediv_add_emod n d
  have h2 : 0 ≤ n % d := Int.emod_nonneg n (ne_of_gt hd)
  have h3 : n % d < d := Int.emod_lt_of_pos n hd
  dsimp only
  split_ifs <;> nlinarith [h1, h2, h3]

theorem roundHalfEvenND_exact {d : ℤ} (m : ℤ) (hd : 0 < d) :
    roundHalfEvenND (d * m) d = m := by
  unfold roundHalfEvenND
  rw [Int.fdiv_eq_ediv _ hd.le, Int.mul_ediv_cancel_left m (ne_of_gt hd)]
  dsimp only
  have hz : d * m - m * d = 0 := by ring
  rw [hz]
  norm_num [hd]

/-- Master spec of `sigRound`: the significand lies in `[10^(P-1), 10^P)`,
the returned exponent is `decExp q` or its successor, and the bump to the
successor only happens when the scaled value is within one half of `10^P`. -/
theorem sigRound_spec {P : ℕ} {q : ℚ} (hq : q ≠ 0) (hP : 0 < P) :
    (10 : ℤ) ^ (P - 1) ≤ (sigRound P q).1 ∧ (sigRound P q).1 < (10 : ℤ) ^ P ∧
    decExp q ≤ (sigRound P q).2 ∧ (sigRound P q).2 ≤ decExp q + 1 ∧
    ((sigRound P q).2 = decExp q + 1 →
      (10 : ℚ) ^ (P : ℤ) - 1 / 2 ≤ |q| * (10 : ℚ) ^ ((P : ℤ) - 1 - decExp q)) := by
  have hnum : q.num ≠ 0 := Rat.num_ne_zero.mpr hq
  have hnnz : q.num.natAbs ≠ 0 := Int.natAbs_ne_zero.mpr hnum
  have hdnz : q.den ≠ 0 := q.den_nz
  have hdposQ : (0 : ℚ) < (q.den : ℚ) := by exact_mod_cast Nat.pos_of_ne_zero hdnz
  have hten : (10 : ℚ) ≠ 0 := by norm_num
  obtain ⟨hlo, hhi⟩ := decExp_spec hq
  unfold sigRound
  set e := decExp q with he
  set k : ℤ := (P : ℤ) - 1 - e with hk
  set sn : ℤ := if 0 ≤ k then (q.num.natAbs : ℤ) * 10 ^ k.toNat else (q.num.natAbs : ℤ)
    with hsn
  set sd : ℤ := if 0 ≤ k then (q.den : ℤ) else (q.den : ℤ) * 10 ^ (-k).toNat with hsd
  have hsdpos : 0 < sd := by
    rw [hsd]
    split_ifs
    · exact_mod_cast Nat.pos_of_ne_zero hdnz
    · have h1 : (0 : ℤ) < (q.den : ℤ) := by exact_mod_cast Nat.pos_of_ne_zero hdnz
      positivity
  have hid : ((sn : ℤ) : ℚ) = |q| * (10 : ℚ) ^ k * ((sd : ℤ) : ℚ) := by
    rw [abs_q_eq, hsn, hsd]
    split_ifs with h0
    · have hkk : (10 : ℚ) ^ k = (10 : ℚ) ^ (k.toNat : ℕ) := by
        conv_lhs => rw [(Int.toNat_of_nonneg h0).symm]
        rw [zpow_natCast]
      rw [hkk, div_mul_eq_mul_div, div_mul_eq_mul_div,
        eq_div_iff (ne_of_gt hdposQ)]
      push_cast
      rw [← Int.cast_abs, Int.abs_eq_natAbs, Int.cast_natCast]
    · have hkk : (10 : ℚ) ^ k * (10 : ℚ) ^ ((-k).toNat : ℕ) = 1 := by
        rw [← zpow_natCast (10 : ℚ) (-k).toNat, ← zpow_add₀ hten]
        have : k + ((-k).toNat : ℤ) = 0 := by omega
        rw [this, zpow_zero]
      rw [div_mul_eq_mul_div, div_mul_eq_mul_div,
        eq_div_iff (ne_of_gt hdposQ)]
      simp only [Int.cast_mul, Int.cast_natCast, Int.cast_pow, Int.cast_ofNat]
      calc (q.num.natAbs : ℚ)  * (q.den : ℚ)
          = (q.num.natAbs : ℚ) * ((10 : ℚ) ^ k * (10 : ℚ) ^ ((-k).toNat : ℕ)) * (q.den : ℚ) := by
            rw [hkk]; ring
        _ = (q.num.natAbs : ℚ) * (10 : ℚ) ^ k * ((q.den : ℚ) * (10 : ℚ) ^ ((-k).toNat : ℕ)) := by
            ring
  have hscaled_lo : (10 : ℚ) ^ ((P : ℤ) - 1) ≤ |q| * (10 : ℚ) ^ k := by
    have h := mul_le_mul_of_nonneg_right hlo (by positivity : (0:ℚ) ≤ (10 : ℚ) ^ k)
    calc (10 : ℚ) ^ ((P : ℤ) - 1) = (10 : ℚ) ^ e * (10 : ℚ) ^ k := by
          rw [← zpow_add₀ hten]
          congr 1
          omega
      _ ≤ |q| * (10 : ℚ) ^ k := h
  have hscaled_hi : |q| * (10 : ℚ) ^ k < (10 : ℚ) ^ (P : ℤ) := by
    have h := mul_lt_mul_of_pos_right hhi (by positivity : (0:ℚ) < (10 : ℚ) ^ k)
    calc |q| * (10 : ℚ) ^ k < (10 : ℚ) ^ (e + 1) * (10 : ℚ) ^ k := h
      _ = (10 : ℚ) ^ (P : ℤ) := by
          rw [← zpow_add₀ hten]
          congr 1
          omega
  have hcast_lo : (10 : ℚ) ^ ((P : ℤ) - 1) = (((10 : ℤ) ^ (P - 1) : ℤ) : ℚ) := by
    have : (P : ℤ) - 1 = ((P - 1 : ℕ) : ℤ) := by omega
    rw [this, zpow_natCast]
    push_cast
    ring
  have hcast_hi : (10 : ℚ) ^ (P : ℤ) = (((10 : ℤ) ^ P : ℤ) : ℚ) := by
    rw [zpow_natCast]
    push_cast
    ring
  have hint_lo : sd * 10 ^ (P - 1) ≤ sn := by
    have h : ((sd * 10 ^ (P - 1) : ℤ) : ℚ) ≤ ((sn : ℤ) : ℚ) := by
      rw [hid]
      push_cast [← hcast_lo]
      calc (sd : ℚ) * (10 : ℚ) ^ ((P : ℤ) - 1)
          ≤ (sd : ℚ) * (|q| * (10 : ℚ) ^ k) := by
            have hsd' : (0 : ℚ) ≤ (sd : ℚ) := by exact_mod_cast hsdpos.le
            exact mul_le_mul_of_nonneg_left hscaled_lo hsd'
        _ = |q| * (10 : ℚ) ^ k * (sd : ℚ) := by ring
    exact_mod_cast h
  have hint_hi : sn < sd * 10 ^ P := by
    have h : ((sn : ℤ) : ℚ) < ((sd * 10 ^ P : ℤ) : ℚ) := by
      rw [hid]
      push_cast [← hcast_hi]
      calc |q| * (10 : ℚ) ^ k * (sd : ℚ)
          < (10 : ℚ) ^ (P : ℤ) * (sd : ℚ) := by
            have hsd' : (0 : ℚ) < (sd : ℚ) := by exact_mod_cast hsdpos
            exact mul_lt_mul_of_pos_right hscaled_hi hsd'
        _ = (sd : ℚ) * (10 : ℚ) ^ (P : ℤ) := by ring
    exact_mod_cast h
  set m : ℤ := roundHalfEvenND sn sd with hm
  have hge := roundHalfEvenND_ge (n := sn) hsdpos
  have hle := roundHalfEvenND_le (n := sn) hsdpos
  have hm_lo : 10 ^ (P - 1) ≤ m := by
    have h1 : sd * (2 * 10 ^ (P - 1) - 1) ≤ sd * (2 * m) := by nlinarith
    have h2 := le_of_mul_le_mul_left h1 hsdpos
    have h3 : (10 : ℤ) ^ (P - 1) - 1 < m := by linarith
    have h4 := Int.lt_iff_add_one_le.mp h3
    linarith
  have hm_hi : m ≤ 10 ^ P := by
    have h1 : sd * (2 * m) ≤ sd * (2 * 10 ^ P + 1) := by nlinarith
    have h2 := le_of_mul_le_mul_left h1 hsdpos
    have h3 : m < 10 ^ P + 1 := by linarith
    have h4 := Int.lt_iff_add_one_le.mp h3
    linarith
  have hpow_lt : (10 : ℤ) ^ (P - 1) < 10 ^ P := by
    have : P - 1 < P := by omega
    exact pow_lt_pow_right₀ (by norm_num) this
  by_cases hbump : m = 10 ^ P
  · rw [if_pos hbump]
    refine ⟨le_refl _, hpow_lt, by omega, by omega, fun _ => ?_⟩
    have hQint : sd * (2 * 10 ^ P) ≤ 2 * sn + sd := by nlinarith [hge, hbump]
    have hQ : ((sd : ℤ) : ℚ) * (2 * (((10 : ℤ) ^ P : ℤ) : ℚ)) ≤
        2 * ((sn : ℤ) : ℚ) + ((sd : ℤ) : ℚ) := by
      exact_mod_cast hQint
    rw [hid, ← hcast_hi] at hQ
    have hsd' : (0 : ℚ) < (sd : ℚ) := by exact_mod_cast hsdpos
    have h3 : (2 * (10 : ℚ) ^ (P : ℤ) - 1) * ((sd : ℤ) : ℚ) ≤
        (2 * (|q| * (10 : ℚ) ^ k)) * ((sd : ℤ) : ℚ) := by nlinarith [hQ]
    have h4 := le_of_mul_le_mul_right h3 hsd'
    linarith
  · rw [if_neg hbump]
    exact ⟨hm_lo, lt_of_le_of_ne hm_hi hbump, le_refl _, by linarith,
      fun hcon => absurd hcon (by omega)⟩

theorem digits10_length_le {m P : ℕ} (h : m < 10 ^ P) : (digits10 m).length ≤ P := by
  rcases eq_or_ne m 0 with rfl | hm
  · simp [digits10, digits10Core]
  · by_contra hcon
    push_neg at hcon
    have h1 := log10_le_self hm
    have hL : P ≤ log10 m := by
      have := digits10_length_ne_zero hm
      unfold log10
      omega
    have h2 : (10 : ℕ) ^ P ≤ 10 ^ log10 m := Nat.pow_le_pow_right (by norm_num) hL
    omega

theorem sigDigitsOf_ne_nil {m : ℕ} (hm : m ≠ 0) : sigDigitsOf m ≠ [] := by
  unfold sigDigitsOf
  rw [digits10_eq]
  intro hcon
  rw [List.reverse_eq_nil_iff, List.dropWhile_eq_nil_iff] at hcon
  have hnn : Nat.digits 10 m ≠ [] := Nat.digits_ne_nil_iff_ne_zero.mpr hm
  have hlast := Nat.getLast_digit_ne_zero 10 hm
  have hmem := List.getLast_mem (l := Nat.digits 10 m) hnn
  have h0 := hcon _ hmem
  simp only [decide_eq_true_eq] at h0
  exact hlast h0

theorem sigDigitsOf_pow_mul {m : ℕ} (hm : m ≠ 0) (k : ℕ) :
    sigDigitsOf (10 ^ k * m) = sigDigitsOf m := by
  unfold sigDigitsOf
  rw [digits10_eq, digits10_eq]
  rw [Nat.digits_base_pow_mul (by norm_num) (Nat.pos_of_ne_zero hm)]
  rw [List.dropWhile_append_of_pos (by
    intro a ha
    simp [List.eq_of_mem_replicate ha])]

theorem sigDigitsOf_length_le {m P : ℕ} (h : m < 10 ^ P) : (sigDigitsOf m).length ≤ P := by
  unfold sigDigitsOf
  rw [List.length_reverse]
  calc (List.dropWhile (fun d => d = 0) (digits10 m)).length
      ≤ (digits10 m).length := (List.dropWhile_sublist _).length_le
    _ ≤ P := digits10_length_le h

theorem digitToChar_ne_dot (d : ℕ) : digitToChar d ≠ '.' := by
  unfold digitToChar
  split <;> decide

theorem digitToChar_ne_e (d : ℕ) : digitToChar d ≠ 'e' := by
  unfold digitToChar
  split <;> decide

theorem digitToChar_isDigit (d : ℕ) : (digitToChar d).isDigit = true := by
  unfold digitToChar
  split <;> decide

theorem roundHalfEvenND_one (n : ℤ) : roundHalfEvenND n 1 = n := by
  have h := roundHalfEvenND_exact (d := 1) n one_pos
  simpa using h

theorem decExp_int {q : ℚ} (hden : q.den = 1) (hq : q ≠ 0) :
    decExp q = (log10 q.num.natAbs : ℤ) := by
  have hn : q.num.natAbs ≠ 0 := Int.natAbs_ne_zero.mpr (Rat.num_ne_zero.mpr hq)
  unfold decExp
  dsimp only
  rw [hden]
  have hl1 : log10 1 = 0 := by decide
  rw [hl1]
  simp only [Nat.cast_zero, sub_zero]
  have h0 : (0 : ℤ) ≤ (log10 q.num.natAbs : ℤ) := Int.natCast_nonneg _
  rw [if_pos h0]
  have htn : ((log10 q.num.natAbs : ℤ)).toNat = log10 q.num.natAbs := by omega
  rw [htn, one_mul]
  have hnot : ¬ (q.num.natAbs < 10 ^ log10 q.num.natAbs) := not_lt.mpr (log10_le_self hn)
  simp [hnot]

theorem sigRound_int {P : ℕ} {q : ℚ} (hden : q.den = 1) (hq : q ≠ 0) (hP : 0 < P)
    (hlt : q.num.natAbs < 10 ^ P) :
    sigRound P q = ((q.num.natAbs : ℤ) * 10 ^ (P - 1 - log10 q.num.natAbs),
      (log10 q.num.natAbs : ℤ)) := by
  have hn : q.num.natAbs ≠ 0 := Int.natAbs_ne_zero.mpr (Rat.num_ne_zero.mpr hq)
  have hlenP := digits10_length_le hlt
  have hlen0 := digits10_length_ne_zero hn
  have hL : log10 q.num.natAbs ≤ P - 1 := by
    unfold log10
    omega
  unfold sigRound
  dsimp only
  rw [decExp_int hden hq, hden]
  set L := log10 q.num.natAbs with hLdef
  have hk0 : (0 : ℤ) ≤ (P : ℤ) - 1 - (L : ℤ) := by omega
  simp only [if_pos hk0]
  have hkt : ((P : ℤ) - 1 - (L : ℤ)).toNat = P - 1 - L := by omega
  rw [hkt]
  simp only [Nat.cast_one]
  rw [roundHalfEvenND_one]
  have hsnlt : (q.num.natAbs : ℤ) * 10 ^ (P - 1 - L) < 10 ^ P := by
    have h1 : q.num.natAbs * 10 ^ (P - 1 - L) < 10 ^ P := by
      calc q.num.natAbs * 10 ^ (P - 1 - L)
          < 10 ^ (L + 1) * 10 ^ (P - 1 - L) :=
            Nat.mul_lt_mul_of_lt_of_le (lt_log10_succ _) (le_refl _)
              (Nat.pos_pow_of_pos _ (by norm_num))
        _ = 10 ^ P := by
            rw [← pow_add]
            congr 1
            omega
    exact_mod_cast h1
  rw [if_neg (ne_of_lt hsnlt)]

theorem dot_not_mem_digit_map (ds : List ℕ) : '.' ∉ ds.map digitToChar := by
  intro hmem
  obtain ⟨d, _, hd⟩ := List.mem_map.mp hmem
  exact digitToChar_ne_dot d hd

theorem e_not_mem_digit_map (ds : List ℕ) : 'e' ∉ ds.map digitToChar := by
  intro hmem
  obtain ⟨d, _, hd⟩ := List.mem_map.mp hmem
  exact digitToChar_ne_e d hd

theorem not_mem_sign_append {c : Char} {q : ℚ} {l : List Char} (hc : c ≠ '-')
    (hl : c ∉ l) : c ∉ (if q < 0 then ['-'] else []) ++ l := by
  intro hmem
  rcases List.mem_append.mp hmem with hs | h2
  · revert hs
    split
    · intro hs
      exact hc (List.mem_singleton.mp hs)
    · intro hs
      exact (List.not_mem_nil c) hs
  · exact hl h2

theorem sigCount_sign (q : ℚ) (l : List Char) :
    sigCount ((if q < 0 then ['-'] else []) ++ l) = sigCount l := by
  by_cases h : q < 0
  · rw [if_pos h]
    unfold sigCount
    rw [List.singleton_append, List.takeWhile_cons_of_pos (by decide),
      List.filter_cons_of_neg (by decide)]
  · rw [if_neg h, List.nil_append]

theorem sigCount_le_digits (cs : List Char) :
    sigCount cs ≤ ((cs.takeWhile (fun c => c != 'e')).filter Char.isDigit).length :=
  (List.dropWhile_sublist _).length_le

theorem filter_isDigit_digit_map (ds : List ℕ) :
    (ds.map digitToChar).filter Char.isDigit = ds.map digitToChar := by
  rw [List.filter_eq_self]
  intro c hc
  obtain ⟨d, _, rfl⟩ := List.mem_map.mp hc
  exact digitToChar_isDigit d

theorem sigCount_renderSci_le (ds : List ℕ) (e : ℤ) :
    sigCount (renderSci ds e) ≤ ds.length := by
  cases ds with
  | nil =>
    show sigCount ['0'] ≤ 0
    decide
  | cons d0 rest =>
    show sigCount ((digitToChar d0 ::
      (if rest = [] then [] else '.' :: rest.map digitToChar)) ++ renderExpPart e) ≤
      rest.length + 1
    unfold sigCount
    rw [List.takeWhile_append_of_pos ?hall]
    case hall =>
      intro c hc
      rcases List.mem_cons.mp hc with rfl | htail
      · simpa [bne] using digitToChar_ne_e d0
      · revert htail
        split
        · intro htail
          exact absurd htail (List.not_mem_nil c)
        · intro htail
          rcases List.mem_cons.mp htail with rfl | hmm
          · decide
          · obtain ⟨d, _, rfl⟩ := List.mem_map.mp hmm
            simpa [bne] using digitToChar_ne_e d
    have hexp : (renderExpPart e).takeWhile (fun c => c != 'e') = [] := by
      unfold renderExpPart
      dsimp only
      rw [List.takeWhile_cons_of_neg (by decide)]
    rw [hexp, List.append_nil]
    rw [List.filter_cons_of_pos (digitToChar_isDigit d0)]
    by_cases hr : rest = []
    · subst hr
      rw [if_pos rfl]
      calc ((digitToChar d0 :: List.filter Char.isDigit []).dropWhile
            (fun c => c == '0')).length
          ≤ (digitToChar d0 :: List.filter Char.isDigit []).length :=
            (List.dropWhile_sublist _).length_le
        _ ≤ 0 + 1 := by simp
    · rw [if_neg hr]
      rw [List.filter_cons_of_neg (by decide), filter_isDigit_digit_map]
      calc ((digitToChar d0 :: rest.map digitToChar).dropWhile
            (fun c => c == '0')).length
          ≤ (digitToChar d0 :: rest.map digitToChar).length :=
            (List.dropWhile_sublist _).length_le
        _ = rest.length + 1 := by simp

theorem sigCount_renderFixed_le (ds : List ℕ) (e : ℤ) :
    sigCount (renderFixed ds e) ≤ max ds.length (e.toNat + 1) := by
  unfold renderFixed
  split_ifs with h0 hlen
  · calc sigCount ((ds ++ List.replicate (e.toNat + 1 - ds.length) 0).map digitToChar)
        ≤ (((((ds ++ List.replicate (e.toNat + 1 - ds.length) 0).map
            digitToChar).takeWhile (fun c => c != 'e')).filter Char.isDigit)).length :=
          sigCount_le_digits _
      _ ≤ (((ds ++ List.replicate (e.toNat + 1 - ds.length) 0).map
            digitToChar).takeWhile (fun c => c != 'e')).length :=
          List.length_filter_le _ _
      _ ≤ ((ds ++ List.replicate (e.toNat + 1 - ds.length) 0).map digitToChar).length :=
          (List.takeWhile_sublist _).length_le
      _ = e.toNat + 1 := by
          rw [List.length_map, List.length_append, List.length_replicate]
          omega
      _ ≤ max ds.length (e.toNat + 1) := le_max_right _ _
  · have htw : (((ds.take (e.toNat + 1)).map digitToChar) ++
        '.' :: (ds.drop (e.toNat + 1)).map digitToChar).takeWhile (fun c => c != 'e') =
        ((ds.take (e.toNat + 1)).map digitToChar) ++
        '.' :: (ds.drop (e.toNat + 1)).map digitToChar := by
      rw [List.takeWhile_eq_self_iff]
      intro c hc
      rcases List.mem_append.mp hc with h1 | h2
      · obtain ⟨d, _, rfl⟩ := List.mem_map.mp h1
        simpa [bne] using digitToChar_ne_e d
      · rcases List.mem_cons.mp h2 with rfl | h3
        · decide
        · obtain ⟨d, _, rfl⟩ := List.mem_map.mp h3
          simpa [bne] using digitToChar_ne_e d
    calc sigCount (((ds.take (e.toNat + 1)).map digitToChar) ++
          '.' :: (ds.drop (e.toNat + 1)).map digitToChar)
        ≤ (((((ds.take (e.toNat + 1)).map digitToChar) ++
            '.' :: (ds.drop (e.toNat + 1)).map digitToChar).takeWhile
            (fun c => c != 'e')).filter Char.isDigit).length := sigCount_le_digits _
      _ = ((((ds.take (e.toNat + 1)).map digitToChar) ++
            '.' :: (ds.drop (e.toNat + 1)).map digitToChar).filter Char.isDigit).length := by
          rw [htw]
      _ = ds.length := by
          rw [List.filter_append, List.filter_cons_of_neg (by decide),
            filter_isDigit_digit_map, filter_isDigit_digit_map,
            List.length_append, List.length_map, List.length_map,
            List.length_take, List.length_drop]
          omega
      _ ≤ max ds.length (e.toNat + 1) := le_max_left _ _
  · have htw : ('0' :: '.' :: (List.replicate (-(e + 1)).toNat 0 ++ ds).map
        digitToChar).takeWhile (fun c => c != 'e') =
        '0' :: '.' :: (List.replicate (-(e + 1)).toNat 0 ++ ds).map digitToChar := by
      rw [List.takeWhile_eq_self_iff]
      intro c hc
      rcases List.mem_cons.mp hc with rfl | h2
      · decide
      rcases List.mem_cons.mp h2 with rfl | h3
      · decide
      obtain ⟨d, _, rfl⟩ := List.mem_map.mp h3
      simpa [bne] using digitToChar_ne_e d
    unfold sigCount
    rw [htw]
    rw [List.filter_cons_of_pos (by decide), List.filter_cons_of_neg (by decide),
      List.map_append, List.filter_append, filter_isDigit_digit_map,
      filter_isDigit_digit_map]
    have hzeros : (List.replicate (-(e + 1)).toNat (0 : ℕ)).map digitToChar =
        List.replicate (-(e + 1)).toNat '0' := by
      rw [List.map_replicate]
      rfl
    rw [hzeros]
    rw [List.dropWhile_cons_of_pos (by decide)]
    rw [List.dropWhile_append_of_pos (by
      intro c hc
      rw [List.eq_of_mem_replicate hc]
      decide)]
    calc ((ds.map digitToChar).dropWhile (fun c => c == '0')).length
        ≤ (ds.map digitToChar).length := (List.dropWhile_sublist _).length_le
      _ = ds.length := List.length_map _ _
      _ ≤ max ds.length (e.toNat + 1) := le_max_left _ _

theorem fmtG_int_no_dot_no_e {P : ℕ} {q : ℚ} (hden : q.den = 1) (hq : q ≠ 0)
    (hP : 0 < P) (hlt : q.num.natAbs < 10 ^ P) :
    '.' ∉ fmtG P q ∧ 'e' ∉ fmtG P q := by
  have hn : q.num.natAbs ≠ 0 := Int.natAbs_ne_zero.mpr (Rat.num_ne_zero.mpr hq)
  have hlenP := digits10_length_le hlt
  have hlen0 := digits10_length_ne_zero hn
  have hL : log10 q.num.natAbs ≤ P - 1 := by
    unfold log10
    omega
  unfold fmtG
  rw [if_neg hq]
  dsimp only
  rw [sigRound_int hden hq hP hlt]
  dsimp only
  set L := log10 q.num.natAbs with hLdef
  have hbr : ¬ (((L : ℕ) : ℤ) < -4 ∨ (P : ℤ) ≤ ((L : ℕ) : ℤ)) := by omega
  rw [if_neg hbr]
  have hnat : ((q.num.natAbs : ℤ) * 10 ^ (P - 1 - L)).natAbs
      = 10 ^ (P - 1 - L) * q.num.natAbs := by
    rw [Int.natAbs_mul, Int.natAbs_pow]
    simp [Int.natAbs_ofNat, Int.natAbs_abs, mul_comm]
  rw [hnat, sigDigitsOf_pow_mul hn]
  unfold renderFixed
  rw [if_pos (Int.natCast_nonneg L)]
  have hdslen : (sigDigitsOf q.num.natAbs).length ≤ ((L : ℕ) : ℤ).toNat + 1 := by
    have h1 : (sigDigitsOf q.num.natAbs).length ≤ (digits10 q.num.natAbs).length := by
      unfold sigDigitsOf
      rw [List.length_reverse]
      exact (List.dropWhile_sublist _).length_le
    unfold log10 at hLdef
    omega
  rw [if_pos hdslen]
  constructor
  · exact not_mem_sign_append (by decide) (dot_not_mem_digit_map _)
  · exact not_mem_sign_append (by decide) (e_not_mem_digit_map _)

theorem e_mem_fmtG {P : ℕ} {q : ℚ} (hq : q ≠ 0) (hP : 0 < P)
    (hbr : (sigRound P q).2 < -4 ∨ (P : ℤ) ≤ (sigRound P q).2) :
    'e' ∈ fmtG P q := by
  have hm_lo := (sigRound_spec hq hP).1
  unfold fmtG
  rw [if_neg hq]
  dsimp only
  rw [if_pos hbr]
  apply List.mem_append_right
  have hpos : (0 : ℤ) < (sigRound P q).1 :=
    lt_of_lt_of_le (by positivity) hm_lo
  have hnz : (sigRound P q).1.natAbs ≠ 0 := by
    intro hcon
    rw [Int.natAbs_eq_zero] at hcon
    omega
  obtain ⟨d0, rest, hds⟩ := List.exists_cons_of_ne_nil (sigDigitsOf_ne_nil hnz)
  rw [hds]
  show 'e' ∈ (digitToChar d0 ::
    (if rest = [] then [] else '.' :: rest.map digitToChar)) ++
    renderExpPart (sigRound P q).2
  apply List.mem_append_right
  unfold renderExpPart
  exact List.mem_cons_self _ _

theorem sigCount_fmtG_le {P : ℕ} {q : ℚ} (hq : q ≠ 0) (hP : 0 < P) :
    sigCount (fmtG P q) ≤ P := by
  obtain ⟨hm_lo, hm_hi, hge, hle, _⟩ := sigRound_spec hq hP
  unfold fmtG
  rw [if_neg hq]
  dsimp only
  have hpos : (0 : ℤ) ≤ (sigRound P q).1 := le_trans (by positivity) hm_lo
  have hnat : (sigRound P q).1.natAbs < 10 ^ P := by
    have hcast : ((sigRound P q).1.natAbs : ℤ) = (sigRound P q).1 :=
      Int.natAbs_of_nonneg hpos
    have h2 : ((sigRound P q).1.natAbs : ℤ) < ((10 ^ P : ℕ) : ℤ) := by
      rw [hcast]
      calc (sigRound P q).1 < (10 : ℤ) ^ P := hm_hi
        _ = ((10 ^ P : ℕ) : ℤ) := by push_cast; ring
    exact_mod_cast h2
  have hds := sigDigitsOf_length_le hnat
  by_cases hbr : ((sigRound P q).2 < -4 ∨ (P : ℤ) ≤ (sigRound P q).2)
  · rw [if_pos hbr, sigCount_sign]
    exact le_trans (sigCount_renderSci_le _ _) hds
  · rw [if_neg hbr, sigCount_sign]
    refine le_trans (sigCount_renderFixed_le _ _) (max_le hds ?_)
    push_neg at hbr
    have h2 := hbr.2
    omega

theorem cast_natAbs_q (a : ℤ) : ((a.natAbs : ℕ) : ℚ) = |((a : ℤ) : ℚ)| := by
  rw [← Int.cast_abs, Int.abs_eq_natAbs, Int.cast_natCast]

theorem fmtG_big_e {q : ℚ} (hq : q ≠ 0)
    (hbig : 10 ^ 12 * (q.den : ℤ) ≤ (q.num.natAbs : ℤ)) :
    'e' ∈ fmtG 12 q := by
  apply e_mem_fmtG hq (by norm_num)
  right
  have hspec := (sigRound_spec hq (show 0 < 12 by norm_num)).2.2.1
  have hup := (decExp_spec hq).2
  have hdpos : (0 : ℚ) < (q.den : ℚ) := by exact_mod_cast q.pos
  have habs : (10 : ℚ) ^ (12 : ℤ) ≤ |q| := by
    rw [abs_q_eq, le_div_iff hdpos]
    have h1 : ((10 ^ 12 * (q.den : ℤ) : ℤ) : ℚ) ≤ ((q.num.natAbs : ℤ) : ℚ) := by
      exact_mod_cast hbig
    calc (10 : ℚ) ^ (12 : ℤ) * (q.den : ℚ) = ((10 ^ 12 * (q.den : ℤ) : ℤ) : ℚ) := by
          push_cast
          norm_num
      _ ≤ ((q.num.natAbs : ℤ) : ℚ) := h1
      _ = (q.num.natAbs : ℚ) := by push_cast; rw [cast_natAbs_q]
  have h12e : (12 : ℤ) ≤ decExp q := by
    by_contra hcon
    push_neg at hcon
    have hmono : (10 : ℚ) ^ (decExp q + 1) ≤ (10 : ℚ) ^ (12 : ℤ) :=
      zpow_le_zpow_right₀ (by norm_num) (by omega)
    linarith [lt_of_lt_of_le hup hmono]
  omega

theorem fmtG_small_e {q : ℚ} (hq : q ≠ 0)
    (hsml : (q.num.natAbs : ℤ) * 10 ^ 16 ≤ (10 ^ 12 - 1) * (q.den : ℤ)) :
    'e' ∈ fmtG 12 q := by
  apply e_mem_fmtG hq (by norm_num)
  left
  obtain ⟨_, _, hge, hle, hbump⟩ := sigRound_spec hq (show 0 < 12 by norm_num)
  have hlo := (decExp_spec hq).1
  have hdpos : (0 : ℚ) < (q.den : ℚ) := by exact_mod_cast q.pos
  have habs : |q| * (10 : ℚ) ^ (16 : ℤ) ≤ 10 ^ (12 : ℤ) - 1 := by
    rw [abs_q_eq, div_mul_eq_mul_div, div_le_iff hdpos]
    have h1 : (((q.num.natAbs : ℤ) * 10 ^ 16 : ℤ) : ℚ) ≤
        (((10 ^ 12 - 1) * (q.den : ℤ) : ℤ) : ℚ) := by
      exact_mod_cast hsml
    calc (q.num.natAbs : ℚ) * (10 : ℚ) ^ (16 : ℤ)
        = (((q.num.natAbs : ℤ) * 10 ^ 16 : ℤ) : ℚ) := by
          push_cast
          rw [cast_natAbs_q]
          norm_num
      _ ≤ (((10 ^ 12 - 1) * (q.den : ℤ) : ℤ) : ℚ) := h1
      _ = ((10 : ℚ) ^ (12 : ℤ) - 1) * (q.den : ℚ) := by
          push_cast
          norm_num
  have he5 : decExp q ≤ -5 := by
    by_contra hcon
    push_neg at hcon
    have h1 : (10 : ℚ) ^ (-4 : ℤ) ≤ (10 : ℚ) ^ decExp q :=
      zpow_le_zpow_right₀ (by norm_num) (by omega)
    have h2 : (10 : ℚ) ^ (-4 : ℤ) * (10 : ℚ) ^ (16 : ℤ) = (10 : ℚ) ^ (12 : ℤ) := by
      rw [← zpow_add₀ (by norm_num : (10 : ℚ) ≠ 0)]
      norm_num
    have h3 : (10 : ℚ) ^ (12 : ℤ) ≤ |q| * (10 : ℚ) ^ (16 : ℤ) := by
      calc (10 : ℚ) ^ (12 : ℤ) = (10 : ℚ) ^ (-4 : ℤ) * (10 : ℚ) ^ (16 : ℤ) := h2.symm
        _ ≤ |q| * (10 : ℚ) ^ (16 : ℤ) :=
          mul_le_mul_of_nonneg_right (le_trans h1 hlo) (by positivity)
    linarith
  by_cases hb : (sigRound 12 q).2 = decExp q + 1
  · by_cases he6 : decExp q ≤ -6
    · rw [hb]
      omega
    · have he5' : decExp q = -5 := by omega
      have hx := hbump hb
      rw [he5'] at hx
      norm_num at hx
      linarith
  · omega

theorem getD_map_nil {f : Value → List Char} (hf : f .na = []) {cells : List Value} {i : ℕ}
    (h : cells.getD i .na = .na) : (cells.map f).getD i [] = [] := by
  by_cases hi : i < cells.length
  · rw [List.getD_eq_getElem?_getD, List.getElem?_map, List.getElem?_eq_getElem hi]
    rw [List.getD_eq_getElem?_getD, List.getElem?_eq_getElem hi] at h
    simp only [Option.getD_some, Option.map_some'] at h ⊢
    rw [h, hf]
  · have hlen : cells.length ≤ i := le_of_not_lt hi
    rw [List.getD_eq_getElem?_getD, List.getElem?_eq_none (by simpa using hlen)]
    rfl

theorem renderColumn_na {cells : List Value} {i : ℕ} (h : cells.getD i .na = .na) :
    (renderColumn cells).getD i [] = [] := by
  unfold renderColumn
  split_ifs <;> exact getD_map_nil rfl h

theorem renderNat_no_dot (m : ℕ) : '.' ∉ renderNat m := by
  unfold renderNat
  split_ifs
  · decide
  · exact dot_not_mem_digit_map _

theorem renderNat_no_e (m : ℕ) : 'e' ∉ renderNat m := by
  unfold renderNat
  split_ifs
  · decide
  · exact e_not_mem_digit_map _

theorem renderInt_no_dot (n : ℤ) : '.' ∉ renderInt n := by
  unfold renderInt
  split_ifs
  · intro hmem
    rcases List.mem_cons.mp hmem with h1 | h2
    · exact absurd h1 (by decide)
    · exact renderNat_no_dot _ h2
  · exact renderNat_no_dot _

theorem renderInt_no_e (n : ℤ) : 'e' ∉ renderInt n := by
  unfold renderInt
  split_ifs
  · intro hmem
    rcases List.mem_cons.mp hmem with h1 | h2
    · exact absurd h1 (by decide)
    · exact renderNat_no_e _ h2
  · exact renderNat_no_e _

/-- C7 counterexample: the claim asserts that a float with zero fractional
part always serializes without a decimal point, but `write_csv` on a
normalized frame holding the integral float `12345678901234.0` (exactly
representable in a float64) in a float column emits `1.23456789012e+13` —
`%.12g` switches to scientific notation past 12 significant digits, and the
cell gains both a decimal point and an exponent marker. -/
theorem C7_counterexample :
    (12345678901234 : ℚ).den = 1 ∧
    (writeCsv exampleBigFloatFrame).map (fun p => p.1.lines.map (fun l => l.getD 2 "")) =
      some ["1.23456789012e+13", "0.5"] ∧
    '.' ∈ "1.23456789012e+13".data := by decide

/-- C7 (amended): for the numeric cells `write_csv` emits, (1) a missing cell
of any column renders as the empty field (never `nan`); (2) a cell of an
integer column renders as a plain decimal integer, with no decimal point or
exponent; (3) a float cell carries at most 12 significant digits; (4) an
integral float of magnitude below `10^12` renders without decimal point or
exponent; (5) a float of magnitude at least `10^12` renders in exponential
notation; and (6) a nonzero float of magnitude at most `(10^12 - 1)/10^16`
renders in exponential notation (magnitude hypotheses are stated
cross-multiplied over the exact numerator and denominator). -/
theorem C7_amended_float_formatting (q : ℚ) (hq : q ≠ 0) :
    (∀ (cells : List Value) (i : ℕ), cells.getD i .na = .na →
        (renderColumn cells).getD i [] = []) ∧
    (∀ n : ℤ, '.' ∉ renderIntCell (.int n) ∧ 'e' ∉ renderIntCell (.int n)) ∧
    sigCount (fmtG 12 q) ≤ 12 ∧
    (q.den = 1 → q.num.natAbs < 10 ^ 12 → '.' ∉ fmtG 12 q ∧ 'e' ∉ fmtG 12 q) ∧
    (10 ^ 12 * (q.den : ℤ) ≤ (q.num.natAbs : ℤ) → 'e' ∈ fmtG 12 q) ∧
    ((q.num.natAbs : ℤ) * 10 ^ 16 ≤ (10 ^ 12 - 1) * (q.den : ℤ) → 'e' ∈ fmtG 12 q) :=
  ⟨fun _ _ h => renderColumn_na h,
   fun n => ⟨renderInt_no_dot n, renderInt_no_e n⟩,
   sigCount_fmtG_le hq (by norm_num),
   fun hden hlt => fmtG_int_no_dot_no_e hden hq (by norm_num) hlt,
   fun hbig => fmtG_big_e hq hbig,
   fun hsml => fmtG_small_e hq hsml⟩

/-- C7 witness: the amended formatting theorem instantiated at the concrete
nonzero value `3/2`. -/
theorem C7_witness :
    (mkRat 3 2 ≠ 0) ∧
    ((∀ (cells : List Value) (i : ℕ), cells.getD i .na = .na →
        (renderColumn cells).getD i [] = []) ∧
     (∀ n : ℤ, '.' ∉ renderIntCell (.int n) ∧ 'e' ∉ renderIntCell (.int n)) ∧
     sigCount (fmtG 12 (mkRat 3 2)) ≤ 12 ∧
     ((mkRat 3 2 : ℚ).den = 1 → (mkRat 3 2 : ℚ).num.natAbs < 10 ^ 12 →
        '.' ∉ fmtG 12 (mkRat 3 2) ∧ 'e' ∉ fmtG 12 (mkRat 3 2)) ∧
     (10 ^ 12 * ((mkRat 3 2 : ℚ).den : ℤ) ≤ ((mkRat 3 2 : ℚ).num.natAbs : ℤ) →
        'e' ∈ fmtG 12 (mkRat 3 2)) ∧
     (((mkRat 3 2 : ℚ).num.natAbs : ℤ) * 10 ^ 16 ≤
        (10 ^ 12 - 1) * ((mkRat 3 2 : ℚ).den : ℤ) → 'e' ∈ fmtG 12 (mkRat 3 2))) :=
  ⟨by decide, C7_amended_float_formatting (mkRat 3 2) (by decide)⟩

/-! ## C3: the write/read round trip -/

theorem digitsVal_snoc (ds : List ℕ) (d : ℕ) :
    digitsVal (ds ++ [d]) = 10 * digitsVal ds + d := by
  unfold digitsVal
  rw [List.foldl_append]
  rfl

theorem digitsVal_reverse_eq_ofDigits (ds : List ℕ) :
    digitsVal ds.reverse = Nat.ofDigits 10 ds := by
  induction ds with
  | nil => rfl
  | cons d tail ih =>
    rw [List.reverse_cons, digitsVal_snoc, ih, Nat.ofDigits_cons]
    ring

theorem digitsVal_msb (m : ℕ) : digitsVal (natDigitsMSB m) = m := by
  unfold natDigitsMSB
  rw [digitsVal_reverse_eq_ofDigits, digits10_eq, Nat.ofDigits_digits]

theorem digits10_lt_base {m d : ℕ} (h : d ∈ digits10 m) : d < 10 := by
  rw [digits10_eq] at h
  exact Nat.digits_lt_base (by norm_num) h

theorem natDigitsMSB_lt_base {m d : ℕ} (h : d ∈ natDigitsMSB m) : d < 10 := by
  unfold natDigitsMSB at h
  rw [List.mem_reverse] at h
  exact digits10_lt_base h

theorem sigDigitsOf_lt_base {m d : ℕ} (h : d ∈ sigDigitsOf m) : d < 10 := by
  unfold sigDigitsOf at h
  rw [List.mem_reverse] at h
  exact digits10_lt_base ((List.dropWhile_sublist _).subset h)

theorem charToDigit_digitToChar {d : ℕ} (h : d < 10) :
    charToDigit (digitToChar d) = some d := by
  interval_cases d <;> rfl

theorem digitToChar_ne_dash (d : ℕ) : digitToChar d ≠ '-' := by
  unfold digitToChar
  split <;> decide

theorem mapM_charToDigit_map {ds : List ℕ} (h : ∀ d ∈ ds, d < 10) :
    (ds.map digitToChar).mapM charToDigit = some ds := by
  induction ds with
  | nil => rfl
  | cons d tail ih =>
    rw [List.map_cons, List.mapM_cons, charToDigit_digitToChar (h d (by simp)),
      ih (fun x hx => h x (by simp [hx]))]
    rfl

theorem parseNat_digit_map {ds : List ℕ} (hne : ds ≠ []) (h : ∀ d ∈ ds, d < 10) :
    parseNat (ds.map digitToChar) = some (digitsVal ds) := by
  obtain ⟨d, tail, rfl⟩ := List.exists_cons_of_ne_nil hne
  show ((List.map digitToChar (d :: tail)).mapM charToDigit).map
    (fun l => l.foldl (fun acc x => 10 * acc + x) 0) = some (digitsVal (d :: tail))
  rw [mapM_charToDigit_map h]
  rfl

theorem natDigitsMSB_ne_nil {m : ℕ} (hm : m ≠ 0) : natDigitsMSB m ≠ [] := by
  unfold natDigitsMSB
  simp only [ne_eq, List.reverse_eq_nil_iff]
  rw [digits10_eq]
  exact Nat.digits_ne_nil_iff_ne_zero.mpr hm

theorem parseNat_renderNat (m : ℕ) : parseNat (renderNat m) = some m := by
  unfold renderNat
  split_ifs with h0
  · subst h0
    rfl
  · rw [parseNat_digit_map (natDigitsMSB_ne_nil h0)
      (fun d hd => natDigitsMSB_lt_base hd), digitsVal_msb]

theorem parseIntStr_cons_ne_dash {c : Char} {cs : List Char} (h : c ≠ '-') :
    parseIntStr (c :: cs) = (parseNat (c :: cs)).map (fun n => (n : ℤ)) := by
  unfold parseIntStr
  split
  · rename_i heq
    rw [List.cons.injEq] at heq
    exact absurd heq.1 h
  · rfl

theorem parseIntStr_renderInt (n : ℤ) : parseIntStr (renderInt n) = some n := by
  unfold renderInt
  split_ifs with hneg
  · show parseIntStr ('-' :: renderNat n.natAbs) = some n
    show (parseNat (renderNat n.natAbs)).map (fun m => -(m : ℤ)) = some n
    rw [parseNat_renderNat]
    show some (-(n.natAbs : ℤ)) = some n
    congr 1
    omega
  · have hne : renderNat n.natAbs ≠ [] := by
      unfold renderNat
      split_ifs with hz
      · simp
      · simpa using natDigitsMSB_ne_nil hz
    obtain ⟨c, cs, hcs⟩ := List.exists_cons_of_ne_nil hne
    have hc : c ≠ '-' := by
      intro hcon
      subst hcon
      unfold renderNat at hcs
      revert hcs
      split_ifs
      · intro hcs
        rw [List.cons.injEq] at hcs
        exact absurd hcs.1 (by decide)
      · intro hcs
        have hmem : '-' ∈ (natDigitsMSB n.natAbs).map digitToChar := by
          rw [hcs]
          exact List.mem_cons_self _ _
        obtain ⟨d, _, hd⟩ := List.mem_map.mp hmem
        exact digitToChar_ne_dash d hd
    rw [hcs, parseIntStr_cons_ne_dash hc, ← hcs, parseNat_renderNat]
    show some ((n.natAbs : ℤ)) = some n
    congr 1
    omega

theorem spanDigits_digit_map_append {ds : List ℕ} (hds : ∀ d ∈ ds, d < 10)
    {rest : List Char} (hrest : ∀ c, rest.head? = some c → charToDigit c = none) :
    spanDigits (ds.map digitToChar ++ rest) = (ds, rest) := by
  induction ds with
  | nil =>
    simp only [List.map_nil, List.nil_append]
    cases rest with
    | nil => rfl
    | cons c r =>
      unfold spanDigits
      rw [hrest c rfl]
  | cons d tail ih =>
    simp only [List.map_cons, List.cons_append]
    unfold spanDigits
    rw [charToDigit_digitToChar (hds d (by simp))]
    rw [ih (fun x hx => hds x (by simp [hx]))]

theorem spanDigits_digit_map {ds : List ℕ} (hds : ∀ d ∈ ds, d < 10) :
    spanDigits (ds.map digitToChar) = (ds, []) := by
  have h := @spanDigits_digit_map_append ds hds [] (fun c hc => by simp at hc)
  simpa using h

theorem splitMantissa_digits {ds : List ℕ} (hds : ∀ d ∈ ds, d < 10) :
    splitMantissa (ds.map digitToChar) = (ds, [], []) := by
  unfold splitMantissa
  rw [spanDigits_digit_map hds]

theorem splitMantissa_int_frac {I F : List ℕ} (hI : ∀ d ∈ I, d < 10)
    (hF : ∀ d ∈ F, d < 10) :
    splitMantissa (I.map digitToChar ++ '.' :: F.map digitToChar) = (I, F, []) := by
  unfold splitMantissa
  rw [spanDigits_digit_map_append hI (fun c hc => by
    simp only [List.head?_cons, Option.some.injEq] at hc
    rw [← hc]
    rfl)]
  show (I, (spanDigits (List.map digitToChar F)).1,
    (spanDigits (List.map digitToChar F)).2) = (I, F, [])
  rw [spanDigits_digit_map hF]

theorem foldl_digits_init (a : ℕ) (ds : List ℕ) :
    ds.foldl (fun acc d => 10 * acc + d) a = a * 10 ^ ds.length + digitsVal ds := by
  induction ds generalizing a with
  | nil => simp [digitsVal]
  | cons d tail ih =>
    show tail.foldl (fun acc x => 10 * acc + x) (10 * a + d) = _
    rw [ih (10 * a + d)]
    have h2 : digitsVal (d :: tail) = (10 * 0 + d) * 10 ^ tail.length + digitsVal tail := by
      show tail.foldl (fun acc x => 10 * acc + x) (10 * 0 + d) = _
      rw [ih (10 * 0 + d)]
    rw [h2, List.length_cons]
    ring

theorem digitsVal_cons (d : ℕ) (ds : List ℕ) :
    digitsVal (d :: ds) = d * 10 ^ ds.length + digitsVal ds := by
  show ds.foldl (fun acc x => 10 * acc + x) (10 * 0 + d) = _
  rw [foldl_digits_init]
  ring_nf

theorem parseNat_expDigits (a : ℕ) :
    parseNat ((if a < 10 then [0, a] else natDigitsMSB a).map digitToChar) = some a := by
  split_ifs with ha
  · rw [parseNat_digit_map (by simp) (by
      intro d hd
      rcases List.mem_cons.mp hd with rfl | hd2
      · norm_num
      · rcases List.mem_cons.mp hd2 with rfl | hd3
        · exact ha
        · exact absurd hd3 (List.not_mem_nil d))]
    congr 1
    rw [digitsVal_cons, digitsVal_cons]
    simp [digitsVal]
  · rw [parseNat_digit_map (natDigitsMSB_ne_nil (by omega))
      (fun d hd => natDigitsMSB_lt_base hd), digitsVal_msb]

theorem digitsVal_singleton (d : ℕ) : digitsVal [d] = d := by
  rw [digitsVal_cons]
  simp [digitsVal]

theorem parseFloatPos_digits {ds : List ℕ} (hne : ds ≠ []) (hds : ∀ d ∈ ds, d < 10) :
    parseFloatPos (ds.map digitToChar) = some (mkRat (digitsVal ds) 1) := by
  unfold parseFloatPos
  rw [splitMantissa_digits hds]
  dsimp only
  rw [if_neg (by simp [hne])]
  show some (mkRat (digitsVal ds * 10 ^ List.length ([] : List ℕ) + digitsVal [])
    (10 ^ List.length ([] : List ℕ))) = some (mkRat (digitsVal ds) 1)
  norm_num [digitsVal]

theorem parseFloatPos_int_frac {I F : List ℕ} (hne : I ≠ [])
    (hI : ∀ d ∈ I, d < 10) (hF : ∀ d ∈ F, d < 10) :
    parseFloatPos (I.map digitToChar ++ '.' :: F.map digitToChar) =
      some (mkRat ((digitsVal I * 10 ^ F.length + digitsVal F : ℕ)) (10 ^ F.length)) := by
  unfold parseFloatPos
  rw [splitMantissa_int_frac hI hF]
  dsimp only
  rw [if_neg (by simp [hne])]

theorem renderExpPart_eq (e : ℤ) : renderExpPart e =
    'e' :: (if e < 0 then '-' else '+') ::
      (if e.natAbs < 10 then [0, e.natAbs] else natDigitsMSB e.natAbs).map digitToChar := by
  unfold renderExpPart
  rfl

theorem parseExp_render (e : ℤ) : parseExp ((if e < 0 then '-' else '+') ::
    (if e.natAbs < 10 then [0, e.natAbs] else natDigitsMSB e.natAbs).map digitToChar) =
    some e := by
  by_cases hneg : e < 0
  · rw [if_pos hneg]
    show (parseNat ((if e.natAbs < 10 then [0, e.natAbs] else
        natDigitsMSB e.natAbs).map digitToChar)).map (fun n => -(n : ℤ)) = some e
    rw [parseNat_expDigits]
    show some (-((e.natAbs : ℕ) : ℤ)) = some e
    congr 1
    omega
  · rw [if_neg hneg]
    have harm : parseExp ('+' :: ((if e.natAbs < 10 then [0, e.natAbs] else
        natDigitsMSB e.natAbs).map digitToChar)) =
        (parseNat ((if e.natAbs < 10 then [0, e.natAbs] else
          natDigitsMSB e.natAbs).map digitToChar)).map (fun n => (n : ℤ)) := by
      simp [parseExp]
    rw [harm, parseNat_expDigits]
    show some (((e.natAbs : ℕ) : ℤ)) = some e
    congr 1
    omega

theorem parseFloatPos_sci {d0 : ℕ} {rest : List ℕ} (hd0 : d0 < 10)
    (hrest : ∀ d ∈ rest, d < 10) (e : ℤ) :
    parseFloatPos ((digitToChar d0 ::
        (if rest = [] then [] else '.' :: rest.map digitToChar)) ++ renderExpPart e) =
      some (if 0 ≤ e then
              mkRat (((digitsVal (d0 :: rest) : ℕ) : ℤ) * 10 ^ e.toNat) (10 ^ rest.length)
            else
              mkRat ((digitsVal (d0 :: rest) : ℕ)) (10 ^ rest.length * 10 ^ (-e).toNat)) := by
  have hexp_head : ∀ c, (renderExpPart e).head? = some c → charToDigit c = none := by
    intro c hc
    rw [renderExpPart_eq] at hc
    simp only [List.head?_cons, Option.some.injEq] at hc
    rw [← hc]
    rfl
  have hd0s : ∀ d ∈ [d0], d < 10 := by
    intro d hd
    rw [List.mem_singleton] at hd
    subst hd
    exact hd0
  have hmant : splitMantissa ((digitToChar d0 ::
      (if rest = [] then [] else '.' :: rest.map digitToChar)) ++ renderExpPart e) =
      ([d0], rest, renderExpPart e) := by
    by_cases hr : rest = []
    · subst hr
      rw [if_pos rfl]
      unfold splitMantissa
      rw [show ((digitToChar d0 :: [] : List Char) ++ renderExpPart e)
          = ([d0].map digitToChar) ++ renderExpPart e from rfl]
      rw [spanDigits_digit_map_append hd0s hexp_head]
      rw [renderExpPart_eq]
      rfl
    · rw [if_neg hr]
      unfold splitMantissa
      rw [show (digitToChar d0 :: '.' :: rest.map digitToChar) ++ renderExpPart e
          = ([d0].map digitToChar) ++ '.' :: (rest.map digitToChar ++ renderExpPart e)
          from by simp]
      rw [spanDigits_digit_map_append hd0s (fun c hc => by
        simp only [List.head?_cons, Option.some.injEq] at hc
        rw [← hc]
        rfl)]
      show ([d0], (spanDigits (rest.map digitToChar ++ renderExpPart e)).1,
        (spanDigits (rest.map digitToChar ++ renderExpPart e)).2) = _
      rw [spanDigits_digit_map_append hrest hexp_head]
  unfold parseFloatPos
  rw [hmant]
  dsimp only
  rw [if_neg (by simp)]
  rw [renderExpPart_eq]
  have hmn : digitsVal [d0] * 10 ^ rest.length + digitsVal rest = digitsVal (d0 :: rest) := by
    conv_rhs => rw [digitsVal_cons]
    rw [digitsVal_singleton]
  show (parseExp ((if e < 0 then '-' else '+') ::
      (if e.natAbs < 10 then [0, e.natAbs] else natDigitsMSB e.natAbs).map digitToChar)).map
      (fun ex => if 0 ≤ ex then
        mkRat (((digitsVal [d0] * 10 ^ rest.length + digitsVal rest : ℕ)) * 10 ^ ex.toNat)
          (10 ^ rest.length)
      else
        mkRat ((digitsVal [d0] * 10 ^ rest.length + digitsVal rest : ℕ))
          (10 ^ rest.length * 10 ^ (-ex).toNat)) = _
  rw [parseExp_render, hmn]
  rfl

theorem digitsVal_append (A B : List ℕ) :
    digitsVal (A ++ B) = digitsVal A * 10 ^ B.length + digitsVal B := by
  unfold digitsVal
  rw [List.foldl_append]
  rw [foldl_digits_init]
  rfl

theorem digitsVal_replicate_zero (k : ℕ) : digitsVal (List.replicate k 0) = 0 := by
  induction k with
  | zero => rfl
  | succ k ih =>
    rw [List.replicate_succ]
    show List.foldl (fun acc d => 10 * acc + d) (10 * 0 + 0) (List.replicate k 0) = 0
    rw [foldl_digits_init]
    simpa using ih

/-- Decomposition of a nonzero natural by its significant digits: the number
is its significant-digit value shifted by its trailing zeros, and the digit
counts add up. -/
theorem sigDigitsOf_spec {n : ℕ} (hn : n ≠ 0) :
    ∃ z : ℕ, digitsVal (sigDigitsOf n) * 10 ^ z = n ∧
      (sigDigitsOf n).length + z = (digits10 n).length := by
  have htr : (digits10 n).takeWhile (fun d => d = 0) ++
      (digits10 n).dropWhile (fun d => d = 0) = digits10 n :=
    List.takeWhile_append_dropWhile _ _
  have hzeros : (digits10 n).takeWhile (fun d => d = 0) =
      List.replicate ((digits10 n).takeWhile (fun d => d = 0)).length 0 := by
    apply List.eq_replicate_of_mem
    intro x hx
    have := List.mem_takeWhile_imp hx
    simpa using this
  refine ⟨((digits10 n).takeWhile (fun d => d = 0)).length, ?_, ?_⟩
  · have h1 : sigDigitsOf n = ((digits10 n).dropWhile (fun d => d = 0)).reverse := rfl
    rw [h1, digitsVal_reverse_eq_ofDigits]
    have h2 : Nat.ofDigits 10 (digits10 n) = n := by
      rw [digits10_eq]
      exact_mod_cast Nat.ofDigits_digits 10 n
    conv_rhs => rw [← h2, ← htr]
    rw [Nat.ofDigits_append]
    conv_rhs => rw [hzeros]
    have h3 : Nat.ofDigits 10 (List.replicate
        ((digits10 n).takeWhile (fun d => d = 0)).length 0) = 0 := by
      induction ((digits10 n).takeWhile (fun d => d = 0)).length with
      | zero => rfl
      | succ k ih =>
        rw [List.replicate_succ, Nat.ofDigits_cons, ih]
    rw [h3, List.length_replicate]
    push_cast
    ring
  · conv_rhs => rw [← htr]
    rw [List.length_append]
    unfold sigDigitsOf
    rw [List.length_reverse]
    ring

/-- When the scaled value `|q| * 10^(P-1-e)` is an integer below `10^P`,
`sigRound` returns it exactly with the unbumped exponent. -/
theorem sigRound_eq_of_int {P : ℕ} {q : ℚ} (hq : q ≠ 0) (hP : 0 < P) {X : ℤ}
    (hX : ((X : ℤ) : ℚ) = |q| * (10 : ℚ) ^ (((P : ℤ) - 1) - decExp q))
    (hXhi : X < 10 ^ P) :
    sigRound P q = (X, decExp q) := by
  have hnum : q.num ≠ 0 := Rat.num_ne_zero.mpr hq
  have hdnz : q.den ≠ 0 := q.den_nz
  have hdposQ : (0 : ℚ) < (q.den : ℚ) := by exact_mod_cast Nat.pos_of_ne_zero hdnz
  have hten : (10 : ℚ) ≠ 0 := by norm_num
  unfold sigRound
  dsimp only
  set e := decExp q with he
  set k : ℤ := (P : ℤ) - 1 - e with hk
  set sn : ℤ := if 0 ≤ k then (q.num.natAbs : ℤ) * 10 ^ k.toNat else (q.num.natAbs : ℤ)
    with hsn
  set sd : ℤ := if 0 ≤ k then (q.den : ℤ) else (q.den : ℤ) * 10 ^ (-k).toNat with hsd
  have hsdpos : 0 < sd := by
    rw [hsd]
    split_ifs
    · exact_mod_cast Nat.pos_of_ne_zero hdnz
    · have h1 : (0 : ℤ) < (q.den : ℤ) := by exact_mod_cast Nat.pos_of_ne_zero hdnz
      positivity
  have hid : ((sn : ℤ) : ℚ) = |q| * (10 : ℚ) ^ k * ((sd : ℤ) : ℚ) := by
    rw [abs_q_eq, hsn, hsd]
    split_ifs with h0
    · have hkk : (10 : ℚ) ^ k = (10 : ℚ) ^ (k.toNat : ℕ) := by
        conv_lhs => rw [(Int.toNat_of_nonneg h0).symm]
        rw [zpow_natCast]
      rw [hkk, div_mul_eq_mul_div, div_mul_eq_mul_div,
        eq_div_iff (ne_of_gt hdposQ)]
      push_cast
      rw [← Int.cast_abs, Int.abs_eq_natAbs, Int.cast_natCast]
    · have hkk : (10 : ℚ) ^ k * (10 : ℚ) ^ ((-k).toNat : ℕ) = 1 := by
        rw [← zpow_natCast (10 : ℚ) (-k).toNat, ← zpow_add₀ hten]
        have : k + ((-k).toNat : ℤ) = 0 := by omega
        rw [this, zpow_zero]
      rw [div_mul_eq_mul_div, div_mul_eq_mul_div,
        eq_div_iff (ne_of_gt hdposQ)]
      simp only [Int.cast_mul, Int.cast_natCast, Int.cast_pow, Int.cast_ofNat]
      calc (q.num.natAbs : ℚ)  * (q.den : ℚ)
          = (q.num.natAbs : ℚ) * ((10 : ℚ) ^ k * (10 : ℚ) ^ ((-k).toNat : ℕ)) * (q.den : ℚ) := by
            rw [hkk]; ring
        _ = (q.num.natAbs : ℚ) * (10 : ℚ) ^ k * ((q.den : ℚ) * (10 : ℚ) ^ ((-k).toNat : ℕ)) := by
            ring
  have hsnsd : sn = sd * X := by
    have h : ((sn : ℤ) : ℚ) = ((sd * X : ℤ) : ℚ) := by
      rw [hid]
      push_cast
      rw [← hX]
      ring
    exact_mod_cast h
  rw [hsnsd, roundHalfEvenND_exact X hsdpos]
  rw [if_neg (ne_of_lt hXhi)]

/-- A nonzero value `m * 10^t` with at most 12 significant digits scales to an
exact integer significand in `[10^11, 10^12)`. -/
theorem exists_scaled_int {q : ℚ} {m t : ℤ} (hq : q ≠ 0)
    (hqm : q = (m : ℚ) * (10 : ℚ) ^ t) (hm : m.natAbs < 10 ^ 12) :
    ∃ X : ℤ, ((X : ℤ) : ℚ) = |q| * (10 : ℚ) ^ ((11 : ℤ) - decExp q) ∧
      10 ^ 11 ≤ X ∧ X < 10 ^ 12 := by
  obtain ⟨hlo, hhi⟩ := decExp_spec hq
  have hten : (10 : ℚ) ≠ 0 := by norm_num
  set e := decExp q with he
  set k : ℤ := 11 - e with hk
  have hkpos : (0 : ℚ) < (10 : ℚ) ^ k := by positivity
  have habs : |q| = ((m.natAbs : ℕ) : ℚ) * (10 : ℚ) ^ t := by
    rw [hqm, abs_mul, abs_of_pos (zpow_pos (by norm_num : (0 : ℚ) < 10) t), cast_natAbs_q]
  have hsc_lo : (10 : ℚ) ^ (11 : ℤ) ≤ |q| * 10 ^ k := by
    calc (10 : ℚ) ^ (11 : ℤ) = 10 ^ e * 10 ^ k := by
          rw [← zpow_add₀ hten]
          congr 1
          omega
      _ ≤ |q| * 10 ^ k := mul_le_mul_of_nonneg_right hlo hkpos.le
  have hsc_hi : |q| * 10 ^ k < (10 : ℚ) ^ (12 : ℤ) := by
    calc |q| * 10 ^ k < 10 ^ (e + 1) * 10 ^ k := mul_lt_mul_of_pos_right hhi hkpos
      _ = 10 ^ (12 : ℤ) := by
          rw [← zpow_add₀ hten]
          congr 1
          omega
  have hqk : |q| * 10 ^ k = ((m.natAbs : ℕ) : ℚ) * (10 : ℚ) ^ (t + k) := by
    rw [habs, mul_assoc, ← zpow_add₀ hten]
  have htk : 0 ≤ t + k := by
    by_contra hcon
    push_neg at hcon
    have h1 : (10 : ℚ) ^ (t + k) ≤ 10 ^ (-1 : ℤ) :=
      zpow_le_zpow_right₀ (by norm_num) (by omega)
    have h2 : ((m.natAbs : ℕ) : ℚ) ≤ (10 : ℚ) ^ (12 : ℤ) - 1 := by
      have hb : (m.natAbs : ℕ) ≤ 10 ^ 12 - 1 := by omega
      calc ((m.natAbs : ℕ) : ℚ) ≤ ((10 ^ 12 - 1 : ℕ) : ℚ) := by exact_mod_cast hb
        _ = (10 : ℚ) ^ (12 : ℤ) - 1 := by push_cast; norm_num
    have h3 : |q| * 10 ^ k ≤ ((10 : ℚ) ^ (12 : ℤ) - 1) * (10 : ℚ) ^ (-1 : ℤ) := by
      rw [hqk]
      apply mul_le_mul h2 h1 (by positivity) (by positivity)
    have h4 : ((10 : ℚ) ^ (12 : ℤ) - 1) * (10 : ℚ) ^ (-1 : ℤ) < (10 : ℚ) ^ (11 : ℤ) := by
      have hx : (10 : ℚ) ^ (12 : ℤ) * (10 : ℚ) ^ (-1 : ℤ) = 10 ^ (11 : ℤ) := by
        rw [← zpow_add₀ hten]
        norm_num
      have hpos : (0 : ℚ) < (10 : ℚ) ^ (-1 : ℤ) := by positivity
      nlinarith [hx, hpos]
    linarith
  have hXQ : (((m.natAbs : ℤ) * 10 ^ (t + k).toNat : ℤ) : ℚ) = |q| * 10 ^ k := by
    push_cast
    rw [hqk, ← zpow_natCast (10 : ℚ) (t + k).toNat, Int.toNat_of_nonneg htk,
      cast_natAbs_q]
  have hc11 : (10 : ℚ) ^ (11 : ℤ) = ((10 ^ 11 : ℤ) : ℚ) := by
    push_cast
    norm_num
  have hc12 : (10 : ℚ) ^ (12 : ℤ) = ((10 ^ 12 : ℤ) : ℚ) := by
    push_cast
    norm_num
  refine ⟨(m.natAbs : ℤ) * 10 ^ (t + k).toNat, hXQ, ?_, ?_⟩
  · have h : ((10 ^ 11 : ℤ) : ℚ) ≤ (((m.natAbs : ℤ) * 10 ^ (t + k).toNat : ℤ) : ℚ) := by
      rw [hXQ, ← hc11]
      exact hsc_lo
    exact_mod_cast h
  · have h : (((m.natAbs : ℤ) * 10 ^ (t + k).toNat : ℤ) : ℚ) < ((10 ^ 12 : ℤ) : ℚ) := by
      rw [hXQ, ← hc12]
      exact hsc_hi
    exact_mod_cast h

theorem mkRat_eq_val (a : ℤ) (B : ℕ) :
    (mkRat a (10 ^ B) : ℚ) = (a : ℚ) * (10 : ℚ) ^ (-(B : ℤ)) := by
  rw [Rat.mkRat_eq_div, zpow_neg, zpow_natCast, div_eq_mul_inv]
  push_cast
  ring

theorem parseFloatStr_cons_ne_dash {c : Char} {cs : List Char} (h : c ≠ '-') :
    parseFloatStr (c :: cs) = parseFloatPos (c :: cs) := by
  unfold parseFloatStr
  split
  · rename_i heq
    rw [List.cons.injEq] at heq
    exact absurd heq.1 h
  · rfl

theorem parseFloatStr_dash (cs : List Char) :
    parseFloatStr ('-' :: cs) = (parseFloatPos cs).map (fun x => -x) := rfl

theorem parseFloatPos_zero_frac {F : List ℕ} (hF : ∀ d ∈ F, d < 10) :
    parseFloatPos ('0' :: '.' :: F.map digitToChar) =
      some (mkRat ((digitsVal [0] * 10 ^ F.length + digitsVal F : ℕ)) (10 ^ F.length)) := by
  have h := parseFloatPos_int_frac (I := [0]) (by simp)
    (by
      intro d hd
      rw [List.mem_singleton] at hd
      omega) hF
  simpa [show digitToChar 0 = '0' from rfl] using h

set_option maxHeartbeats 2000000 in
/-- Core exactness of the `%.12g` round trip: a nonzero value with at most 12
significant decimal digits parses back from its rendering unchanged. -/
theorem parseFloatStr_fmtG {q : ℚ} {m t : ℤ} (hq : q ≠ 0)
    (hqm : q = (m : ℚ) * (10 : ℚ) ^ t) (hm : m.natAbs < 10 ^ 12) :
    parseFloatStr (fmtG 12 q) = some q := by
  have hten : (10 : ℚ) ≠ 0 := by norm_num
  obtain ⟨X, hXQ, hX11, hX12⟩ := exists_scaled_int hq hqm hm
  have hsig : sigRound 12 q = (X, decExp q) := by
    apply sigRound_eq_of_int hq (by norm_num) _ hX12
    rw [hXQ]
    norm_num
  have hXpos : 0 < X := lt_of_lt_of_le (by positivity) hX11
  have hXN : (X.natAbs : ℤ) = X := Int.natAbs_of_nonneg hXpos.le
  have hN11 : 10 ^ 11 ≤ X.natAbs := by
    have h : ((10 ^ 11 : ℕ) : ℤ) ≤ (X.natAbs : ℤ) := by
      rw [hXN]
      calc ((10 ^ 11 : ℕ) : ℤ) = 10 ^ 11 := by norm_num
        _ ≤ X := hX11
    exact_mod_cast h
  have hN12 : X.natAbs < 10 ^ 12 := by
    have h : (X.natAbs : ℤ) < ((10 ^ 12 : ℕ) : ℤ) := by
      rw [hXN]
      calc X < (10 : ℤ) ^ 12 := hX12
        _ = ((10 ^ 12 : ℕ) : ℤ) := by norm_num
    exact_mod_cast h
  have hNne : X.natAbs ≠ 0 := by positivity
  obtain ⟨z, hzval, hzlen⟩ := sigDigitsOf_spec hNne
  have hlen12 : (digits10 X.natAbs).length = 12 := by
    have hle := digits10_length_le hN12
    have hlt := Nat.lt_base_pow_length_digits (b := 10) (m := X.natAbs) (by norm_num)
    by_contra hcon
    have h11 : (digits10 X.natAbs).length ≤ 11 := by
      rw [digits10_eq] at *
      omega
    have h2 : (10 : ℕ) ^ (digits10 X.natAbs).length ≤ 10 ^ 11 :=
      Nat.pow_le_pow_right (by norm_num) h11
    rw [digits10_eq] at *
    omega
  rw [hlen12] at hzlen
  have hdsne : sigDigitsOf X.natAbs ≠ [] := sigDigitsOf_ne_nil hNne
  have hdsmem : ∀ d ∈ sigDigitsOf X.natAbs, d < 10 := fun d hd => sigDigitsOf_lt_base hd
  have hz11 : z ≤ 11 := by
    have := List.length_pos.mpr hdsne
    omega
  have hvq : |q| = ((digitsVal (sigDigitsOf X.natAbs) : ℕ) : ℚ) *
      (10 : ℚ) ^ ((z : ℤ) + decExp q - 11) := by
    have h1 : |q| = ((X : ℤ) : ℚ) * (10 : ℚ) ^ (decExp q - 11) := by
      rw [hXQ, mul_assoc, ← zpow_add₀ hten]
      have hexp : (11 : ℤ) - decExp q + (decExp q - 11) = 0 := by ring
      rw [hexp, zpow_zero, mul_one]
    have hXv : ((X : ℤ) : ℚ) = ((digitsVal (sigDigitsOf X.natAbs) * 10 ^ z : ℕ) : ℚ) := by
      have hint : ((digitsVal (sigDigitsOf X.natAbs) * 10 ^ z : ℕ) : ℤ) = X := by
        rw [hzval]
        exact hXN
      exact_mod_cast hint.symm
    rw [h1, hXv]
    push_cast
    rw [mul_assoc, ← zpow_natCast (10 : ℚ) z, ← zpow_add₀ hten]
    congr 2
    ring
  have habspos : 0 < |q| := abs_pos.mpr hq
  obtain ⟨d0, rest, hcons⟩ := List.exists_cons_of_ne_nil hdsne
  have hd0lt : d0 < 10 := hdsmem d0 (hcons ▸ List.mem_cons_self _ _)
  have hrestmem : ∀ d ∈ rest, d < 10 :=
    fun d hd => hdsmem d (hcons ▸ List.mem_cons_of_mem _ hd)
  have hrestlen : rest.length + 1 + z = 12 := by
    have h := hzlen
    rw [hcons] at h
    simpa using h
  have hdl : (sigDigitsOf X.natAbs).length = rest.length + 1 := by
    rw [hcons]
    rfl
  -- the branch body parses exactly to the absolute value, and starts with a
  -- character other than a minus sign
  have hbody : parseFloatPos (if decExp q < -4 ∨ ((12 : ℕ) : ℤ) ≤ decExp q
        then renderSci (sigDigitsOf X.natAbs) (decExp q)
        else renderFixed (sigDigitsOf X.natAbs) (decExp q)) =
        some |q| ∧
      ∃ c tail, (if decExp q < -4 ∨ ((12 : ℕ) : ℤ) ≤ decExp q
        then renderSci (sigDigitsOf X.natAbs) (decExp q)
        else renderFixed (sigDigitsOf X.natAbs) (decExp q)) =
        c :: tail ∧ c ≠ '-' := by
    by_cases hbr : decExp q < -4 ∨ ((12 : ℕ) : ℤ) ≤ decExp q
    · rw [if_pos hbr]
      constructor
      · rw [hcons]
        show parseFloatPos ((digitToChar d0 ::
          (if rest = [] then [] else '.' :: rest.map digitToChar)) ++
          renderExpPart (decExp q)) = some |q|
        rw [parseFloatPos_sci hd0lt hrestmem (decExp q)]
        congr 1
        rw [← hcons]
        split_ifs with h0
        · rw [mkRat_eq_val, hvq, hcons]
          push_cast
          rw [mul_assoc, ← zpow_natCast (10 : ℚ) (decExp q).toNat, ← zpow_add₀ hten]
          congr 2
          omega
        · rw [Rat.mkRat_eq_div, hvq, hcons]
          push_cast
          rw [div_eq_mul_inv, ← zpow_natCast (10 : ℚ) rest.length,
            ← zpow_natCast (10 : ℚ) (-(decExp q)).toNat, ← zpow_add₀ hten,
            ← zpow_neg]
          congr 2
          omega
      · refine ⟨digitToChar d0,
          (if rest = [] then [] else '.' :: rest.map digitToChar) ++
            renderExpPart (decExp q), ?_, digitToChar_ne_dash d0⟩
        rw [hcons]
        show (digitToChar d0 ::
          (if rest = [] then [] else '.' :: rest.map digitToChar)) ++
          renderExpPart (decExp q) = _
        rw [List.cons_append]
    · rw [if_neg hbr]
      push_neg at hbr
      obtain ⟨hbr1, hbr2⟩ := hbr
      unfold renderFixed
      by_cases hpos : (0 : ℤ) ≤ decExp q
      · rw [if_pos hpos]
        have htoNat : ((decExp q).toNat : ℤ) = decExp q := Int.toNat_of_nonneg hpos
        by_cases hfit : (sigDigitsOf X.natAbs).length ≤ (decExp q).toNat + 1
        · rw [if_pos hfit]
          have hpadmem : ∀ d ∈ sigDigitsOf X.natAbs ++
              List.replicate ((decExp q).toNat + 1 - (sigDigitsOf X.natAbs).length) 0,
              d < 10 := by
            intro d hd
            rcases List.mem_append.mp hd with h1 | h2
            · exact hdsmem d h1
            · rw [List.eq_of_mem_replicate h2]
              norm_num
          have hne2 : sigDigitsOf X.natAbs ++
              List.replicate ((decExp q).toNat + 1 - (sigDigitsOf X.natAbs).length) 0 ≠ [] := by
            simp [hdsne]
          constructor
          · rw [parseFloatPos_digits hne2 hpadmem]
            congr 1
            rw [digitsVal_append, digitsVal_replicate_zero, List.length_replicate]
            show (mkRat ((digitsVal (sigDigitsOf X.natAbs) *
              10 ^ ((decExp q).toNat + 1 - (sigDigitsOf X.natAbs).length) + 0 : ℕ))
              (10 ^ 0) : ℚ) = |q|
            rw [mkRat_eq_val, hvq]
            push_cast
            simp only [add_zero, neg_zero, zpow_zero, mul_one]
            rw [← zpow_natCast (10 : ℚ)
              ((decExp q).toNat + 1 - (sigDigitsOf X.natAbs).length)]
            congr 2
            omega
          · refine ⟨digitToChar d0,
              (rest ++ List.replicate ((decExp q).toNat + 1 -
                (sigDigitsOf X.natAbs).length) 0).map digitToChar,
              ?_, digitToChar_ne_dash d0⟩
            rw [hcons, List.cons_append, List.map_cons]
        · rw [if_neg hfit]
          have htake : (sigDigitsOf X.natAbs).take ((decExp q).toNat + 1) =
              d0 :: rest.take (decExp q).toNat := by
            rw [hcons, List.take_succ_cons]
          have hFlen : ((sigDigitsOf X.natAbs).drop ((decExp q).toNat + 1)).length =
              (sigDigitsOf X.natAbs).length - ((decExp q).toNat + 1) :=
            List.length_drop _ _
          constructor
          · rw [parseFloatPos_int_frac (by rw [htake]; simp)
              (fun d hd => hdsmem d (List.take_subset _ _ hd))
              (fun d hd => hdsmem d (List.drop_subset _ _ hd))]
            congr 1
            have hdv : digitsVal ((sigDigitsOf X.natAbs).take ((decExp q).toNat + 1)) *
                10 ^ ((sigDigitsOf X.natAbs).drop ((decExp q).toNat + 1)).length +
                digitsVal ((sigDigitsOf X.natAbs).drop ((decExp q).toNat + 1)) =
                digitsVal (sigDigitsOf X.natAbs) := by
              rw [← digitsVal_append, List.take_append_drop]
            rw [hdv, mkRat_eq_val, hvq]
            push_cast
            congr 2
            omega
          · refine ⟨digitToChar d0,
              (rest.take (decExp q).toNat).map digitToChar ++
                '.' :: ((sigDigitsOf X.natAbs).drop ((decExp q).toNat + 1)).map digitToChar,
              ?_, digitToChar_ne_dash d0⟩
            rw [htake, List.map_cons, List.cons_append]
      · rw [if_neg hpos]
        have hzz : ((-(decExp q + 1)).toNat : ℤ) = -(decExp q + 1) := by omega
        constructor
        · rw [parseFloatPos_zero_frac (by
              intro d hd
              rcases List.mem_append.mp hd with h1 | h2
              · rw [List.eq_of_mem_replicate h1]
                norm_num
              · exact hdsmem d h2)]
          congr 1
          have hnum : digitsVal [0] * 10 ^ (List.replicate (-(decExp q + 1)).toNat 0 ++
              sigDigitsOf X.natAbs).length +
              digitsVal (List.replicate (-(decExp q + 1)).toNat 0 ++
                sigDigitsOf X.natAbs) = digitsVal (sigDigitsOf X.natAbs) := by
            rw [digitsVal_singleton, digitsVal_append, digitsVal_replicate_zero]
            simp
          rw [hnum]
          have hlenF : (List.replicate (-(decExp q + 1)).toNat 0 ++
              sigDigitsOf X.natAbs).length =
              (-(decExp q + 1)).toNat + (sigDigitsOf X.natAbs).length := by
            rw [List.length_append, List.length_replicate]
          rw [hlenF, mkRat_eq_val, hvq]
          push_cast
          congr 2
          omega
        · exact ⟨'0', _, rfl, by decide⟩
  obtain ⟨hparse, c, tail, hct, hcne⟩ := hbody
  unfold fmtG
  rw [if_neg hq]
  dsimp only
  rw [hsig]
  dsimp only
  by_cases hneg : q < 0
  · rw [if_pos hneg, ← apply_ite (fun l => (['-'] : List Char) ++ l),
      List.singleton_append, parseFloatStr_dash, hparse]
    show some (-|q|) = some q
    rw [abs_of_neg hneg, neg_neg]
  · rw [if_neg hneg, ← apply_ite (fun l => (([] : List Char)) ++ l),
      List.nil_append, hct, parseFloatStr_cons_ne_dash hcne, ← hct, hparse]
    congr 1
    exact abs_of_pos (lt_of_le_of_ne (le_of_not_lt hneg) (Ne.symm hq))

/-! ### Column-level round-trip lemmas -/

theorem digitToChar_charToDigit {c : Char} {d : ℕ} (h : charToDigit c = some d) :
    digitToChar d = c ∧ d < 10 := by
  unfold charToDigit at h
  split at h <;>
    first
      | (rw [Option.some.injEq] at h; subst h; exact ⟨rfl, by norm_num⟩)
      | exact absurd h (by simp)

theorem mapM_charToDigit_inv : ∀ {cs : List Char} {ds : List ℕ},
    cs.mapM charToDigit = some ds → cs = ds.map digitToChar ∧ ∀ d ∈ ds, d < 10 := by
  intro cs
  induction cs with
  | nil =>
    intro ds h
    simp only [List.mapM_nil, Option.pure_def, Option.some.injEq] at h
    subst h
    exact ⟨rfl, by simp⟩
  | cons c tail ih =>
    intro ds h
    rw [List.mapM_cons] at h
    cases hc : charToDigit c with
    | none => rw [hc] at h; exact absurd h (by simp)
    | some d =>
      rw [hc] at h
      cases ht : tail.mapM charToDigit with
      | none => rw [ht] at h; exact absurd h (by simp)
      | some ds' =>
        rw [ht] at h
        simp only [Option.bind_eq_bind, Option.some_bind, Option.pure_def,
          Option.some.injEq] at h
        subst h
        obtain ⟨hd, hlt⟩ := digitToChar_charToDigit hc
        obtain ⟨hteq, htlt⟩ := ih ht
        refine ⟨?_, ?_⟩
        · rw [List.map_cons, hd, ← hteq]
        · intro x hx
          rcases List.mem_cons.mp hx with rfl | hx
          · exact hlt
          · exact htlt x hx

theorem parseNat_inv {cs : List Char} {n : ℕ} (h : parseNat cs = some n) :
    ∃ ds : List ℕ, cs = ds.map digitToChar ∧ ds ≠ [] ∧ (∀ d ∈ ds, d < 10) ∧
      digitsVal ds = n := by
  cases cs with
  | nil => exact absurd h (by simp [parseNat])
  | cons c tail =>
    have h' : (((c :: tail).mapM charToDigit).map
        (fun ds => ds.foldl (fun acc d => 10 * acc + d) 0)) = some n := h
    cases hm : (c :: tail).mapM charToDigit with
    | none => rw [hm] at h'; exact absurd h' (by simp)
    | some ds =>
      rw [hm] at h'
      obtain ⟨hcs, hlt⟩ := mapM_charToDigit_inv hm
      refine ⟨ds, hcs, ?_, hlt, ?_⟩
      · intro hnil
        subst hnil
        exact absurd hcs (by simp)
      · rw [Option.map_some', Option.some.injEq] at h'
        exact h'

theorem mkRat_den_one (a : ℕ) : mkRat (a : ℤ) 1 = ((a : ℤ) : ℚ) := by
  rw [Rat.mkRat_one]

theorem parseFloatStr_of_parseIntStr {cs : List Char} {n : ℤ}
    (h : parseIntStr cs = some n) : parseFloatStr cs = some ((n : ℤ) : ℚ) := by
  cases cs with
  | nil =>
    have h0 : parseIntStr ([] : List Char) = none := rfl
    rw [h0] at h
    exact absurd h (by simp)
  | cons c tail =>
    by_cases hc : c = '-'
    · subst hc
      have h' : (parseNat tail).map (fun m => -(m : ℤ)) = some n := h
      cases hp : parseNat tail with
      | none => rw [hp] at h'; exact absurd h' (by simp)
      | some a =>
        rw [hp] at h'
        simp only [Option.bind_eq_bind, Option.some_bind, Option.pure_def,
          Option.map_some', Option.some.injEq] at h'
        obtain ⟨ds, hcs, hne, hlt, hval⟩ := parseNat_inv hp
        subst h'
        rw [parseFloatStr_dash, hcs, parseFloatPos_digits hne hlt, hval, Option.map_some']
        rw [mkRat_den_one, Option.some.injEq]
        push_cast
        ring
    · rw [parseIntStr_cons_ne_dash hc] at h
      cases hp : parseNat (c :: tail) with
      | none => rw [hp] at h; exact absurd h (by simp)
      | some a =>
        rw [hp] at h
        simp only [Option.bind_eq_bind, Option.some_bind, Option.pure_def,
          Option.map_some', Option.some.injEq] at h
        obtain ⟨ds, hcs, hne, hlt, hval⟩ := parseNat_inv hp
        subst h
        rw [parseFloatStr_cons_ne_dash hc, hcs, parseFloatPos_digits hne hlt, hval]
        rw [mkRat_den_one]

theorem parseFloatStr_renderInt (n : ℤ) :
    parseFloatStr (renderInt n) = some ((n : ℤ) : ℚ) :=
  parseFloatStr_of_parseIntStr (parseIntStr_renderInt n)

theorem parseFloatStr_fmtG12 {q : ℚ}
    (h : ∃ m t : ℤ, q = (m : ℚ) * (10 : ℚ) ^ t ∧ m.natAbs < 10 ^ 12) :
    parseFloatStr (fmtG 12 q) = some q := by
  obtain ⟨m, t, hqm, hm⟩ := h
  by_cases hq : q = 0
  · subst hq
    decide
  · exact parseFloatStr_fmtG hq hqm hm

theorem parseIntStr_fmtG_nonintegral {q : ℚ}
    (h : ∃ m t : ℤ, q = (m : ℚ) * (10 : ℚ) ^ t ∧ m.natAbs < 10 ^ 12)
    (hden : q.den ≠ 1) : parseIntStr (fmtG 12 q) = none := by
  cases hp : parseIntStr (fmtG 12 q) with
  | none => rfl
  | some n =>
    have hfs := parseFloatStr_of_parseIntStr hp
    rw [parseFloatStr_fmtG12 h, Option.some.injEq] at hfs
    have : q.den = 1 := by rw [hfs]; exact Rat.den_intCast n
    exact absurd this hden

theorem renderNat_ne_nil (m : ℕ) : renderNat m ≠ [] := by
  unfold renderNat
  split_ifs with h
  · simp
  · rw [ne_eq, List.map_eq_nil_iff]
    exact natDigitsMSB_ne_nil h

theorem renderInt_ne_nil (n : ℤ) : renderInt n ≠ [] := by
  unfold renderInt
  split_ifs
  · simp
  · exact renderNat_ne_nil _

theorem renderSci_ne_nil (ds : List ℕ) (e : ℤ) : renderSci ds e ≠ [] := by
  unfold renderSci
  match ds with
  | [] => simp
  | d :: rest => simp

theorem renderFixed_ne_nil (ds : List ℕ) (e : ℤ) : renderFixed ds e ≠ [] := by
  unfold renderFixed
  split_ifs with h1 h2
  · intro hcon
    rw [List.map_eq_nil_iff, List.append_eq_nil] at hcon
    obtain ⟨hds, hrep⟩ := hcon
    rw [List.replicate_eq_nil_iff] at hrep
    subst hds
    simp at hrep
  · simp
  · simp

theorem sign_append_ne_nil {s l : List Char} (hl : l ≠ []) : s ++ l ≠ [] := by
  intro hcon
  exact hl (List.append_eq_nil.mp hcon).2

theorem fmtG_ne_nil (P : ℕ) (q : ℚ) : fmtG P q ≠ [] := by
  unfold fmtG
  dsimp only
  split_ifs
  all_goals
    first
      | exact sign_append_ne_nil (renderSci_ne_nil _ _)
      | exact sign_append_ne_nil (renderFixed_ne_nil _ _)
      | simp

theorem String_data_ne_nil {s : String} (h : s ≠ "") : s.data ≠ [] := by
  intro hcon
  apply h
  have hs : s = String.mk s.data := rfl
  rw [hs, hcon]

theorem data_map_mk (ls : List (List Char)) :
    (ls.map String.mk).map String.data = ls := by
  rw [List.map_map]
  have h : String.data ∘ String.mk = id := rfl
  rw [h, List.map_id]

/-! ### NA literals, boolean and infinity literals versus the writer's output -/

theorem mem_of_contains {l : List String} {s : String} (h : l.contains s = true) : s ∈ l := by
  rw [List.contains_iff_exists_mem_beq] at h
  obtain ⟨a, ha, hbeq⟩ := h
  rw [beq_iff_eq] at hbeq
  exact hbeq ▸ ha

theorem contains_eq_false {l : List String} {s : String} (h : s ∉ l) : l.contains s = false := by
  cases hc : l.contains s with
  | false => rfl
  | true => exact absurd (mem_of_contains hc) h

theorem na_contains_empty : DEFAULT_NA_VALUES.contains (String.mk []) = true := by decide

theorem na_values_not_numLike :
    DEFAULT_NA_VALUES.all (fun s => s == "" || s.data.any (fun c => !(numLikeChar c))) = true := by
  decide

theorem not_na_of_numLike {cs : List Char} (hne : cs ≠ [])
    (h : ∀ c ∈ cs, numLikeChar c = true) :
    DEFAULT_NA_VALUES.contains (String.mk cs) = false := by
  apply contains_eq_false
  intro hmem
  have hall := List.all_eq_true.mp na_values_not_numLike _ hmem
  rw [Bool.or_eq_true] at hall
  rcases hall with hemp | hany
  · exact hne (congrArg String.data (eq_of_beq hemp))
  · rw [List.any_eq_true] at hany
    obtain ⟨c, hc, hnl⟩ := hany
    rw [h c hc] at hnl
    exact absurd hnl (by decide)

theorem numLikeChar_digitToChar (d : ℕ) : numLikeChar (digitToChar d) = true := by
  unfold digitToChar
  split <;> decide

theorem nonNumericChar_digitToChar (d : ℕ) : nonNumericChar (digitToChar d) = false := by
  unfold digitToChar
  split <;> decide

theorem toLower_digitToChar (d : ℕ) : (digitToChar d).toLower = digitToChar d := by
  unfold digitToChar
  split <;> decide

theorem digitToChar_beq_i (d : ℕ) : (digitToChar d == 'i') = false := by
  unfold digitToChar
  split <;> decide

theorem digitToChar_ne_plus (d : ℕ) : digitToChar d ≠ '+' := by
  unfold digitToChar
  split <;> decide

theorem nonNumericChar_charToDigit {c : Char} {d : ℕ} (h : charToDigit c = some d) :
    nonNumericChar c = false := by
  obtain ⟨hd, -⟩ := digitToChar_charToDigit h
  rw [← hd]
  exact nonNumericChar_digitToChar d

/-! ### Renders consist of numeric-literal characters only -/

theorem renderNat_numLike (m : ℕ) : ∀ c ∈ renderNat m, numLikeChar c = true := by
  unfold renderNat
  split_ifs with h
  · intro c hc
    rw [List.mem_singleton.mp hc]
    decide
  · intro c hc
    obtain ⟨d, hd, rfl⟩ := List.mem_map.mp hc
    exact numLikeChar_digitToChar d

theorem renderInt_numLike (n : ℤ) : ∀ c ∈ renderInt n, numLikeChar c = true := by
  unfold renderInt
  split_ifs with h
  · intro c hc
    rcases List.mem_cons.mp hc with rfl | hmem
    · decide
    · exact renderNat_numLike _ c hmem
  · exact renderNat_numLike _

theorem renderFixed_numLike (ds : List ℕ) (e : ℤ) :
    ∀ c ∈ renderFixed ds e, numLikeChar c = true := by
  unfold renderFixed
  split_ifs with h1 h2
  · intro c hc
    obtain ⟨d, hd, rfl⟩ := List.mem_map.mp hc
    exact numLikeChar_digitToChar d
  · intro c hc
    rcases List.mem_append.mp hc with hm | hm
    · obtain ⟨d, hd, rfl⟩ := List.mem_map.mp hm
      exact numLikeChar_digitToChar d
    · rcases List.mem_cons.mp hm with rfl | hm'
      · decide
      · obtain ⟨d, hd, rfl⟩ := List.mem_map.mp hm'
        exact numLikeChar_digitToChar d
  · intro c hc
    rcases List.mem_cons.mp hc with rfl | hm
    · decide
    · rcases List.mem_cons.mp hm with rfl | hm'
      · decide
      · obtain ⟨d, hd, rfl⟩ := List.mem_map.mp hm'
        exact numLikeChar_digitToChar d

theorem renderExpPart_numLike (e : ℤ) : ∀ c ∈ renderExpPart e, numLikeChar c = true := by
  unfold renderExpPart
  dsimp only
  intro c hc
  rcases List.mem_cons.mp hc with rfl | hm
  · decide
  · rcases List.mem_cons.mp hm with rfl | hm'
    · split_ifs <;> decide
    · obtain ⟨d, hd, rfl⟩ := List.mem_map.mp hm'
      exact numLikeChar_digitToChar d

theorem renderSci_numLike (ds : List ℕ) (e : ℤ) :
    ∀ c ∈ renderSci ds e, numLikeChar c = true := by
  unfold renderSci
  cases ds with
  | nil =>
    intro c hc
    rw [List.mem_singleton.mp hc]
    decide
  | cons d rest =>
    intro c hc
    have hc' : c ∈ (digitToChar d ::
        (if rest = [] then [] else '.' :: rest.map digitToChar)) ++ renderExpPart e := hc
    rcases List.mem_append.mp hc' with hm | hm
    · rcases List.mem_cons.mp hm with rfl | hm'
      · exact numLikeChar_digitToChar d
      · split_ifs at hm' with hr
        · cases hm'
        · rcases List.mem_cons.mp hm' with rfl | hm2
          · decide
          · obtain ⟨d2, hd2, rfl⟩ := List.mem_map.mp hm2
            exact numLikeChar_digitToChar d2
    · exact renderExpPart_numLike e c hm

theorem fmtG_numLike (P : ℕ) (q : ℚ) : ∀ c ∈ fmtG P q, numLikeChar c = true := by
  unfold fmtG
  dsimp only
  split_ifs with h1 h2 h3
  · intro c hc
    rw [List.mem_singleton.mp hc]
    decide
  · intro c hc
    rcases List.mem_append.mp hc with hm | hm
    · rw [List.mem_singleton.mp hm]
      decide
    · exact renderSci_numLike _ _ c hm
  · intro c hc
    rcases List.mem_append.mp hc with hm | hm
    · cases hm
    · exact renderSci_numLike _ _ c hm
  · intro c hc
    rcases List.mem_append.mp hc with hm | hm
    · rw [List.mem_singleton.mp hm]
      decide
    · exact renderFixed_numLike _ _ c hm
  · intro c hc
    rcases List.mem_append.mp hc with hm | hm
    · cases hm
    · exact renderFixed_numLike _ _ c hm

theorem renderDate_numLike (y mo d : ℕ) : ∀ c ∈ renderDate y mo d, numLikeChar c = true := by
  intro c hc
  have hc' : c ∈ [digitToChar (y / 1000 % 10), digitToChar (y / 100 % 10),
      digitToChar (y / 10 % 10), digitToChar (y % 10), '-', digitToChar (mo / 10 % 10),
      digitToChar (mo % 10), '-', digitToChar (d / 10 % 10), digitToChar (d % 10)] := hc
  fin_cases hc' <;> first | exact numLikeChar_digitToChar _ | decide

theorem renderDate_ne_nil (y mo d : ℕ) : renderDate y mo d ≠ [] := fun h =>
  List.cons_ne_nil _ _ h

/-! ### No render is an infinity literal -/

theorem parseInfCore_digit (d : ℕ) (rest : List Char) :
    parseInfCore (digitToChar d :: rest) = false := by
  unfold parseInfCore
  rw [List.map_cons, toLower_digitToChar]
  have h1 : (digitToChar d :: rest.map Char.toLower == "inf".data) = false := by
    show (digitToChar d == 'i' && (rest.map Char.toLower == ['n', 'f'])) = false
    rw [digitToChar_beq_i, Bool.false_and]
  have h2 : (digitToChar d :: rest.map Char.toLower == "infinity".data) = false := by
    show (digitToChar d == 'i' &&
      (rest.map Char.toLower == ['n', 'f', 'i', 'n', 'i', 't', 'y'])) = false
    rw [digitToChar_beq_i, Bool.false_and]
  rw [h1, h2]
  rfl

theorem parseInfStr_headDigit {cs : List Char}
    (h : (∃ d rest, cs = digitToChar d :: rest) ∨
      (∃ d rest, cs = '-' :: digitToChar d :: rest)) : parseInfStr cs = none := by
  unfold parseInfStr
  rcases h with ⟨d, rest, rfl⟩ | ⟨d, rest, rfl⟩
  · rw [if_neg, if_neg, if_neg]
    · rw [parseInfCore_digit]
      exact Bool.false_ne_true
    · rw [List.head?_cons, Option.some.injEq]
      exact digitToChar_ne_plus d
    · rw [List.head?_cons, Option.some.injEq]
      exact digitToChar_ne_dash d
  · have hcond : ('-' :: digitToChar d :: rest).head? = some '-' := rfl
    have hcore : parseInfCore (('-' :: digitToChar d :: rest).tail) = false :=
      parseInfCore_digit d rest
    rw [if_pos hcond, hcore, if_neg Bool.false_ne_true]

theorem renderNat_head_digit (m : ℕ) : ∃ d rest, renderNat m = digitToChar d :: rest := by
  unfold renderNat
  split_ifs with h
  · exact ⟨0, [], rfl⟩
  · obtain ⟨d, tail, htail⟩ := List.exists_cons_of_ne_nil (natDigitsMSB_ne_nil h)
    exact ⟨d, tail.map digitToChar, by rw [htail]; rfl⟩

theorem renderFixed_head_digit (ds : List ℕ) (e : ℤ) :
    ∃ d rest, renderFixed ds e = digitToChar d :: rest := by
  unfold renderFixed
  split_ifs with h1 h2
  · have hne : ds ++ List.replicate (e.toNat + 1 - ds.length) 0 ≠ [] := by
      intro hcon
      rw [List.append_eq_nil] at hcon
      obtain ⟨hds, hrep⟩ := hcon
      rw [List.replicate_eq_nil_iff] at hrep
      subst hds
      simp at hrep
    obtain ⟨d, tail, htail⟩ := List.exists_cons_of_ne_nil hne
    exact ⟨d, tail.map digitToChar, by rw [htail]; rfl⟩
  · have hne : ds.take (e.toNat + 1) ≠ [] := by
      have hlen : (ds.take (e.toNat + 1)).length = e.toNat + 1 := by
        rw [List.length_take]
        omega
      intro hcon
      rw [hcon] at hlen
      simp at hlen
    obtain ⟨d, tail, htail⟩ := List.exists_cons_of_ne_nil hne
    refine ⟨d, tail.map digitToChar ++ '.' :: (ds.drop (e.toNat + 1)).map digitToChar, ?_⟩
    rw [htail]
    rfl
  · refine ⟨0, '.' :: (List.replicate (-(e + 1)).toNat 0 ++ ds).map digitToChar, ?_⟩
    rw [show digitToChar 0 = '0' from rfl]

theorem renderSci_head_digit (ds : List ℕ) (e : ℤ) :
    ∃ d rest, renderSci ds e = digitToChar d :: rest := by
  unfold renderSci
  cases ds with
  | nil => exact ⟨0, [], rfl⟩
  | cons d rest =>
    exact ⟨d, (if rest = [] then [] else '.' :: rest.map digitToChar) ++ renderExpPart e, rfl⟩

theorem fmtG_head_shape (P : ℕ) (q : ℚ) :
    (∃ d rest, fmtG P q = digitToChar d :: rest) ∨
      (∃ d rest, fmtG P q = '-' :: digitToChar d :: rest) := by
  unfold fmtG
  dsimp only
  split_ifs with h1 h2 h3
  · exact Or.inl ⟨0, [], rfl⟩
  · obtain ⟨d, rest, hr⟩ := renderSci_head_digit _ _
    exact Or.inr ⟨d, rest, by rw [hr, List.singleton_append]⟩
  · obtain ⟨d, rest, hr⟩ := renderSci_head_digit _ _
    exact Or.inl ⟨d, rest, by rw [hr, List.nil_append]⟩
  · obtain ⟨d, rest, hr⟩ := renderFixed_head_digit _ _
    exact Or.inr ⟨d, rest, by rw [hr, List.singleton_append]⟩
  · obtain ⟨d, rest, hr⟩ := renderFixed_head_digit _ _
    exact Or.inl ⟨d, rest, by rw [hr, List.nil_append]⟩

theorem parseInfStr_renderInt (n : ℤ) : parseInfStr (renderInt n) = none := by
  apply parseInfStr_headDigit
  unfold renderInt
  split_ifs with h
  · obtain ⟨d, rest, hr⟩ := renderNat_head_digit n.natAbs
    exact Or.inr ⟨d, rest, by rw [hr]⟩
  · exact Or.inl (renderNat_head_digit n.natAbs)

theorem parseInfStr_fmtG (P : ℕ) (q : ℚ) : parseInfStr (fmtG P q) = none :=
  parseInfStr_headDigit (fmtG_head_shape P q)

theorem parseFloatCell_eq_float {cs : List Char} (hinf : parseInfStr cs = none) :
    parseFloatCell cs = (parseFloatStr cs).map Value.rat := by
  unfold parseFloatCell
  rw [hinf]

/-! ### A successfully parsed cell holds no non-numeric character -/

theorem parseNat_chars {cs : List Char} {n : ℕ} (h : parseNat cs = some n) :
    ∀ x ∈ cs, nonNumericChar x = false := by
  obtain ⟨ds, rfl, -, hlt, -⟩ := parseNat_inv h
  intro x hx
  obtain ⟨d, hd, rfl⟩ := List.mem_map.mp hx
  exact nonNumericChar_digitToChar d

theorem spanDigits_mem {cs : List Char} {x : Char} (hx : x ∈ cs) :
    (∃ d, charToDigit x = some d) ∨ x ∈ (spanDigits cs).2 := by
  induction cs with
  | nil => cases hx
  | cons c0 rest ih =>
    unfold spanDigits
    cases hd : charToDigit c0 with
    | some d =>
      rcases List.mem_cons.mp hx with rfl | hmem
      · exact Or.inl ⟨d, hd⟩
      · rcases ih hmem with h | h
        · exact Or.inl h
        · exact Or.inr h
    | none => exact Or.inr hx

theorem splitMantissa_mem {cs : List Char} {x : Char} (hx : x ∈ cs) :
    (∃ d, charToDigit x = some d) ∨ x = '.' ∨ x ∈ (splitMantissa cs).2.2 := by
  rcases spanDigits_mem hx with hd | hmem
  · exact Or.inl hd
  · unfold splitMantissa
    dsimp only
    split
    · rename_i rest heq
      rw [heq] at hmem
      rcases List.mem_cons.mp hmem with rfl | hmem'
      · exact Or.inr (Or.inl rfl)
      · rcases spanDigits_mem hmem' with hd | h2
        · exact Or.inl hd
        · exact Or.inr (Or.inr h2)
    · exact Or.inr (Or.inr hmem)

theorem parseExp_cons_ne_sign {c : Char} {cs : List Char} (h1 : c ≠ '+') (h2 : c ≠ '-') :
    parseExp (c :: cs) = (parseNat (c :: cs)).map (fun n => (n : ℤ)) := by
  unfold parseExp
  split
  · rename_i heq
    rw [List.cons.injEq] at heq
    exact absurd heq.1 h1
  · rename_i heq
    rw [List.cons.injEq] at heq
    exact absurd heq.1 h2
  · rfl

theorem parseExp_chars {cs : List Char} {e : ℤ} (h : parseExp cs = some e) :
    ∀ x ∈ cs, nonNumericChar x = false := by
  cases cs with
  | nil =>
    intro x hx
    cases hx
  | cons c tail =>
    by_cases hc1 : c = '+'
    · subst hc1
      have h' : (parseNat tail).map (fun n => (n : ℤ)) = some e := h
      cases hp : parseNat tail with
      | none => rw [hp] at h'; exact absurd h' (by simp)
      | some a =>
        intro x hx
        rcases List.mem_cons.mp hx with rfl | hmem
        · decide
        · exact parseNat_chars hp x hmem
    · by_cases hc2 : c = '-'
      · subst hc2
        have h' : (parseNat tail).map (fun n => -(n : ℤ)) = some e := h
        cases hp : parseNat tail with
        | none => rw [hp] at h'; exact absurd h' (by simp)
        | some a =>
          intro x hx
          rcases List.mem_cons.mp hx with rfl | hmem
          · decide
          · exact parseNat_chars hp x hmem
      · rw [parseExp_cons_ne_sign hc1 hc2] at h
        cases hp : parseNat (c :: tail) with
        | none => rw [hp] at h; exact absurd h (by simp)
        | some a =>
          intro x hx
          exact parseNat_chars hp x hx

theorem parseFloatPos_tail {cs : List Char} {q : ℚ} (h : parseFloatPos cs = some q) :
    (splitMantissa cs).2.2 = [] ∨
      ∃ rest ex, (splitMantissa cs).2.2 = 'e' :: rest ∧ parseExp rest = some ex := by
  unfold parseFloatPos at h
  dsimp only at h
  split_ifs at h
  split at h
  · rename_i heq
    exact Or.inl heq
  · rename_i rest heq
    cases hp : parseExp rest with
    | none => rw [hp] at h; exact absurd h (by simp)
    | some ex => exact Or.inr ⟨rest, ex, heq, hp⟩
  · exact absurd h (by simp)

theorem parseFloatPos_chars {cs : List Char} {q : ℚ} (h : parseFloatPos cs = some q) :
    ∀ x ∈ cs, nonNumericChar x = false := by
  intro x hx
  rcases splitMantissa_mem hx with ⟨d, hd⟩ | hdot | hmem
  · exact nonNumericChar_charToDigit hd
  · rw [hdot]
    decide
  · rcases parseFloatPos_tail h with hnil | ⟨rest, ex, heq, hp⟩
    · rw [hnil] at hmem
      cases hmem
    · rw [heq] at hmem
      rcases List.mem_cons.mp hmem with rfl | hmem'
      · decide
      · exact parseExp_chars hp x hmem'

theorem parseFloatStr_chars {cs : List Char} {q : ℚ} (h : parseFloatStr cs = some q) :
    ∀ x ∈ cs, nonNumericChar x = false := by
  cases cs with
  | nil =>
    intro x hx
    cases hx
  | cons c tail =>
    by_cases hc : c = '-'
    · subst hc
      have h' : (parseFloatPos tail).map (fun r => -r) = some q := h
      cases hp : parseFloatPos tail with
      | none => rw [hp] at h'; exact absurd h' (by simp)
      | some r =>
        intro x hx
        rcases List.mem_cons.mp hx with rfl | hmem
        · decide
        · exact parseFloatPos_chars hp x hmem
    · rw [parseFloatStr_cons_ne_dash hc] at h
      exact parseFloatPos_chars h

theorem parseIntStr_chars {cs : List Char} {n : ℤ} (h : parseIntStr cs = some n) :
    ∀ x ∈ cs, nonNumericChar x = false :=
  parseFloatStr_chars (parseFloatStr_of_parseIntStr h)

theorem bool_literal_chars : ∀ s ∈ TRUE_VALUES ++ FALSE_VALUES, ∀ x ∈ s.data,
    nonNumericChar x = false := by decide

theorem parseBoolStr_chars {cs : List Char} {b : Bool} (h : parseBoolStr cs = some b) :
    ∀ x ∈ cs, nonNumericChar x = false := by
  unfold parseBoolStr at h
  split_ifs at h with h1 h2
  · intro x hx
    exact bool_literal_chars _ (List.mem_append_left _ (mem_of_contains h1)) x hx
  · intro x hx
    exact bool_literal_chars _ (List.mem_append_right _ (mem_of_contains h2)) x hx

theorem nonNumericChar_of_toLower_mem {x : Char}
    (h : ("infinitytruefalse".data).contains x.toLower = true) :
    nonNumericChar x = false := by
  unfold nonNumericChar
  rw [h]
  simp

theorem inf_chars_subset : ∀ x ∈ ("inf".data),
    ("infinitytruefalse".data).contains x = true := by decide

theorem infinity_chars_subset : ∀ x ∈ ("infinity".data),
    ("infinitytruefalse".data).contains x = true := by decide

theorem parseInfCore_chars {l : List Char} (h : parseInfCore l = true) :
    ∀ x ∈ l, nonNumericChar x = false := by
  intro x hx
  apply nonNumericChar_of_toLower_mem
  unfold parseInfCore at h
  rw [Bool.or_eq_true] at h
  have hmem : x.toLower ∈ l.map Char.toLower := List.mem_map_of_mem _ hx
  rcases h with h | h
  · rw [eq_of_beq h] at hmem
    exact inf_chars_subset _ hmem
  · rw [eq_of_beq h] at hmem
    exact infinity_chars_subset _ hmem

theorem parseInfStr_chars {cs : List Char} {b : Bool} (h : parseInfStr cs = some b) :
    ∀ x ∈ cs, nonNumericChar x = false := by
  unfold parseInfStr at h
  split_ifs at h with h1 h2 h3 h4 h5
  · cases cs with
    | nil => exact absurd h1 (by simp)
    | cons c tail =>
      rw [List.head?_cons, Option.some.injEq] at h1
      subst h1
      intro x hx
      rcases List.mem_cons.mp hx with rfl | hmem
      · decide
      · exact parseInfCore_chars h2 x hmem
  · cases cs with
    | nil => exact absurd h3 (by simp)
    | cons c tail =>
      rw [List.head?_cons, Option.some.injEq] at h3
      subst h3
      intro x hx
      rcases List.mem_cons.mp hx with rfl | hmem
      · decide
      · exact parseInfCore_chars h4 x hmem
  · exact parseInfCore_chars h5

theorem parseFloatCell_chars {cs : List Char} {v : Value} (h : parseFloatCell cs = some v) :
    ∀ x ∈ cs, nonNumericChar x = false := by
  unfold parseFloatCell at h
  cases hi : parseInfStr cs with
  | some neg => exact parseInfStr_chars hi
  | none =>
    rw [hi] at h
    have h' : (parseFloatStr cs).map Value.rat = some v := h
    cases hp : parseFloatStr cs with
    | none => rw [hp] at h'; exact absurd h' (by simp)
    | some r => exact parseFloatStr_chars hp

theorem parseDataColumn_mk (ls : List (List Char)) :
    parseDataColumn (ls.map String.mk) =
      (if ls.all (fun c => !(DEFAULT_NA_VALUES.contains (String.mk c)) &&
          (parseIntStr c).isSome) then
        ls.map (fun c => match parseIntStr c with | some n => Value.int n | none => Value.na)
      else if ls.all (fun c => DEFAULT_NA_VALUES.contains (String.mk c) ||
          (parseFloatCell c).isSome) then
        ls.map (fun c => if DEFAULT_NA_VALUES.contains (String.mk c) then Value.na
          else match parseFloatCell c with | some v => v | none => Value.na)
      else if ls.all (fun c => DEFAULT_NA_VALUES.contains (String.mk c) ||
          (parseBoolStr c).isSome) then
        ls.map (fun c => if DEFAULT_NA_VALUES.contains (String.mk c) then Value.na
          else match parseBoolStr c with | some b => Value.bool b | none => Value.na)
      else ls.map (fun c => if DEFAULT_NA_VALUES.contains (String.mk c) then Value.na
        else Value.str (String.mk c))) := by
  unfold parseDataColumn
  dsimp only
  rw [data_map_mk]

theorem convertCol_int_id {cells : List Value}
    (hall : ∀ v ∈ cells, ∃ n : ℤ, v = Value.int n) : convertCol cells = cells := by
  unfold convertCol
  split_ifs with h
  · conv_rhs => rw [← List.map_id cells]
    apply List.map_congr_left
    intro v hv
    obtain ⟨n, rfl⟩ := hall v hv
    rfl
  · rfl

theorem convertCol_not_num {cells : List Value} {v : Value} (hv : v ∈ cells)
    (hnn : v.isNumOrNa = false) : convertCol cells = cells := by
  have h1 : cells.all Value.isNumOrNa = false :=
    List.all_eq_false.mpr ⟨v, hv, by simp [hnn]⟩
  unfold convertCol
  rw [h1]
  rfl

theorem renderColumn_obj {cells : List Value} {v : Value} (hv : v ∈ cells)
    (hnd : v.isDateOrNa = false) (hnn : v.isNumOrNa = false) :
    renderColumn cells = cells.map renderObjCell := by
  have h1 : cells.all Value.isDateOrNa = false :=
    List.all_eq_false.mpr ⟨v, hv, by simp [hnd]⟩
  have h2 : cells.all Value.isNumOrNa = false :=
    List.all_eq_false.mpr ⟨v, hv, by simp [hnn]⟩
  unfold renderColumn
  rw [h1, h2]
  simp

theorem renderColumn_int {cells : List Value} {v : Value} (hv : v ∈ cells)
    (hnd : v.isDateOrNa = false) (hnum : cells.all Value.isNumOrNa = true)
    (hint : cells.all Value.isIntOrNa = true) :
    renderColumn cells = cells.map renderIntCell := by
  have h1 : cells.all Value.isDateOrNa = false :=
    List.all_eq_false.mpr ⟨v, hv, by simp [hnd]⟩
  unfold renderColumn
  rw [h1, hnum, hint]
  simp

theorem renderColumn_float {cells : List Value} {v : Value} (hv : v ∈ cells)
    (hnd : v.isDateOrNa = false) (hnum : cells.all Value.isNumOrNa = true)
    (hnotint : cells.all Value.isIntOrNa = false) :
    renderColumn cells = cells.map renderFloatCell := by
  have h1 : cells.all Value.isDateOrNa = false :=
    List.all_eq_false.mpr ⟨v, hv, by simp [hnd]⟩
  unfold renderColumn
  rw [h1, hnum, hnotint]
  simp

theorem renderColumn_date {cells : List Value} (h : cells.all Value.isDateOrNa = true) :
    renderColumn cells =
      cells.map (fun v => match v with | .date y m d => renderDate y m d | _ => []) := by
  unfold renderColumn
  rw [h]
  simp

theorem parseDataColumn_int_col {cells : List Value} (hne : cells ≠ [])
    (hall : ∀ v ∈ cells, ∃ n : ℤ, v = Value.int n) :
    parseDataColumn ((renderColumn (convertCol cells)).map String.mk) = cells := by
  obtain ⟨v0, tail0, hcells⟩ := List.exists_cons_of_ne_nil hne
  have hv0mem' : v0 ∈ cells := by rw [hcells]; exact List.mem_cons_self v0 tail0
  obtain ⟨n0, hv0⟩ := hall v0 hv0mem'
  have hv0mem : Value.int n0 ∈ cells := hv0 ▸ hv0mem'
  have hnum : cells.all Value.isNumOrNa = true := by
    rw [List.all_eq_true]
    intro v hv
    obtain ⟨n, rfl⟩ := hall v hv
    rfl
  have hint : cells.all Value.isIntOrNa = true := by
    rw [List.all_eq_true]
    intro v hv
    obtain ⟨n, rfl⟩ := hall v hv
    rfl
  rw [convertCol_int_id hall, renderColumn_int hv0mem rfl hnum hint, parseDataColumn_mk]
  have htest1 : (cells.map renderIntCell).all
      (fun c => !(DEFAULT_NA_VALUES.contains (String.mk c)) && (parseIntStr c).isSome) = true := by
    rw [List.all_eq_true]
    intro c hc
    obtain ⟨v, hv, rfl⟩ := List.mem_map.mp hc
    obtain ⟨n, rfl⟩ := hall v hv
    show (!(DEFAULT_NA_VALUES.contains (String.mk (renderInt n))) &&
      (parseIntStr (renderInt n)).isSome) = true
    rw [parseIntStr_renderInt, not_na_of_numLike (renderInt_ne_nil n) (renderInt_numLike n)]
    rfl
  rw [htest1, if_pos rfl, List.map_map]
  conv_rhs => rw [← List.map_id cells]
  apply List.map_congr_left
  intro v hv
  obtain ⟨n, rfl⟩ := hall v hv
  show (match parseIntStr (renderInt n) with
    | some k => Value.int k | none => Value.na) = Value.int n
  rw [parseIntStr_renderInt]

theorem parseDataColumn_float_col {cells : List Value}
    (hall : ∀ v ∈ cells, v = Value.na ∨ ∃ q : ℚ, v = Value.rat q ∧
      ∃ m t : ℤ, q = (m : ℚ) * (10 : ℚ) ^ t ∧ m.natAbs < 10 ^ 12)
    (hmix : (∃ q : ℚ, Value.rat q ∈ cells ∧ q.den ≠ 1) ∨
      (Value.na ∈ cells ∧ ∃ q : ℚ, Value.rat q ∈ cells)) :
    parseDataColumn ((renderColumn (convertCol cells)).map String.mk) = cells := by
  have hrep : ∀ q : ℚ, Value.rat q ∈ cells →
      ∃ m t : ℤ, q = (m : ℚ) * (10 : ℚ) ^ t ∧ m.natAbs < 10 ^ 12 := by
    intro q hq
    rcases hall _ hq with h | ⟨q', hq', hr⟩
    · exact absurd h (by simp)
    · rw [Value.rat.injEq] at hq'
      rw [hq']
      exact hr
  by_cases hfrac : ∃ q : ℚ, Value.rat q ∈ cells ∧ q.den ≠ 1
  · obtain ⟨q0, hq0mem, hq0den⟩ := hfrac
    have hconv : convertCol cells = cells := by
      have h2 : cells.all Value.isIntegralOrNa = false :=
        List.all_eq_false.mpr ⟨_, hq0mem, by simp [Value.isIntegralOrNa, hq0den]⟩
      unfold convertCol
      rw [h2]
      rw [Bool.and_false]
      rfl
    have hnum : cells.all Value.isNumOrNa = true := by
      rw [List.all_eq_true]
      intro v hv
      rcases hall v hv with rfl | ⟨q, rfl, -⟩ <;> rfl
    have hnotint : cells.all Value.isIntOrNa = false :=
      List.all_eq_false.mpr ⟨_, hq0mem, by simp [Value.isIntOrNa]⟩
    rw [hconv, renderColumn_float hq0mem rfl hnum hnotint, parseDataColumn_mk]
    have hq0ne : q0 ≠ 0 := by
      intro h0
      rw [h0] at hq0den
      exact hq0den rfl
    have hint_none : parseIntStr (fmtG 12 q0) = none :=
      parseIntStr_fmtG_nonintegral (hrep q0 hq0mem) hq0den
    have htest1 : (cells.map renderFloatCell).all
        (fun c => !(DEFAULT_NA_VALUES.contains (String.mk c)) &&
          (parseIntStr c).isSome) = false := by
      rw [List.all_eq_false]
      refine ⟨renderFloatCell (Value.rat q0), List.mem_map_of_mem _ hq0mem, ?_⟩
      show ¬(!(DEFAULT_NA_VALUES.contains (String.mk (fmtG 12 q0))) &&
        (parseIntStr (fmtG 12 q0)).isSome) = true
      rw [hint_none]
      simp
    rw [htest1, if_neg (by simp)]
    have htest2 : (cells.map renderFloatCell).all
        (fun c => DEFAULT_NA_VALUES.contains (String.mk c) ||
          (parseFloatCell c).isSome) = true := by
      rw [List.all_eq_true]
      intro c hc
      obtain ⟨v, hv, rfl⟩ := List.mem_map.mp hc
      rcases hall v hv with rfl | ⟨q, rfl, -⟩
      · show (DEFAULT_NA_VALUES.contains (String.mk ([] : List Char)) ||
          (parseFloatCell ([] : List Char)).isSome) = true
        rw [na_contains_empty, Bool.true_or]
      · show (DEFAULT_NA_VALUES.contains (String.mk (fmtG 12 q)) ||
          (parseFloatCell (fmtG 12 q)).isSome) = true
        rw [parseFloatCell_eq_float (parseInfStr_fmtG 12 q), parseFloatStr_fmtG12 (hrep q hv)]
        simp
    rw [htest2, if_pos rfl, List.map_map]
    conv_rhs => rw [← List.map_id cells]
    apply List.map_congr_left
    intro v hv
    rcases hall v hv with rfl | ⟨q, rfl, -⟩
    · show (if DEFAULT_NA_VALUES.contains (String.mk ([] : List Char)) then Value.na
        else match parseFloatCell ([] : List Char) with
          | some v => v | none => Value.na) = Value.na
      rw [na_contains_empty, if_pos rfl]
    · show (if DEFAULT_NA_VALUES.contains (String.mk (fmtG 12 q)) then Value.na
        else match parseFloatCell (fmtG 12 q) with
          | some v => v | none => Value.na) = Value.rat q
      rw [not_na_of_numLike (fmtG_ne_nil 12 q) (fmtG_numLike 12 q), if_neg (by simp),
        parseFloatCell_eq_float (parseInfStr_fmtG 12 q), parseFloatStr_fmtG12 (hrep q hv)]
      rfl
  · rcases hmix with hfrac' | ⟨hna, q1, hq1mem⟩
    · exact absurd hfrac' hfrac
    have hdone : ∀ q : ℚ, Value.rat q ∈ cells → q.den = 1 := by
      intro q hq
      by_contra hd
      exact hfrac ⟨q, hq, hd⟩
    have hintg : cells.all Value.isIntegralOrNa = true := by
      rw [List.all_eq_true]
      intro v hv
      rcases hall v hv with rfl | ⟨q, rfl, -⟩
      · rfl
      · show decide (q.den = 1) = true
        rw [decide_eq_true_eq]
        exact hdone q hv
    have hnum : cells.all Value.isNumOrNa = true := by
      rw [List.all_eq_true]
      intro v hv
      rcases hall v hv with rfl | ⟨q, rfl, -⟩ <;> rfl
    have hconv : convertCol cells = cells.map
        (fun v => match v with | Value.rat q => Value.int q.num | v => v) := by
      unfold convertCol
      rw [hnum, hintg]
      rfl
    rw [hconv]
    have hv1mem : Value.int q1.num ∈ cells.map
        (fun v => match v with | Value.rat q => Value.int q.num | v => v) :=
      List.mem_map_of_mem _ hq1mem
    have hnumC : (cells.map (fun v => match v with
        | Value.rat q => Value.int q.num | v => v)).all Value.isNumOrNa = true := by
      rw [List.all_eq_true]
      intro w hw
      obtain ⟨v, hv, rfl⟩ := List.mem_map.mp hw
      rcases hall v hv with rfl | ⟨q, rfl, -⟩ <;> rfl
    have hintC : (cells.map (fun v => match v with
        | Value.rat q => Value.int q.num | v => v)).all Value.isIntOrNa = true := by
      rw [List.all_eq_true]
      intro w hw
      obtain ⟨v, hv, rfl⟩ := List.mem_map.mp hw
      rcases hall v hv with rfl | ⟨q, rfl, -⟩ <;> rfl
    rw [renderColumn_int hv1mem rfl hnumC hintC, parseDataColumn_mk]
    have htest1 : ((cells.map (fun v => match v with
        | Value.rat q => Value.int q.num | v => v)).map renderIntCell).all
        (fun c => !(DEFAULT_NA_VALUES.contains (String.mk c)) &&
          (parseIntStr c).isSome) = false := by
      rw [List.all_eq_false]
      refine ⟨renderIntCell ((fun v => match v with
          | Value.rat q => Value.int q.num | v => v) Value.na),
        List.mem_map_of_mem _ (List.mem_map_of_mem _ hna), ?_⟩
      show ¬(!(DEFAULT_NA_VALUES.contains (String.mk ([] : List Char))) &&
        (parseIntStr ([] : List Char)).isSome) = true
      rw [na_contains_empty]
      simp
    rw [htest1, if_neg (by simp)]
    have htest2 : ((cells.map (fun v => match v with
        | Value.rat q => Value.int q.num | v => v)).map renderIntCell).all
        (fun c => DEFAULT_NA_VALUES.contains (String.mk c) ||
          (parseFloatCell c).isSome) = true := by
      rw [List.all_eq_true]
      intro c hc
      obtain ⟨w, hw, rfl⟩ := List.mem_map.mp hc
      obtain ⟨v, hv, rfl⟩ := List.mem_map.mp hw
      rcases hall v hv with rfl | ⟨q, rfl, -⟩
      · show (DEFAULT_NA_VALUES.contains (String.mk ([] : List Char)) ||
          (parseFloatCell ([] : List Char)).isSome) = true
        rw [na_contains_empty, Bool.true_or]
      · show (DEFAULT_NA_VALUES.contains (String.mk (renderInt q.num)) ||
          (parseFloatCell (renderInt q.num)).isSome) = true
        rw [parseFloatCell_eq_float (parseInfStr_renderInt q.num), parseFloatStr_renderInt]
        simp
    rw [htest2, if_pos rfl, List.map_map, List.map_map]
    conv_rhs => rw [← List.map_id cells]
    apply List.map_congr_left
    intro v hv
    rcases hall v hv with rfl | ⟨q, rfl, -⟩
    · show (if DEFAULT_NA_VALUES.contains (String.mk ([] : List Char)) then Value.na
        else match parseFloatCell ([] : List Char) with
          | some v => v | none => Value.na) = Value.na
      rw [na_contains_empty, if_pos rfl]
    · show (if DEFAULT_NA_VALUES.contains (String.mk (renderInt q.num)) then Value.na
        else match parseFloatCell (renderInt q.num) with
          | some v => v | none => Value.na) = Value.rat q
      rw [not_na_of_numLike (renderInt_ne_nil q.num) (renderInt_numLike q.num),
        if_neg (by simp), parseFloatCell_eq_float (parseInfStr_renderInt q.num),
        parseFloatStr_renderInt]
      rw [Rat.coe_int_num_of_den_eq_one (hdone q hv)]
      rfl

theorem parseDataColumn_str_col {cells : List Value}
    (hall : ∀ v ∈ cells, v = Value.na ∨ ∃ s : String, v = Value.str s ∧ s ∉ DEFAULT_NA_VALUES)
    (hbad : ∃ s : String, Value.str s ∈ cells ∧ s.data.any nonNumericChar = true) :
    parseDataColumn ((renderColumn (convertCol cells)).map String.mk) = cells := by
  obtain ⟨s0, hs0mem, hs0bad⟩ := hbad
  obtain ⟨x0, hx0mem, hx0⟩ := List.any_eq_true.mp hs0bad
  have hs0na : s0 ∉ DEFAULT_NA_VALUES := by
    rcases hall _ hs0mem with h | ⟨s, hs, hna⟩
    · exact absurd h (by simp)
    · rw [Value.str.injEq] at hs
      rw [hs]
      exact hna
  rw [convertCol_not_num hs0mem rfl, renderColumn_obj hs0mem rfl rfl, parseDataColumn_mk]
  have hint0 : parseIntStr s0.data = none := by
    cases hp : parseIntStr s0.data with
    | none => rfl
    | some n =>
      have hch := parseIntStr_chars hp x0 hx0mem
      rw [hx0] at hch
      exact absurd hch (by simp)
  have hfloat0 : parseFloatCell s0.data = none := by
    cases hp : parseFloatCell s0.data with
    | none => rfl
    | some v =>
      have hch := parseFloatCell_chars hp x0 hx0mem
      rw [hx0] at hch
      exact absurd hch (by simp)
  have hbool0 : parseBoolStr s0.data = none := by
    cases hp : parseBoolStr s0.data with
    | none => rfl
    | some b =>
      have hch := parseBoolStr_chars hp x0 hx0mem
      rw [hx0] at hch
      exact absurd hch (by simp)
  have hcont0 : DEFAULT_NA_VALUES.contains (String.mk s0.data) = false := by
    have hmk : String.mk s0.data = s0 := rfl
    rw [hmk]
    exact contains_eq_false hs0na
  have htest1 : (cells.map renderObjCell).all
      (fun c => !(DEFAULT_NA_VALUES.contains (String.mk c)) && (parseIntStr c).isSome) = false := by
    rw [List.all_eq_false]
    refine ⟨renderObjCell (Value.str s0), List.mem_map_of_mem _ hs0mem, ?_⟩
    show ¬(!(DEFAULT_NA_VALUES.contains (String.mk s0.data)) &&
      (parseIntStr s0.data).isSome) = true
    rw [hint0]
    simp
  rw [htest1, if_neg (by simp)]
  have htest2 : (cells.map renderObjCell).all
      (fun c => DEFAULT_NA_VALUES.contains (String.mk c) ||
        (parseFloatCell c).isSome) = false := by
    rw [List.all_eq_false]
    refine ⟨renderObjCell (Value.str s0), List.mem_map_of_mem _ hs0mem, ?_⟩
    show ¬(DEFAULT_NA_VALUES.contains (String.mk s0.data) ||
      (parseFloatCell s0.data).isSome) = true
    rw [hfloat0, hcont0]
    simp
  rw [htest2, if_neg (by simp)]
  have htest3 : (cells.map renderObjCell).all
      (fun c => DEFAULT_NA_VALUES.contains (String.mk c) ||
        (parseBoolStr c).isSome) = false := by
    rw [List.all_eq_false]
    refine ⟨renderObjCell (Value.str s0), List.mem_map_of_mem _ hs0mem, ?_⟩
    show ¬(DEFAULT_NA_VALUES.contains (String.mk s0.data) ||
      (parseBoolStr s0.data).isSome) = true
    rw [hbool0, hcont0]
    simp
  rw [htest3, if_neg (by simp), List.map_map]
  conv_rhs => rw [← List.map_id cells]
  apply List.map_congr_left
  intro v hv
  rcases hall v hv with rfl | ⟨s, rfl, hs⟩
  · show (if DEFAULT_NA_VALUES.contains (String.mk ([] : List Char)) then Value.na
      else Value.str (String.mk ([] : List Char))) = Value.na
    rw [na_contains_empty, if_pos rfl]
  · show (if DEFAULT_NA_VALUES.contains (String.mk s.data) then Value.na
      else Value.str (String.mk s.data)) = Value.str s
    have hmk : String.mk s.data = s := rfl
    rw [hmk, contains_eq_false hs, if_neg (by simp)]

theorem parseFipsColumn_render {cells : List Value} (hne : cells ≠ [])
    (hall : ∀ v ∈ cells, ∃ s : String, v = Value.str s ∧ s ∉ DEFAULT_NA_VALUES) :
    parseFipsColumn ((renderColumn cells).map String.mk) = cells := by
  obtain ⟨v0, tail0, hcells⟩ := List.exists_cons_of_ne_nil hne
  have hv0mem' : v0 ∈ cells := by rw [hcells]; exact List.mem_cons_self v0 tail0
  obtain ⟨s0, hv0, hs0⟩ := hall v0 hv0mem'
  have hs0mem : Value.str s0 ∈ cells := hv0 ▸ hv0mem'
  rw [renderColumn_obj hs0mem rfl rfl]
  unfold parseFipsColumn
  rw [List.map_map, List.map_map]
  conv_rhs => rw [← List.map_id cells]
  apply List.map_congr_left
  intro v hv
  obtain ⟨s, rfl, hs⟩ := hall v hv
  show (if DEFAULT_NA_VALUES.contains (String.mk s.data) then Value.na
    else Value.str (String.mk s.data)) = Value.str s
  have hmk : String.mk s.data = s := rfl
  rw [hmk, contains_eq_false hs, if_neg (by simp)]

theorem parseDate_renderDate {y mo d : ℕ} (hy : y < 10000) (hm : mo < 100)
    (hd : d < 100) : parseDate (renderDate y mo d) = some (y, mo, d) := by
  have hr : renderDate y mo d = [digitToChar (y / 1000 % 10), digitToChar (y / 100 % 10),
      digitToChar (y / 10 % 10), digitToChar (y % 10), '-', digitToChar (mo / 10 % 10),
      digitToChar (mo % 10), '-', digitToChar (d / 10 % 10), digitToChar (d % 10)] := rfl
  have hmap : ([digitToChar (y / 1000 % 10), digitToChar (y / 100 % 10),
      digitToChar (y / 10 % 10), digitToChar (y % 10), '-', digitToChar (mo / 10 % 10),
      digitToChar (mo % 10), '-', digitToChar (d / 10 % 10),
      digitToChar (d % 10)]).map charToDigit =
      [some (y / 1000 % 10), some (y / 100 % 10), some (y / 10 % 10), some (y % 10), none,
       some (mo / 10 % 10), some (mo % 10), none, some (d / 10 % 10), some (d % 10)] := by
    simp only [List.map_cons, List.map_nil]
    rw [charToDigit_digitToChar (Nat.mod_lt _ (by norm_num)),
        charToDigit_digitToChar (Nat.mod_lt _ (by norm_num)),
        charToDigit_digitToChar (Nat.mod_lt _ (by norm_num)),
        charToDigit_digitToChar (Nat.mod_lt _ (by norm_num)),
        charToDigit_digitToChar (Nat.mod_lt _ (by norm_num)),
        charToDigit_digitToChar (Nat.mod_lt _ (by norm_num)),
        charToDigit_digitToChar (Nat.mod_lt _ (by norm_num)),
        charToDigit_digitToChar (Nat.mod_lt _ (by norm_num))]
    rfl
  rw [hr]
  unfold parseDate
  rw [hmap]
  show (if ([digitToChar (y / 1000 % 10), digitToChar (y / 100 % 10),
      digitToChar (y / 10 % 10), digitToChar (y % 10), '-', digitToChar (mo / 10 % 10),
      digitToChar (mo % 10), '-', digitToChar (d / 10 % 10),
      digitToChar (d % 10)].getD 4 ' ' = '-' ∧
      [digitToChar (y / 1000 % 10), digitToChar (y / 100 % 10), digitToChar (y / 10 % 10),
      digitToChar (y % 10), '-', digitToChar (mo / 10 % 10), digitToChar (mo % 10), '-',
      digitToChar (d / 10 % 10), digitToChar (d % 10)].getD 7 ' ' = '-') then
      some (y / 1000 % 10 * 1000 + y / 100 % 10 * 100 + y / 10 % 10 * 10 + y % 10,
        mo / 10 % 10 * 10 + mo % 10, d / 10 % 10 * 10 + d % 10)
    else none) = some (y, mo, d)
  rw [if_pos ⟨rfl, rfl⟩]
  simp only [Option.some.injEq, Prod.mk.injEq]
  refine ⟨?_, ?_, ?_⟩ <;> omega

theorem parseDateColumn_render {cells : List Value}
    (hall : ∀ v ∈ cells, ∃ y mo d : ℕ,
      v = Value.date y mo d ∧ y < 10000 ∧ mo < 100 ∧ d < 100) :
    parseDateColumn ((renderColumn cells).map String.mk) = cells := by
  have hdateall : cells.all Value.isDateOrNa = true := by
    rw [List.all_eq_true]
    intro v hv
    obtain ⟨y, mo, d, rfl, -⟩ := hall v hv
    rfl
  rw [renderColumn_date hdateall]
  unfold parseDateColumn
  have hcond : (((cells.map (fun v => match v with
      | Value.date y m d => renderDate y m d | _ => [])).map String.mk).all
      (fun c => DEFAULT_NA_VALUES.contains c || (parseDate c.data).isSome)) = true := by
    rw [List.all_eq_true]
    intro c hc
    rw [List.map_map] at hc
    obtain ⟨v, hv, rfl⟩ := List.mem_map.mp hc
    obtain ⟨y, mo, d, rfl, hy, hm, hd⟩ := hall v hv
    show (DEFAULT_NA_VALUES.contains (String.mk (renderDate y mo d)) ||
      (parseDate (String.mk (renderDate y mo d)).data).isSome) = true
    have hdata : (String.mk (renderDate y mo d)).data = renderDate y mo d := rfl
    rw [hdata, parseDate_renderDate hy hm hd]
    simp
  rw [hcond, if_pos rfl, List.map_map, List.map_map]
  conv_rhs => rw [← List.map_id cells]
  apply List.map_congr_left
  intro v hv
  obtain ⟨y, mo, d, rfl, hy, hm, hd⟩ := hall v hv
  show (if DEFAULT_NA_VALUES.contains (String.mk (renderDate y mo d)) then Value.na
    else match parseDate (String.mk (renderDate y mo d)).data with
      | some t => Value.date t.1 t.2.1 t.2.2 | none => Value.na) = Value.date y mo d
  have hdata : (String.mk (renderDate y mo d)).data = renderDate y mo d := rfl
  rw [hdata, not_na_of_numLike (renderDate_ne_nil y mo d) (renderDate_numLike y mo d),
    if_neg (by simp), parseDate_renderDate hy hm hd]

/-! ### Assembling the frame-level round trip -/

theorem getD_map_lt {α β : Type} {l : List α} {j : ℕ} (hj : j < l.length)
    (f : α → β) (d : β) : (l.map f).getD j d = f (l.get ⟨j, hj⟩) := by
  rw [List.getD_eq_getElem?_getD, List.getElem?_map, List.getElem?_eq_getElem hj]
  rfl

theorem getD_map_range {β : Type} {n j : ℕ} (hj : j < n) (f : ℕ → β) (d : β) :
    ((List.range n).map f).getD j d = f j := by
  rw [List.getD_eq_getElem?_getD, List.getElem?_map, List.getElem?_range hj]
  rfl

theorem map_getD_range_comp {α β : Type} (l : List α) (d : α) (f : α → β) :
    (List.range l.length).map (fun i => f (l.getD i d)) = l.map f := by
  have h : (fun i => f (l.getD i d)) = f ∘ (fun i => l.getD i d) := rfl
  rw [h, ← List.map_map, map_getD_range l d]

theorem list_eq_pair {α : Type} {L : List α} (h : L.length = 2) (d : α) :
    [L.getD 0 d, L.getD 1 d] = L := by
  match L, h with
  | [a, b], _ => rfl

theorem getD_cons_two {α : Type} (a b : α) (l : List α) (k : ℕ) (d : α) :
    (a :: b :: l).getD (2 + k) d = l.getD k d := by
  have h : 2 + k = k + 2 := by omega
  rw [h]
  rfl

theorem range_add_two (N : ℕ) :
    List.range (N + 2) = 0 :: 1 :: (List.range N).map (fun k => 2 + k) := by
  induction N with
  | zero => rfl
  | succ n ih =>
    rw [show n + 1 + 2 = (n + 2) + 1 from rfl, List.range_succ, ih, List.range_succ]
    simp [Nat.add_comm]

theorem convertDtypes_indexNames (df : DataFrame) :
    df.convertDtypes.indexNames = df.indexNames := rfl

theorem convertDtypes_colNames (df : DataFrame) :
    df.convertDtypes.colNames = df.colNames := rfl

theorem convertDtypes_rows_length (df : DataFrame) :
    df.convertDtypes.rows.length = df.rows.length := by
  unfold DataFrame.convertDtypes
  simp

theorem colCells_length (df : DataFrame) (j : ℕ) :
    (df.colCells j).length = df.rows.length := by
  unfold DataFrame.colCells
  rw [List.length_map]

theorem idxCells_length (df : DataFrame) (i : ℕ) :
    (df.idxCells i).length = df.rows.length := by
  unfold DataFrame.idxCells
  rw [List.length_map]

theorem convertCol_length (cells : List Value) :
    (convertCol cells).length = cells.length := by
  unfold convertCol
  split_ifs <;> simp

theorem renderColumn_length (cells : List Value) :
    (renderColumn cells).length = cells.length := by
  unfold renderColumn
  split_ifs <;> simp

theorem convertDtypes_idxCells (df : DataFrame) (i : ℕ) :
    df.convertDtypes.idxCells i = df.idxCells i := by
  unfold DataFrame.convertDtypes DataFrame.idxCells
  dsimp only
  apply List.ext_getElem
  · simp
  · intro k h1 h2
    simp [List.enum]

theorem getD_map_lt' {α β : Type} {l : List α} {j : ℕ} (hj : j < l.length)
    (f : α → β) (d : β) (d' : α) : (l.map f).getD j d = f (l.getD j d') := by
  rw [List.getD_eq_getElem?_getD, List.getElem?_map, List.getElem?_eq_getElem hj,
    Option.map_some', Option.getD_some,
    List.getD_eq_getElem?_getD, List.getElem?_eq_getElem hj, Option.getD_some]

theorem convertDtypes_colCells (df : DataFrame) {j : ℕ} (hj : j < df.colNames.length) :
    df.convertDtypes.colCells j = convertCol (df.colCells j) := by
  have hlen : (convertCol (df.colCells j)).length = df.rows.length := by
    rw [convertCol_length, colCells_length]
  have h1 : df.convertDtypes.colCells j = (List.range df.rows.length).map
      (fun k => (convertCol (df.colCells j)).getD k Value.na) := by
    apply List.ext_getElem
    · unfold DataFrame.convertDtypes DataFrame.colCells
      simp
    · intro k hk1 hk2
      unfold DataFrame.convertDtypes DataFrame.colCells convertCol
      simp only [List.getElem_map, List.getElem_range, List.enum]
      rw [List.getElem_enumFrom]
      simp only [Nat.zero_add]
      have hj' : j < (((List.range df.colNames.length).map
          (fun jj => List.map (fun (r : List Value × List Value) =>
            r.2.getD jj Value.na) df.rows)).map
          (fun (cells : List Value) =>
            if (cells.all Value.isNumOrNa) && (cells.all Value.isIntegralOrNa) then
              cells.map (fun v => match v with | Value.rat q => Value.int q.num | v => v)
            else cells)).length := by
        simpa using hj
      rw [getD_map_lt hj']
      congr 1
      rw [List.get_eq_getElem, List.getElem_map, List.getElem_map, List.getElem_range]
  rw [h1]
  conv_lhs => rw [← hlen]
  rw [map_getD_range]

theorem writeCells_strs_idx (df' : DataFrame) {i : ℕ} (hi : i < df'.indexNames.length) :
    (writeCells df').map (fun l => l.getD i "") =
      (renderColumn (df'.idxCells i)).map String.mk := by
  unfold writeCells
  dsimp only
  rw [List.map_map]
  have hilen : i < ((List.range df'.indexNames.length).map
      (fun ii => renderColumn (df'.idxCells ii))).length := by
    rw [List.length_map, List.length_range]
    exact hi
  have hcol : ∀ d : List (List Char), (((List.range df'.indexNames.length).map
      (fun ii => renderColumn (df'.idxCells ii))) ++
      ((List.range df'.colNames.length).map
      (fun jj => renderColumn (df'.colCells jj)))).getD i d =
      renderColumn (df'.idxCells i) := by
    intro d
    rw [List.getD_eq_getElem?_getD, List.getElem?_append_left hilen,
      List.getElem?_map, List.getElem?_range hi, Option.map_some', Option.getD_some]
  have hi' : i < (((List.range df'.indexNames.length).map
      (fun ii => renderColumn (df'.idxCells ii))) ++
      ((List.range df'.colNames.length).map
      (fun jj => renderColumn (df'.colCells jj)))).length := by
    rw [List.length_append]
    exact Nat.lt_of_lt_of_le hilen (Nat.le_add_right _ _)
  have hcong : (List.range df'.rows.length).map
      ((fun l => l.getD i "") ∘ (fun r =>
        (((List.range df'.indexNames.length).map
          (fun ii => renderColumn (df'.idxCells ii))) ++
         ((List.range df'.colNames.length).map
          (fun jj => renderColumn (df'.colCells jj)))).map
          (fun c => String.mk (c.getD r [])))) =
      (List.range df'.rows.length).map
        (fun r => String.mk ((renderColumn (df'.idxCells i)).getD r [])) := by
    apply List.map_congr_left
    intro r hr
    dsimp only [Function.comp_apply]
    rw [getD_map_lt' hi' _ "" ([] : List (List Char)), hcol]
  rw [hcong]
  have hClen : (renderColumn (df'.idxCells i)).length = df'.rows.length := by
    rw [renderColumn_length, idxCells_length]
  rw [← hClen, map_getD_range_comp]

theorem writeCells_strs_col (df' : DataFrame) (hidx2 : df'.indexNames.length = 2)
    {j : ℕ} (hj : j < df'.colNames.length) :
    (writeCells df').map (fun l => l.getD (2 + j) "") =
      (renderColumn (df'.colCells j)).map String.mk := by
  unfold writeCells
  dsimp only
  rw [List.map_map]
  have hidxmaplen : ((List.range df'.indexNames.length).map
      (fun ii => renderColumn (df'.idxCells ii))).length = 2 := by
    rw [List.length_map, List.length_range, hidx2]
  have hcol : ∀ d : List (List Char), (((List.range df'.indexNames.length).map
      (fun ii => renderColumn (df'.idxCells ii))) ++
      ((List.range df'.colNames.length).map
      (fun jj => renderColumn (df'.colCells jj)))).getD (2 + j) d =
      renderColumn (df'.colCells j) := by
    intro d
    rw [List.getD_eq_getElem?_getD,
      List.getElem?_append_right (by rw [hidxmaplen]; omega), hidxmaplen,
      show 2 + j - 2 = j from by omega,
      List.getElem?_map, List.getElem?_range hj, Option.map_some', Option.getD_some]
  have hj' : 2 + j < (((List.range df'.indexNames.length).map
      (fun ii => renderColumn (df'.idxCells ii))) ++
      ((List.range df'.colNames.length).map
      (fun jj => renderColumn (df'.colCells jj)))).length := by
    rw [List.length_append, hidxmaplen, List.length_map, List.length_range]
    omega
  have hcong : (List.range df'.rows.length).map
      ((fun l => l.getD (2 + j) "") ∘ (fun r =>
        (((List.range df'.indexNames.length).map
          (fun ii => renderColumn (df'.idxCells ii))) ++
         ((List.range df'.colNames.length).map
          (fun jj => renderColumn (df'.colCells jj)))).map
          (fun c => String.mk (c.getD r [])))) =
      (List.range df'.rows.length).map
        (fun r => String.mk ((renderColumn (df'.colCells j)).getD r [])) := by
    apply List.map_congr_left
    intro r hr
    dsimp only [Function.comp_apply]
    rw [getD_map_lt' hj' _ "" ([] : List (List Char)), hcol]
  rw [hcong]
  have hClen : (renderColumn (df'.colCells j)).length = df'.rows.length := by
    rw [renderColumn_length, colCells_length]
  rw [← hClen, map_getD_range_comp]

theorem setIndex_header {names : List String} {R : List (List Value × List Value)}
    (hf : "fips" ∉ names) (hd : "date" ∉ names) :
    DataFrame.setIndex
      { indexNames := [none], colNames := "fips" :: "date" :: names, rows := R }
      TIMESERIES_KEYS =
      some { indexNames := canonicalIndexNames,
             colNames := names,
             rows := R.map (fun r =>
               ([r.2.getD 0 Value.na, r.2.getD 1 Value.na],
                (List.range names.length).map (fun k => r.2.getD (2 + k) Value.na))) } := by
  have hlen : ("fips" :: "date" :: names : List String).length = names.length + 2 := by
    simp
  have hrange : List.range ("fips" :: "date" :: names : List String).length =
      0 :: 1 :: (List.range names.length).map (fun k => 2 + k) := by
    rw [hlen, range_add_two]
  have hmemk : ∀ k, k < names.length →
      ("fips" :: "date" :: names : List String).getD (2 + k) "" ∈ names := by
    intro k hk
    rw [getD_cons_two, List.getD_eq_getElem?_getD, List.getElem?_eq_getElem hk,
      Option.getD_some]
    exact List.getElem_mem hk
  have hMf : ((List.range names.length).map (fun k => 2 + k)).filter
      (fun i => decide (("fips" :: "date" :: names).getD i "" = "fips")) = [] := by
    rw [List.filter_eq_nil_iff]
    intro i hi
    obtain ⟨k, hk, rfl⟩ := List.mem_map.mp hi
    rw [List.mem_range] at hk
    simp only [decide_eq_true_eq]
    intro heq
    exact hf (heq ▸ hmemk k hk)
  have hMd : ((List.range names.length).map (fun k => 2 + k)).filter
      (fun i => decide (("fips" :: "date" :: names).getD i "" = "date")) = [] := by
    rw [List.filter_eq_nil_iff]
    intro i hi
    obtain ⟨k, hk, rfl⟩ := List.mem_map.mp hi
    rw [List.mem_range] at hk
    simp only [decide_eq_true_eq]
    intro heq
    exact hd (heq ▸ hmemk k hk)
  have hfips : DataFrame.colIdxs
      { indexNames := [none], colNames := "fips" :: "date" :: names, rows := R }
      "fips" = [0] := by
    unfold DataFrame.colIdxs
    dsimp only
    rw [hrange]
    show (0 : ℕ) :: ((List.range names.length).map (fun k => 2 + k)).filter
      (fun i => decide (("fips" :: "date" :: names).getD i "" = "fips")) = [0]
    rw [hMf]
  have hdate : DataFrame.colIdxs
      { indexNames := [none], colNames := "fips" :: "date" :: names, rows := R }
      "date" = [1] := by
    unfold DataFrame.colIdxs
    dsimp only
    rw [hrange]
    show (1 : ℕ) :: ((List.range names.length).map (fun k => 2 + k)).filter
      (fun i => decide (("fips" :: "date" :: names).getD i "" = "date")) = [1]
    rw [hMd]
  have hkeep : (List.range ("fips" :: "date" :: names : List String).length).filter
      (fun i => !(([0, 1] : List ℕ).contains i)) =
      (List.range names.length).map (fun k => 2 + k) := by
    rw [hrange]
    show ((List.range names.length).map (fun k => 2 + k)).filter
      (fun i => !(([0, 1] : List ℕ).contains i)) =
      (List.range names.length).map (fun k => 2 + k)
    apply List.filter_eq_self.mpr
    intro i hi
    obtain ⟨k, hk, rfl⟩ := List.mem_map.mp hi
    simp
    omega
  unfold DataFrame.setIndex
  have hlist : listMapOpt (fun k =>
      match DataFrame.colIdxs
        { indexNames := [none], colNames := "fips" :: "date" :: names, rows := R } k with
      | [i] => some i
      | _ => none) TIMESERIES_KEYS = some [0, 1] := by
    show listMapOpt _ ["fips", "date"] = some [0, 1]
    simp only [listMapOpt, hfips, hdate]
  rw [hlist]
  show some _ = some _
  rw [Option.some.injEq, DataFrame.mk.injEq]
  refine ⟨rfl, ?_, ?_⟩
  · dsimp only
    rw [hkeep, List.map_map]
    have hcong : (List.range names.length).map
        ((fun i => ("fips" :: "date" :: names).getD i "") ∘ (fun k => 2 + k)) =
        (List.range names.length).map (fun k => names.getD k "") :=
      List.map_congr_left (fun k _ => getD_cons_two "fips" "date" names k "")
    rw [hcong]
    exact map_getD_range names ""
  · dsimp only
    rw [hkeep]
    apply List.map_congr_left
    intro r hr
    refine congrArg₂ Prod.mk rfl ?_
    rw [List.map_map]
    rfl

theorem readCsv_header {names : List String} {lines : List (List String)}
    (hf : "fips" ∉ names) (hd : "date" ∉ names) :
    readCsv { header := "fips" :: "date" :: names, lines := lines } =
      some { indexNames := canonicalIndexNames,
             colNames := names,
             rows := (List.range lines.length).map (fun i =>
               ([(parseFipsColumn (lines.map (fun l => l.getD 0 ""))).getD i Value.na,
                 (parseDateColumn (lines.map (fun l => l.getD 1 ""))).getD i Value.na],
                (List.range names.length).map (fun k =>
                  (parseDataColumn (lines.map (fun l =>
                    l.getD (2 + k) ""))).getD i Value.na))) } := by
  have hlen : ("fips" :: "date" :: names : List String).length = names.length + 2 := by
    simp
  have h0 : (0 : ℕ) < ("fips" :: "date" :: names : List String).length := by
    rw [hlen]; omega
  have h1 : (1 : ℕ) < ("fips" :: "date" :: names : List String).length := by
    rw [hlen]; omega
  have hg0 : ("fips" :: "date" :: names : List String).getD 0 "" = "fips" := rfl
  have hg1 : ("fips" :: "date" :: names : List String).getD 1 "" = "date" := rfl
  have hne1 : ¬(("fips" :: "date" :: names : List String).getD 1 "" = "fips") := by
    rw [hg1]
    intro hcon
    exact absurd hcon (by decide)
  have hfn0 : (if ("fips" :: "date" :: names : List String).getD 0 "" = "fips" then
        parseFipsColumn (lines.map (fun l => l.getD 0 ""))
      else if ("fips" :: "date" :: names : List String).getD 0 "" = "date" then
        parseDateColumn (lines.map (fun l => l.getD 0 ""))
      else parseDataColumn (lines.map (fun l => l.getD 0 ""))) =
      parseFipsColumn (lines.map (fun l => l.getD 0 "")) := if_pos hg0
  have hfn1 : (if ("fips" :: "date" :: names : List String).getD 1 "" = "fips" then
        parseFipsColumn (lines.map (fun l => l.getD 1 ""))
      else if ("fips" :: "date" :: names : List String).getD 1 "" = "date" then
        parseDateColumn (lines.map (fun l => l.getD 1 ""))
      else parseDataColumn (lines.map (fun l => l.getD 1 ""))) =
      parseDateColumn (lines.map (fun l => l.getD 1 "")) := by
    rw [if_neg hne1, if_pos hg1]
  have hmemk : ∀ k, k < names.length →
      ("fips" :: "date" :: names : List String).getD (2 + k) "" ∈ names := by
    intro k hk
    rw [getD_cons_two, List.getD_eq_getElem?_getD, List.getElem?_eq_getElem hk,
      Option.getD_some]
    exact List.getElem_mem hk
  have hfnk : ∀ k, k < names.length →
      (if ("fips" :: "date" :: names : List String).getD (2 + k) "" = "fips" then
        parseFipsColumn (lines.map (fun l => l.getD (2 + k) ""))
      else if ("fips" :: "date" :: names : List String).getD (2 + k) "" = "date" then
        parseDateColumn (lines.map (fun l => l.getD (2 + k) ""))
      else parseDataColumn (lines.map (fun l => l.getD (2 + k) ""))) =
      parseDataColumn (lines.map (fun l => l.getD (2 + k) "")) := by
    intro k hk
    have hnef : ¬(("fips" :: "date" :: names : List String).getD (2 + k) "" = "fips") := by
      intro heq
      exact hf (heq ▸ hmemk k hk)
    have hned : ¬(("fips" :: "date" :: names : List String).getD (2 + k) "" = "date") := by
      intro heq
      exact hd (heq ▸ hmemk k hk)
    rw [if_neg hnef, if_neg hned]
  unfold readCsv
  dsimp only
  rw [setIndex_header hf hd]
  rw [Option.some.injEq, DataFrame.mk.injEq]
  refine ⟨rfl, rfl, ?_⟩
  rw [List.map_map]
  apply List.map_congr_left
  intro i hi
  dsimp only
  refine congrArg₂ Prod.mk ?_ ?_
  · simp only [List.map_map]
    rw [getD_map_range h0 _ Value.na, getD_map_range h1 _ Value.na]
    simp only [Function.comp_apply]
    rw [hfn0, hfn1]
  · apply List.map_congr_left
    intro k hk
    rw [List.mem_range] at hk
    have h2k : 2 + k < ("fips" :: "date" :: names : List String).length := by
      rw [hlen]; omega
    simp only [List.map_map]
    rw [getD_map_range h2k _ Value.na]
    simp only [Function.comp_apply]
    rw [hfnk k hk]

theorem parseDataColumn_colOk {cells : List Value} (hne : cells ≠ []) (hok : ColOk cells) :
    parseDataColumn ((renderColumn (convertCol cells)).map String.mk) = cells := by
  rcases hok with h | ⟨h1, h2⟩ | ⟨h1, h2⟩
  · exact parseDataColumn_int_col hne h
  · exact parseDataColumn_float_col h1 h2
  · exact parseDataColumn_str_col h1 h2

set_option maxHeartbeats 1000000 in
/-- C3 (amended): the write/read round trip on exactly-representable frames.
For a normalized frame (a fixpoint of `fix_df_index`) with at least one row,
string fips values that are no NA literals, dates with four-digit years, no
data column named `fips` or `date`, and every data column of a
round-trippable shape (`ColOk`: all integers; floats exactly representable
in 12 significant decimal digits that read back as a float column; or
strings that are no NA literals among which one holds a character occurring
in no numeric, boolean or infinity literal), `write_csv` followed by
`read_csv` reproduces the frame exactly — in particular every (fips, date,
field, value) triple.  The original unconditional claim is false: `%.12g`
rounds to 12 significant digits (see the counterexample). -/
theorem C3_amended_round_trip (df : DataFrame)
    (hfix : fixDfIndex df = some (df, []))
    (hwf : df.WF)
    (hfips : "fips" ∉ df.colNames) (hdate : "date" ∉ df.colNames)
    (hrows : df.rows ≠ [])
    (hidx0 : ∀ v ∈ df.idxCells 0, ∃ s : String, v = Value.str s ∧ s ∉ DEFAULT_NA_VALUES)
    (hidx1 : ∀ v ∈ df.idxCells 1, ∃ y mo d : ℕ,
      v = Value.date y mo d ∧ y < 10000 ∧ mo < 100 ∧ d < 100)
    (hcols : ∀ j, j < df.colNames.length → ColOk (df.colCells j)) :
    (writeCsv df).bind (fun p => readCsv p.1) = some df := by
  obtain ⟨⟨df1, evs⟩, hhead, htail⟩ := Option.map_eq_some'.mp hfix
  have hidxn : df.indexNames = canonicalIndexNames := by
    have h2 := fixTail_indexNames df1 evs
    rw [htail] at h2
    exact h2.trans (fixHead_indexNames hhead)
  have hw : writeCsv df = some (Csv.mk ("fips" :: "date" :: df.colNames)
      (writeCells df.convertDtypes),
      [Event.writingDataFrame canonicalIndexNames]) := by
    unfold writeCsv
    rw [hfix, Option.map_some']
    dsimp only
    rw [hidxn]
    rfl
  rw [hw, Option.some_bind]
  rw [readCsv_header hfips hdate]
  rw [Option.some.injEq]
  have hL : (writeCells df.convertDtypes).length = df.rows.length := by
    unfold writeCells
    dsimp only
    rw [List.length_map, List.length_range, convertDtypes_rows_length]
  have hidxlen2 : df.convertDtypes.indexNames.length = 2 := by
    rw [convertDtypes_indexNames, hidxn]
    rfl
  have hb0 : (0 : ℕ) < df.convertDtypes.indexNames.length := by rw [hidxlen2]; omega
  have hb1 : (1 : ℕ) < df.convertDtypes.indexNames.length := by rw [hidxlen2]; omega
  have hp0 : parseFipsColumn ((writeCells df.convertDtypes).map
      (fun l => l.getD 0 "")) = df.idxCells 0 := by
    rw [writeCells_strs_idx df.convertDtypes hb0, convertDtypes_idxCells]
    refine parseFipsColumn_render ?_ hidx0
    intro hcon
    unfold DataFrame.idxCells at hcon
    exact hrows (List.map_eq_nil_iff.mp hcon)
  have hp1 : parseDateColumn ((writeCells df.convertDtypes).map
      (fun l => l.getD 1 "")) = df.idxCells 1 := by
    rw [writeCells_strs_idx df.convertDtypes hb1, convertDtypes_idxCells]
    exact parseDateColumn_render hidx1
  have hpk : ∀ k, k < df.colNames.length →
      parseDataColumn ((writeCells df.convertDtypes).map
        (fun l => l.getD (2 + k) "")) = df.colCells k := by
    intro k hk
    have hk' : k < df.convertDtypes.colNames.length := by
      rw [convertDtypes_colNames]
      exact hk
    rw [writeCells_strs_col df.convertDtypes hidxlen2 hk', convertDtypes_colCells df hk]
    refine parseDataColumn_colOk ?_ (hcols k hk)
    intro hcon
    unfold DataFrame.colCells at hcon
    exact hrows (List.map_eq_nil_iff.mp hcon)
  conv_rhs => rw [show df = DataFrame.mk df.indexNames df.colNames df.rows from rfl]
  rw [DataFrame.mk.injEq]
  refine ⟨hidxn.symm, rfl, ?_⟩
  apply List.ext_getElem
  · rw [List.length_map, List.length_range, hL]
  · intro i h1 h2
    simp only [List.getElem_map, List.getElem_range]
    rw [hp0, hp1]
    have hsnd : (List.range df.colNames.length).map (fun k =>
        (parseDataColumn ((writeCells df.convertDtypes).map (fun l =>
          l.getD (2 + k) ""))).getD i Value.na) =
        (List.range df.colNames.length).map
          (fun k => (df.colCells k).getD i Value.na) :=
      List.map_congr_left (fun k hk => by rw [hpk k (List.mem_range.mp hk)])
    rw [hsnd]
    have hidx0i : (df.idxCells 0).getD i Value.na =
        (df.rows.get ⟨i, h2⟩).1.getD 0 Value.na := by
      unfold DataFrame.idxCells
      rw [getD_map_lt h2]
    have hidx1i : (df.idxCells 1).getD i Value.na =
        (df.rows.get ⟨i, h2⟩).1.getD 1 Value.na := by
      unfold DataFrame.idxCells
      rw [getD_map_lt h2]
    have hcolki : ∀ k, (df.colCells k).getD i Value.na =
        (df.rows.get ⟨i, h2⟩).2.getD k Value.na := by
      intro k
      unfold DataFrame.colCells
      rw [getD_map_lt h2]
    rw [hidx0i, hidx1i]
    have hsnd2 : (List.range df.colNames.length).map
        (fun k => (df.colCells k).getD i Value.na) =
        (List.range df.colNames.length).map
        (fun k => (df.rows.get ⟨i, h2⟩).2.getD k Value.na) :=
      List.map_congr_left (fun k _ => hcolki k)
    rw [hsnd2]
    have hwfi := hwf (df.rows.get ⟨i, h2⟩) (List.get_mem df.rows i h2)
    have hfst : [(df.rows.get ⟨i, h2⟩).1.getD 0 Value.na,
        (df.rows.get ⟨i, h2⟩).1.getD 1 Value.na] = (df.rows.get ⟨i, h2⟩).1 :=
      list_eq_pair (by rw [hwfi.1, hidxn]; rfl) Value.na
    have hsnd3 : (List.range df.colNames.length).map
        (fun k => (df.rows.get ⟨i, h2⟩).2.getD k Value.na) =
        (df.rows.get ⟨i, h2⟩).2 := by
      rw [← hwfi.2, map_getD_range]
    rw [hfst, hsnd3]
    exact Prod.mk.eta

/-- C3 is falsified on a normalized frame holding the integral float
`12345678901234.0`: `%.12g` prints it as `1.23456789012e+13`, and reading
the file back yields `12345678901200.0` — a different value, so the
round trip does not reproduce the original (fips, date, field, value)
triples.  (The fractional cell `0.5` in the same column keeps it a float
column, as in the original data sets.) -/
theorem C3_counterexample :
    fixDfIndex exampleBigFloatFrame = some (exampleBigFloatFrame, []) ∧
    (writeCsv exampleBigFloatFrame).bind (fun p => readCsv p.1) =
      some { indexNames := [some "fips", some "date"],
             colNames := ["cases"],
             rows := [([.str "99", .date 2020 4 1], [.rat 12345678901200]),
                      ([.str "99", .date 2020 4 2], [.rat (mkRat 1 2)])] } ∧
    exampleBigFloatFrame.rows =
      [([.str "99", .date 2020 4 1], [.rat 12345678901234]),
       ([.str "99", .date 2020 4 2], [.rat (mkRat 1 2)])] ∧
    (12345678901200 : ℚ) ≠ (12345678901234 : ℚ) := by
  refine ⟨by decide, by decide, by decide, by decide⟩

/-- Witness: the amended C3 theorem applies to the concrete normalized frame
`exampleRoundTripFrame` (one float column holding `0.5` and a missing
value), and the round trip reproduces it exactly. -/
theorem C3_witness :
    (fixDfIndex exampleRoundTripFrame = some (exampleRoundTripFrame, []) ∧
     exampleRoundTripFrame.WF ∧
     "fips" ∉ exampleRoundTripFrame.colNames ∧
     "date" ∉ exampleRoundTripFrame.colNames ∧
     exampleRoundTripFrame.rows ≠ []) ∧
    (writeCsv exampleRoundTripFrame).bind (fun p => readCsv p.1) =
      some exampleRoundTripFrame :=
  ⟨⟨by decide, by decide, by decide, by decide, by decide⟩,
   C3_amended_round_trip exampleRoundTripFrame (by decide) (by decide) (by decide)
     (by decide) (by decide)
     (by
       intro v hv
       have hc : exampleRoundTripFrame.idxCells 0 =
           [Value.str "36", Value.str "36"] := rfl
       rw [hc] at hv
       rcases List.mem_cons.mp hv with rfl | hv
       · exact ⟨"36", rfl, by decide⟩
       rcases List.mem_cons.mp hv with rfl | hv
       · exact ⟨"36", rfl, by decide⟩
       exact absurd hv (List.not_mem_nil v))
     (by
       intro v hv
       have hc : exampleRoundTripFrame.idxCells 1 =
           [Value.date 2020 3 2, Value.date 2020 3 3] := rfl
       rw [hc] at hv
       rcases List.mem_cons.mp hv with rfl | hv
       · exact ⟨2020, 3, 2, rfl, by omega, by omega, by omega⟩
       rcases List.mem_cons.mp hv with rfl | hv
       · exact ⟨2020, 3, 3, rfl, by omega, by omega, by omega⟩
       exact absurd hv (List.not_mem_nil v))
     (by
       intro j hj
       rw [show exampleRoundTripFrame.colNames.length = 1 from rfl] at hj
       have hj0 : j = 0 := by omega
       subst hj0
       have hc : exampleRoundTripFrame.colCells 0 =
           [Value.rat (mkRat 1 2), Value.na] := rfl
       rw [hc]
       refine Or.inr (Or.inl ⟨?_, Or.inl ⟨mkRat 1 2, List.mem_cons_self _ _, by decide⟩⟩)
       intro v hv
       rcases List.mem_cons.mp hv with rfl | hv
       · refine Or.inr ⟨mkRat 1 2, rfl, 5, -1, ?_, by decide⟩
         rw [Rat.mkRat_eq_div, zpow_neg, zpow_one]
         norm_num
       rcases List.mem_cons.mp hv with rfl | hv
       · exact Or.inl rfl
       exact absurd hv (List.not_mem_nil v))⟩

end CovidDataPublic
